import Mathlib

/-!
Verification of the FDIC_OMG repository against its specification.

This file shallowly embeds the relevant parts of the repository's Python
sources into Lean:

* `fdic_omg/annotation_converter.py` (class `AnnotationConverter`),
* `fdic_omg/core.py` (class `FDICRDFGenerator`, graph-based generator),
* `fdic_omg/core_simple.py` (class `SimpleFDICRDFGenerator`),
* `fdic_omg/csv2rdf.py` (class `CSV2RDF`),
* `fdic_omg/job.py` (`process_fdic_omg_job`, `main`),
* `serve_viewer.py` (`main`).

RDF graphs (the `rdflib.Graph` objects built by the Python code) are
modelled as lists of triples with set semantics: `Graph.add` appends, and
all queries (`objects`, `subjects`, `value`, `predicate_objects`)
deduplicate, matching rdflib's set-based triple store.  Blank nodes
(`rdflib.BNode()`) are fresh, unique identifiers; they are modelled by
structured tags, which is faithful because the code relies only on their
freshness and identity.  Serialising a graph to Turtle and parsing it back
preserves the triple set and the prefix bindings; the YAML→TTL→YAML round
trip is therefore modelled as passing the graph value directly.
-/

set_option maxHeartbeats 1000000

/-- An RDF term as used by the embedded code: a URI reference, a plain
string literal, a datatyped string literal, an integer-valued literal and
a decimal-valued literal (`rdflib.Literal` over Python `int`/`float`), and
a blank node carrying a structured freshness tag. -/
inductive RTerm where
  | uri (s : String)
  | lit (s : String)
  | litTyped (s : String) (dt : String)
  | litInt (n : Int)
  | litDec (q : Rat)
  | bnode (tag : List Nat)
deriving DecidableEq, Repr

/-- An RDF triple (subject, predicate, object). -/
abbrev Triple := RTerm × RTerm × RTerm

/-- An RDF graph, built by successive `Graph.add` calls.  Queries
deduplicate, so the list models rdflib's set of triples with a definite
iteration order. -/
abbrev Graph := List Triple

/-- Keep the first occurrence of each element, dropping later
duplicates; `seen` holds the elements already emitted.  rdflib's stores
are insertion-ordered dicts and `Graph.add` of an existing triple is a
no-op, so query iteration yields each match once in first-insertion
order — this is that order for a graph modelled as the list of `add`
calls. -/
def dedupFAux {α : Type} [DecidableEq α] : List α → List α → List α
  | _, [] => []
  | seen, a :: l => if a ∈ seen then dedupFAux seen l else a :: dedupFAux (a :: seen) l

/-- First-occurrence deduplication (rdflib's set-with-insertion-order
iteration). -/
def dedupF {α : Type} [DecidableEq α] (l : List α) : List α := dedupFAux [] l

/-- Model of `graph.objects(s, p)`: the distinct objects of triples with
the given subject and predicate, in first-insertion order. -/
def objectsOf (g : Graph) (s p : RTerm) : List RTerm :=
  dedupF ((g.filter fun t => t.1 = s ∧ t.2.1 = p).map fun t => t.2.2)

/-- Model of `graph.subjects(p, o)`: the distinct subjects of triples with
the given predicate and object, in first-insertion order. -/
def subjectsOf (g : Graph) (p o : RTerm) : List RTerm :=
  dedupF ((g.filter fun t => t.2.1 = p ∧ t.2.2 = o).map fun t => t.1)

/-- Model of `graph.value(s, p)`: some object of a matching triple, or
`None`. -/
def valueOf (g : Graph) (s p : RTerm) : Option RTerm :=
  (objectsOf g s p).head?

/-- Model of `graph.predicate_objects(s)`. -/
def predObjsOf (g : Graph) (s : RTerm) : List (RTerm × RTerm) :=
  dedupF ((g.filter fun t => t.1 = s).map fun t => (t.2.1, t.2.2))

/-- Model of Python `str(term)` on an rdflib term: the lexical form.
rdflib literals and URIRefs subclass `str`.  (`litDec` is rendered with
Lean's `Rat` printer; no settled claim evaluates `str` on a decimal
literal.) -/
def pyStr : RTerm → String
  | .uri s => s
  | .lit s => s
  | .litTyped s _ => s
  | .litInt n => toString n
  | .litDec q => toString q
  | .bnode tag => String.intercalate "_" ("b" :: tag.map Nat.repr)

/-- Python truthiness of an rdflib term: rdflib identifiers subclass
`str`, so a term is truthy iff its lexical form is non-empty. -/
def pyTruthy (t : RTerm) : Bool := pyStr t ≠ ""

/-- Python truthiness of an `Optional[str]` value (`None` and `""` are
falsy). -/
def pyTruthyOptStr : Option String → Bool
  | none => false
  | some s => s ≠ ""

/-- Model of Python `str.strip()` (whitespace trimming; ASCII whitespace,
which covers every value the claims exercise). -/
def pyStrip (s : String) : String :=
  String.mk (((s.data.dropWhile Char.isWhitespace).reverse.dropWhile Char.isWhitespace).reverse)

/-- Model of Python `str.lower()` restricted to ASCII letters (the inputs
of interest are file names). -/
def asciiLower (s : String) : String :=
  String.mk (s.data.map fun c => if 'A' ≤ c ∧ c ≤ 'Z' then Char.ofNat (c.toNat + 32) else c)

/-- Model of Python `str.endswith(t)`. -/
def strEndsWith (s t : String) : Bool :=
  t.data.isSuffixOf s.data

/-- Model of Python `str.startswith(t)`. -/
def strStartsWith (s t : String) : Bool :=
  t.data.isPrefixOf s.data

/-- Split a character list on a separator character (the single-character
uses of Python `str.split`). -/
def splitOnChar (c : Char) : List Char → List (List Char)
  | [] => [[]]
  | x :: xs =>
    if x = c then [] :: splitOnChar c xs
    else
      match splitOnChar c xs with
      | r :: rs => (x :: r) :: rs
      | [] => [[x]]

/-- Model of Python `s.split(sep)` for a one-character separator. -/
def strSplitOnChar (s : String) (c : Char) : List String :=
  (splitOnChar c s.data).map String.mk

/-- Delete every occurrence of `pat` from `l`, left to right (Python
`s.replace(pat, '')`); fuel-driven structural recursion over the input
length (one character is consumed per step, so the fuel suffices). -/
def stripOccAux (pat : List Char) : Nat → List Char → List Char
  | 0, l => l
  | _, [] => []
  | fuel + 1, x :: xs =>
    if pat ≠ [] ∧ pat.isPrefixOf (x :: xs) then
      stripOccAux pat fuel ((x :: xs).drop pat.length)
    else x :: stripOccAux pat fuel xs

/-- Model of Python `s.replace(pat, '')` (for non-empty `pat`). -/
def pyReplaceDel (s pat : String) : String :=
  String.mk (stripOccAux pat.data s.data.length s.data)

/-- Numeric value of a list of decimal digit characters. -/
def digitsToNat (l : List Char) : Nat :=
  l.foldl (fun a c => 10 * a + (c.toNat - '0'.toNat)) 0

/-- Model of Python `int(value)` on a string: optional surrounding
whitespace, an optional sign, then one or more decimal digits.  (Digit
group underscores are not modelled; no claim exercises them.)  Returns
`none` where Python raises `ValueError`. -/
def pyIntParse (s : String) : Option Int :=
  match (pyStrip s).data with
  | [] => none
  | c :: rest =>
    let p : Bool × List Char :=
      if c = '-' then (true, rest)
      else if c = '+' then (false, rest)
      else (false, c :: rest)
    if p.2 ≠ [] ∧ p.2.all (fun d => d.isDigit) then
      some ((if p.1 then -1 else 1) * (digitsToNat p.2 : Int))
    else none

/-- Model of Python `float(value)` on a string: optional surrounding
whitespace, optional sign, a decimal mantissa (`d+`, `d+.d*` or `.d+`)
and an optional exponent.  (The special forms `inf`/`nan` are not
modelled; no claim exercises them.)  Returns `none` where Python raises
`ValueError`. -/
def pyFloatParse (s : String) : Option Rat :=
  let core : List Char → Option Rat := fun l =>
    let ip := l.takeWhile fun d => d.isDigit
    let r1 := l.dropWhile fun d => d.isDigit
    let fpr : List Char × List Char :=
      match r1 with
      | '.' :: r2 => (r2.takeWhile fun d => d.isDigit, r2.dropWhile fun d => d.isDigit)
      | _ => ([], r1)
    let fp := fpr.1
    let r2 := fpr.2
    if ip = [] ∧ fp = [] then none
    else
      let mant : Rat := (digitsToNat ip : Rat) + (digitsToNat fp : Rat) / ((10 : Rat) ^ fp.length)
      match r2 with
      | [] => some mant
      | e :: r3 =>
        if e = 'e' ∨ e = 'E' then
          let q : Bool × List Char :=
            match r3 with
            | '-' :: r4 => (true, r4)
            | '+' :: r4 => (false, r4)
            | _ => (false, r3)
          if q.2 ≠ [] ∧ q.2.all (fun d => d.isDigit) then
            some (mant * (10 : Rat) ^ ((if q.1 then -1 else 1) * (digitsToNat q.2 : Int)))
          else none
        else none
  match (pyStrip s).data with
  | [] => none
  | c :: rest =>
    if c = '-' then (core rest).map (fun q => -q)
    else if c = '+' then core rest
    else core (c :: rest)

/-! ### Injectivity of `Nat.repr`

The embedded code builds URIs and blank-node tags from decimal renderings
of row/column indices; distinctness of those identifiers reduces to
injectivity of `Nat.repr`, proved here from first principles. -/

/-- Decimal digit characters of `n`, most significant first (the value
computed by `Nat.toDigits 10`). -/
def natDigits (n : Nat) : List Char :=
  if n < 10 then [Nat.digitChar n]
  else natDigits (n / 10) ++ [Nat.digitChar (n % 10)]
decreasing_by exact Nat.div_lt_self (by omega) (by omega)

/-! ## `fdic_omg/annotation_converter.py` — class `AnnotationConverter`

The YAML documents accepted by the documented schema (spec §3/§6) are
modelled by `AnnotationConv.YDoc`; `yaml_to_ttl` becomes a pure function
from a document to the RDF graph it serialises (plus the prefix
bindings), and `ttl_to_yaml` becomes a pure function from a graph (plus
bindings) back to a document shape.  Writing the Turtle file and parsing
it back preserves the triple set and bindings, so the round trip is the
composition of the two functions. -/

namespace AnnotationConv

def rdfNs : String := "http://www.w3.org/1999/02/22-rdf-syntax-ns#"
def rdfsNs : String := "http://www.w3.org/2000/01/rdf-schema#"
def owlNs : String := "http://www.w3.org/2002/07/owl#"
def xsdNs : String := "http://www.w3.org/2001/XMLSchema#"
def dctermsNs : String := "http://purl.org/dc/terms/"
def skosNs : String := "http://www.w3.org/2004/02/skos/core#"
def csvwNs : String := "http://www.w3.org/ns/csvw#"
def dcatNs : String := "http://www.w3.org/ns/dcat#"
def voidNs : String := "http://rdfs.org/ns/void#"
def provNs : String := "http://www.w3.org/ns/prov#"

def rdfTypeT : RTerm := .uri (rdfNs ++ "type")
def rdfPropertyT : RTerm := .uri (rdfNs ++ "Property")
def rdfsClassT : RTerm := .uri (rdfsNs ++ "Class")
def rdfsLabelT : RTerm := .uri (rdfsNs ++ "label")
def rdfsCommentT : RTerm := .uri (rdfsNs ++ "comment")
def rdfsDomainT : RTerm := .uri (rdfsNs ++ "domain")
def rdfsSeeAlsoT : RTerm := .uri (rdfsNs ++ "seeAlso")
def rdfsSubClassOfT : RTerm := .uri (rdfsNs ++ "subClassOf")
def owlEquivPropT : RTerm := .uri (owlNs ++ "equivalentProperty")
def owlSameAsT : RTerm := .uri (owlNs ++ "sameAs")
def dctTitleT : RTerm := .uri (dctermsNs ++ "title")
def dctDescriptionT : RTerm := .uri (dctermsNs ++ "description")
def dctPublisherT : RTerm := .uri (dctermsNs ++ "publisher")
def dctSourceT : RTerm := .uri (dctermsNs ++ "source")
def dctLicenseT : RTerm := .uri (dctermsNs ++ "license")
def dctCreatedT : RTerm := .uri (dctermsNs ++ "created")
def dctModifiedT : RTerm := .uri (dctermsNs ++ "modified")
def dcatDatasetT : RTerm := .uri (dcatNs ++ "Dataset")
def wikidataEntityNs : String := "http://www.wikidata.org/entity/"

/-- `RELATION_MAPPING` from `annotation_converter.py`, in source
(insertion) order; values are the target predicate URIs. -/
def relationTable : List (String × String) :=
  [("equivalent", owlNs ++ "equivalentProperty"),
   ("exact", owlNs ++ "equivalentProperty"),
   ("similar", rdfsNs ++ "seeAlso"),
   ("instance_of", rdfNs ++ "type"),
   ("subclass_of", rdfsNs ++ "subClassOf"),
   ("related", rdfsNs ++ "seeAlso"),
   ("broader", skosNs ++ "broader"),
   ("narrower", skosNs ++ "narrower")]

/-- `DATATYPE_MAPPING` from `annotation_converter.py`, in source order;
values are the XSD datatype URIs. -/
def datatypeTable : List (String × String) :=
  [("string", xsdNs ++ "string"),
   ("integer", xsdNs ++ "integer"),
   ("decimal", xsdNs ++ "decimal"),
   ("float", xsdNs ++ "float"),
   ("double", xsdNs ++ "double"),
   ("boolean", xsdNs ++ "boolean"),
   ("date", xsdNs ++ "date"),
   ("dateTime", xsdNs ++ "dateTime"),
   ("time", xsdNs ++ "time"),
   ("anyURI", xsdNs ++ "anyURI")]

/-- First-match lookup in an association list (Python `dict` access for
dicts built without key collisions). -/
def lookupStr (ps : List (String × String)) (k : String) : Option String :=
  (ps.find? fun p => p.1 = k).map fun p => p.2

/-- One entry of a column's `mappings` list. -/
structure YMapping where
  property : String
  relation : String
deriving DecidableEq, Repr

/-- One entry of a column's `references` list: a bare URL string, a
`\x7burl: ...\x7d` dict, or a `\x7bwikidata: ...\x7d` dict. -/
inductive YRef where
  | plain (u : String)
  | urlDict (u : String)
  | wikidataDict (id : String)
deriving DecidableEq, Repr

/-- A column's `comments` entry: absent, a single string, or a list. -/
inductive YComments where
  | nothing
  | one (s : String)
  | many (ss : List String)
deriving DecidableEq, Repr

/-- The per-column annotation fields of the documented YAML schema.
`semantic_type` is accepted by the schema; `yaml_to_ttl` silently skips
it (it is in the key list excluded from generic-property emission and has
no specific handler). -/
structure YColumn where
  label : Option String := none
  description : Option String := none
  semanticTypeField : Option String := none
  dataTypeField : Option String := none
  mappings : List YMapping := []
  references : List YRef := []
  comments : YComments := .nothing
deriving DecidableEq, Repr

/-- The named `dataset_metadata` fields of the documented schema. -/
structure YDatasetMeta where
  title : Option String := none
  description : Option String := none
  publisher : Option String := none
  source : Option String := none
  license : Option String := none
deriving DecidableEq, Repr

/-- The `file_metadata` fields of the documented schema. -/
structure YFileMeta where
  created : Option String := none
  modified : Option String := none
  version : Option String := none
deriving DecidableEq, Repr

/-- A YAML annotation document of the documented schema. -/
structure YDoc where
  prefixes : List (String × String) := []
  columns : List (String × YColumn) := []
  datasetMeta : Option YDatasetMeta := none
  fileMeta : Option YFileMeta := none
deriving DecidableEq, Repr

/-- `_expand_uri`: expand `pre:loc` using the document's prefix table;
strings without a colon, or starting with `http`, pass through. -/
def expandUri (prefixes : List (String × String)) (u : String) : String :=
  if u.data.contains ':' ∧ ¬ strStartsWith u "http" then
    let pre := String.mk (u.data.takeWhile fun c => c ≠ ':')
    let loc := String.mk ((u.data.dropWhile fun c => c ≠ ':').drop 1)
    match lookupStr prefixes pre with
    | some ns => ns ++ loc
    | none => u
  else u

/-- `_compact_uri`: best-effort inverse, scanning the prefix table for a
matching namespace stem. -/
def compactUri (prefixes : List (String × String)) (u : String) : String :=
  match prefixes.find? (fun p => strStartsWith u p.2) with
  | some p => p.1 ++ ":" ++ String.mk (u.data.drop p.2.data.length)
  | none => u

/-- `re.sub(r'[^a-zA-Z0-9_-]', '_', str(column_id))`. -/
def safeId (s : String) : String :=
  String.mk (s.data.map fun c => if c.isAlphanum ∨ c = '_' ∨ c = '-' then c else '_')

/-- URI-disambiguation loop of `yaml_to_ttl`: try `base`, then `base_1`,
`base_2`, … until a name not in `used` is found.  A fresh candidate
always exists among the first `used.length + 2` (they are pairwise
distinct), so `find?` succeeds; the `getD` fallback is never taken. -/
def pickFresh (baseName : String) (used : List String) : String :=
  ((baseName :: (List.range (used.length + 1)).map fun k =>
      baseName ++ "_" ++ Nat.repr (k + 1)).find? fun c => c ∉ used).getD baseName

/-- Assign the column resource local names in document order, threading
the `used_uris` set. -/
def assignUris : List (String × YColumn) → List String → List (String × String × YColumn)
  | [], _ => []
  | (n, cd) :: rest, used =>
    let ln := pickFresh ("column_" ++ safeId n) used
    (ln, n, cd) :: assignUris rest (ln :: used)

/-- The fixed class/property declarations written at the top of
`yaml_to_ttl`. -/
def preludeTriples (base : String) : Graph :=
  [(.uri (base ++ "ColumnAnnotation"), rdfTypeT, rdfsClassT),
   (.uri (base ++ "ColumnAnnotation"), rdfsLabelT, .lit "Column Annotation"),
   (.uri (base ++ "ColumnAnnotation"), rdfsCommentT,
     .lit "Represents semantic annotations for CSV columns"),
   (.uri (base ++ "columnName"), rdfTypeT, rdfPropertyT),
   (.uri (base ++ "columnName"), rdfsLabelT, .lit "column name"),
   (.uri (base ++ "columnName"), rdfsDomainT, .uri (base ++ "ColumnAnnotation")),
   (.uri (base ++ "dataType"), rdfTypeT, rdfPropertyT),
   (.uri (base ++ "dataType"), rdfsLabelT, .lit "data type"),
   (.uri (base ++ "dataType"), rdfsDomainT, .uri (base ++ "ColumnAnnotation"))]

/-- The triple `yaml_to_ttl` writes for one `mappings` entry: the
relation's predicate applied to the expanded property URI, or nothing for
an unknown relation. -/
def mapTriples (prefixes : List (String × String)) (colU : RTerm) (m : YMapping) : Graph :=
  ((lookupStr relationTable m.relation).map
    fun rp => (colU, RTerm.uri rp, RTerm.uri (expandUri prefixes m.property))).toList

/-- The triple `yaml_to_ttl` writes for one `references` entry. -/
def refTriple (colU : RTerm) : YRef → Triple
  | .plain u => (colU, rdfsSeeAlsoT, RTerm.uri u)
  | .urlDict u => (colU, rdfsSeeAlsoT, RTerm.uri u)
  | .wikidataDict id => (colU, owlSameAsT, RTerm.uri (wikidataEntityNs ++ id))

/-- The triples `yaml_to_ttl` writes for a column's `comments` entry. -/
def commentTriples (colU : RTerm) : YComments → Graph
  | .nothing => []
  | .one s => [(colU, rdfsCommentT, RTerm.lit s)]
  | .many ss => ss.map fun s => (colU, rdfsCommentT, RTerm.lit s)

/-- The triples `yaml_to_ttl` writes for one column resource (in source
order: type, name, label, description, data type, mappings, references,
comments; a schema document has no additional generic keys). -/
def colTriples (base : String) (prefixes : List (String × String))
    (ln name : String) (cd : YColumn) : Graph :=
  let colU : RTerm := .uri (base ++ ln)
  [(colU, rdfTypeT, .uri (base ++ "ColumnAnnotation")),
   (colU, .uri (base ++ "columnName"), .lit name)]
  ++ (cd.label.map fun l => (colU, rdfsLabelT, RTerm.lit l)).toList
  ++ (cd.description.map fun d => (colU, dctDescriptionT, RTerm.lit d)).toList
  ++ (cd.dataTypeField.map fun dt =>
      (colU, RTerm.uri (base ++ "dataType"),
       RTerm.uri ((lookupStr datatypeTable dt).getD (xsdNs ++ "string")))).toList
  ++ (cd.mappings.map (mapTriples prefixes colU)).flatten
  ++ cd.references.map (refTriple colU)
  ++ commentTriples colU cd.comments

/-- The `dataset_metadata` triples of `yaml_to_ttl` (named schema keys,
in schema order). -/
def datasetTriples (base : String) : Option YDatasetMeta → Graph
  | none => []
  | some m =>
    (RTerm.uri (base ++ "Dataset"), rdfTypeT, dcatDatasetT)
    :: ((m.title.map fun v => (RTerm.uri (base ++ "Dataset"), dctTitleT, RTerm.lit v)).toList
    ++ (m.description.map fun v =>
        (RTerm.uri (base ++ "Dataset"), dctDescriptionT, RTerm.lit v)).toList
    ++ (m.publisher.map fun v =>
        (RTerm.uri (base ++ "Dataset"), dctPublisherT, RTerm.lit v)).toList
    ++ (m.source.map fun v => (RTerm.uri (base ++ "Dataset"), dctSourceT, RTerm.uri v)).toList
    ++ (m.license.map fun v => (RTerm.uri (base ++ "Dataset"), dctLicenseT, RTerm.uri v)).toList)

/-- The `file_metadata` triples of `yaml_to_ttl` (subject `URIRef("")`). -/
def fileTriples (base : String) : Option YFileMeta → Graph
  | none => []
  | some fm =>
    (fm.created.map fun v => (RTerm.uri "", dctCreatedT, RTerm.litTyped v (xsdNs ++ "date"))).toList
    ++ (fm.modified.map fun v =>
        (RTerm.uri "", dctModifiedT, RTerm.litTyped v (xsdNs ++ "date"))).toList
    ++ (fm.version.map fun v => (RTerm.uri "", RTerm.uri (base ++ "version"), RTerm.lit v)).toList

/-- The converter's default base URI (`AnnotationConverter.__init__`). -/
def defaultBase : String := "http://example.org/csv2rdf/"

/-- The full triple set serialised by `yaml_to_ttl`. -/
def yamlToTtlGraph (base : String) (doc : YDoc) : Graph :=
  preludeTriples base
  ++ ((assignUris doc.columns []).map fun a => colTriples base doc.prefixes a.1 a.2.1 a.2.2).flatten
  ++ datasetTriples base doc.datasetMeta
  ++ fileTriples base doc.fileMeta

/-- The prefix bindings of the graph written by `yaml_to_ttl`: the
standard block bound in source order, then the document's own prefixes
(later binds of the same prefix override). -/
def forwardBindings (base : String) (docPrefixes : List (String × String)) :
    List (String × String) :=
  let std : List (String × String) :=
    [("", base), ("csvw", csvwNs), ("dcat", dcatNs), ("void", voidNs), ("prov", provNs),
     ("dcterms", dctermsNs), ("owl", owlNs), ("rdfs", rdfsNs), ("rdf", rdfNs), ("xsd", xsdNs)]
  docPrefixes.foldl (fun acc p => (acc.filter fun q => q.1 ≠ p.1) ++ [p]) std

/-- `yaml_to_ttl` as a pure function: the graph together with its prefix
bindings (the Turtle file contents). -/
def yamlToTtl (base : String) (doc : YDoc) : Graph × List (String × String) :=
  (yamlToTtlGraph base doc, forwardBindings base doc.prefixes)

end AnnotationConv

namespace AnnotationConv

/-- A column entry reconstructed by `ttl_to_yaml`.  Reconstructed
references are bare URL strings or wikidata dicts (never url dicts). -/
structure RevColumn where
  label : Option String := none
  description : Option String := none
  dataTypeField : Option String := none
  mappings : List YMapping := []
  references : List YRef := []
  comments : YComments := .nothing
  extra : List (String × String) := []
deriving DecidableEq, Repr

/-- The document shape reconstructed by `ttl_to_yaml`.  (The Python code
additionally drops empty top-level sections when rendering YAML; the
claims compare per-column fields, which is unaffected.) -/
structure RevDoc where
  prefixes : List (String × String) := []
  columns : List (String × RevColumn) := []
  datasetMeta : List (String × String) := []
  fileMeta : List (String × String) := []
deriving DecidableEq, Repr

/-- Python dict assignment `d[k] = v`: replace in place if the key
exists, else append. -/
def dictUpsert (l : List (String × α)) (k : String) (v : α) : List (String × α) :=
  if l.any fun p => p.1 = k then l.map (fun p => if p.1 = k then (k, v) else p)
  else l ++ [(k, v)]

/-- Reverse lookup in `DATATYPE_MAPPING` (first simple name whose XSD URI
matches, as in the `break`-terminated inner loop). -/
def revLookupDatatype (u : String) : Option String :=
  (datatypeTable.find? fun p => p.2 = u).map fun p => p.1

/-- `obj_str.split('/')[-1]`. -/
def lastSlashSegment (s : String) : String :=
  ((strSplitOnChar s '/').getLast?).getD ""

/-- Does an already-collected reference entry match a seeAlso URL, as in
`r.get('url') == ref_str if isinstance(r, dict) else r == ref_str`? -/
def refMatches (r : YRef) (rs : String) : Bool :=
  match r with
  | .plain u => u = rs
  | .urlDict u => u = rs
  | .wikidataDict _ => false

/-- The mappings/references accumulation of `ttl_to_yaml`: iterate
`RELATION_MAPPING` in order; each URIRef object of the relation's
predicate becomes a wikidata reference (if under the Wikidata entity
namespace) or a mapping entry with the compacted property. -/
def revMappingsRefs (g : Graph) (prefixes : List (String × String)) (colU : RTerm) :
    List YMapping × List YRef :=
  relationTable.foldl
    (fun acc rel =>
      (objectsOf g colU (.uri rel.2)).foldl
        (fun acc o =>
          match o with
          | .uri os =>
            if strStartsWith os wikidataEntityNs then
              (acc.1, acc.2 ++ [YRef.wikidataDict (lastSlashSegment os)])
            else
              (acc.1 ++ [{ property := compactUri prefixes os, relation := rel.1 }], acc.2)
          | _ => acc)
        acc)
    ([], [])

/-- The additional `rdfs:seeAlso` reference pass of `ttl_to_yaml`. -/
def revSeeAlsoRefs (g : Graph) (colU : RTerm) (refs : List YRef) : List YRef :=
  (objectsOf g colU rdfsSeeAlsoT).foldl
    (fun acc o =>
      match o with
      | .uri rs => if acc.any (fun r => refMatches r rs) then acc else acc ++ [YRef.plain rs]
      | _ => acc)
    refs

/-- The comment collection of `ttl_to_yaml` (excluding the fixed
class-level comment text). -/
def revComments (g : Graph) (colU : RTerm) : YComments :=
  let cs := (objectsOf g colU rdfsCommentT).foldl
    (fun acc o =>
      let s := pyStr o
      if s ≠ "Represents semantic annotations for CSV columns" then acc ++ [s] else acc)
    []
  match cs with
  | [] => .nothing
  | [s] => .one s
  | ss => .many ss

/-- Keys already present in the reconstructed column dict, for the
`if key not in column_data` check of the custom-property pass. -/
def revPresentKeys (rc : RevColumn) : List String :=
  (if rc.label.isSome then ["label"] else [])
  ++ (if rc.description.isSome then ["description"] else [])
  ++ (if rc.dataTypeField.isSome then ["data_type"] else [])
  ++ (if rc.mappings ≠ [] then ["mappings"] else [])
  ++ (if rc.references ≠ [] then ["references"] else [])
  ++ (match rc.comments with | .nothing => [] | _ => ["comments"])
  ++ rc.extra.map fun p => p.1

/-- The custom-property harvest of `ttl_to_yaml`: any predicate under the
base namespace other than `columnName`/`semanticType`/`dataType` becomes
a generic key. -/
def revExtra (g : Graph) (base : String) (rc : RevColumn) (colU : RTerm) :
    List (String × String) :=
  ((predObjsOf g colU).foldl
    (fun (acc : RevColumn) po =>
      match po.1 with
      | .uri ps =>
        if strStartsWith ps base
            ∧ ps ≠ base ++ "columnName" ∧ ps ≠ base ++ "semanticType" ∧ ps ≠ base ++ "dataType"
            ∧ (pyReplaceDel ps base) ∉ revPresentKeys acc then
          { acc with extra := acc.extra ++ [(pyReplaceDel ps base, pyStr po.2)] }
        else acc
      | _ => acc)
    rc).extra

/-- The reconstructed column record for given simple fields: the
mappings, references, comments and custom keys are recomputed from the
graph exactly as `ttl_to_yaml` does. -/
def revRestFields (g : Graph) (base : String) (prefixes : List (String × String))
    (colU : RTerm) (lab desc dt : Option String) : RevColumn :=
  let mr := revMappingsRefs g prefixes colU
  let rc0 : RevColumn :=
    { label := lab, description := desc, dataTypeField := dt,
      mappings := mr.1, references := revSeeAlsoRefs g colU mr.2,
      comments := revComments g colU }
  { rc0 with extra := revExtra g base rc0 colU }

/-- Reconstruct one column entry from its resource, or `none` when the
column is skipped (`if not column_name: continue`). -/
def revColumnOf (g : Graph) (base : String) (prefixes : List (String × String))
    (colU : RTerm) : Option (String × RevColumn) :=
  match (objectsOf g colU (.uri (base ++ "columnName"))).head? with
  | none => none
  | some nt =>
    let name := pyStr nt
    if name = "" then none
    else
      let lab := (objectsOf g colU rdfsLabelT).foldl (fun _ o => some (pyStr o)) none
      let desc := (objectsOf g colU dctDescriptionT).foldl (fun _ o => some (pyStr o)) none
      let dt := (objectsOf g colU (.uri (base ++ "dataType"))).foldl
        (fun acc o => (revLookupDatatype (pyStr o)).elim acc some) none
      some (name, revRestFields g base prefixes colU lab desc dt)

/-- The `dataset_metadata` reconstruction of `ttl_to_yaml`. -/
def revDatasetMeta (g : Graph) (base : String) : List (String × String) :=
  if (RTerm.uri (base ++ "Dataset"), rdfTypeT, dcatDatasetT) ∈ g then
    (predObjsOf g (.uri (base ++ "Dataset"))).foldl
      (fun acc po =>
        if po.1 = dctTitleT then dictUpsert acc "title" (pyStr po.2)
        else if po.1 = dctDescriptionT then dictUpsert acc "description" (pyStr po.2)
        else if po.1 = dctPublisherT then dictUpsert acc "publisher" (pyStr po.2)
        else if po.1 = dctSourceT then dictUpsert acc "source" (pyStr po.2)
        else if po.1 = dctLicenseT then dictUpsert acc "license" (pyStr po.2)
        else
          match po.1 with
          | .uri ps =>
            if strStartsWith ps base then dictUpsert acc (pyReplaceDel ps base) (pyStr po.2)
            else acc
          | _ => acc)
      []
  else []

/-- The `file_metadata` reconstruction of `ttl_to_yaml`. -/
def revFileMeta (g : Graph) (base : String) : List (String × String) :=
  (((objectsOf g (.uri "") dctCreatedT).foldl
      (fun acc o => dictUpsert acc "created" (pyStr o)) [])
    |> fun acc => (objectsOf g (.uri "") dctModifiedT).foldl
      (fun acc o => dictUpsert acc "modified" (pyStr o)) acc)
    |> fun acc => (objectsOf g (.uri "") (.uri (base ++ "version"))).foldl
      (fun acc o => dictUpsert acc "version" (pyStr o)) acc

/-- `ttl_to_yaml` as a pure function from the parsed graph and its prefix
bindings to the reconstructed document. -/
def ttlToYaml (base : String) (gb : Graph × List (String × String)) : RevDoc :=
  let g := gb.1
  let pfx := gb.2.filter fun p => p.1 ≠ "" ∧ p.2 ≠ base
  let cols := (subjectsOf g rdfTypeT (.uri (base ++ "ColumnAnnotation"))).foldl
    (fun acc cu => (revColumnOf g base pfx cu).elim acc (fun nc => dictUpsert acc nc.1 nc.2))
    []
  { prefixes := pfx, columns := cols,
    datasetMeta := revDatasetMeta g base, fileMeta := revFileMeta g base }

/-- The `CERT` column of the spec's worked example: label, description,
an `integer` data type and a Wikidata reference. -/
def certDoc : YDoc :=
  { prefixes := [],
    columns := [("CERT",
      { label := some "FDIC Certificate Number",
        description := some "Unique identifier assigned by FDIC",
        dataTypeField := some "integer",
        mappings := [],
        references := [YRef.wikidataDict "Q116907062"],
        comments := .nothing })],
    datasetMeta := none, fileMeta := none }

/-- The YAML→TTL→YAML round trip of `AnnotationConverter` (writing the
Turtle file and parsing it back preserves the triple set and the
bindings). -/
def roundTrip (base : String) (doc : YDoc) : RevDoc :=
  ttlToYaml base (yamlToTtl base doc)

end AnnotationConv

/-! ## Row-cap semantics shared by the generators

`core.py` and `core_simple.py` check the cap after processing a row
(`rows_processed += 1; if max_rows and rows_processed >= max_rows:
break`); `csv2rdf.py` checks before (`if max_rows and row_idx >=
max_rows: break`).  Python truthiness makes a cap of `0` behave like no
cap in both shapes. -/

/-- Does `max_rows and count >= max_rows` hold (post-increment check of
`core.py`/`core_simple.py`)? -/
def capPostHit (cap : Option Nat) (count : Nat) : Bool :=
  match cap with
  | some k => k ≠ 0 ∧ count ≥ k
  | none => false

/-- The prefix of the rows actually processed under the post-increment
cap check, counting from `c` rows already processed. -/
def capPost (cap : Option Nat) : List α → Nat → List α
  | [], _ => []
  | r :: rs, c => r :: (if capPostHit cap (c + 1) then [] else capPost cap rs (c + 1))

/-- Does `max_rows and row_idx >= max_rows` hold (pre-check of
`csv2rdf.py`)? -/
def capPreHit (cap : Option Nat) (idx : Nat) : Bool :=
  match cap with
  | some k => k ≠ 0 ∧ idx ≥ k
  | none => false

/-- The prefix of the rows actually processed under the pre-check cap,
starting at row index `i`. -/
def capPre (cap : Option Nat) : List α → Nat → List α
  | [], _ => []
  | r :: rs, i => if capPreHit cap i then [] else r :: capPre cap rs (i + 1)

/-! ## `fdic_omg/core.py` — class `FDICRDFGenerator` (graph-based) -/

namespace CoreB

def geoNs : String := "http://www.opengis.net/ont/geosparql#"
def foafNs : String := "http://xmlns.com/foaf/0.1/"

/-- One entry of the generator's `column_mappings` table (`type`,
`data_type`, `description`, `ontology_ref`).  In the src snapshot the
`column_mappings.ttl` resource is absent, so `_load_column_mappings`
returns the empty table; the embedding keeps the table as a parameter. -/
structure ColMapping where
  semType : String
  dataTypeField : String
  description : String
  ontologyRef : String
deriving DecidableEq, Repr

/-- `column_mappings` lookup (`column in self.column_mappings`). -/
def lookupMapping (l : List (String × ColMapping)) (k : String) : Option ColMapping :=
  (l.find? fun p => p.1 = k).map fun p => p.2

/-- `_convert_value_type`: decimal → `float(value)`, integer →
`int(value)`, anything else a plain `xsd:string` literal; `none` models
the `ValueError` path that logs a warning and returns `None`. -/
def convertValueType (value dataTypeField : String) : Option RTerm :=
  if dataTypeField = "decimal" then (pyFloatParse value).map RTerm.litDec
  else if dataTypeField = "integer" then (pyIntParse value).map RTerm.litInt
  else some (.litTyped value (AnnotationConv.xsdNs ++ "string"))

/-- `graph.add((s, p, o))` where `o` may be Python `None`: rdflib
asserts that every position is an rdflib term, so a `None` object raises
an `AssertionError`. -/
def graphAddOpt (g : Graph) (s p : RTerm) (o : Option RTerm) : Except String Graph :=
  match o with
  | some t => .ok (g ++ [(s, p, t)])
  | none => .error "Object None must be an rdflib term"

/-- Cell URI `result_uri + f"cell_{index}_{column}"`. -/
def cellUri (resUri : String) (idx : Nat) (column : String) : String :=
  resUri ++ "cell_" ++ Nat.repr idx ++ "_" ++ column

/-- Row URI `result_uri + f"row_{row_idx}"`. -/
def rowUri (resUri : String) (idx : Nat) : String :=
  resUri ++ "row_" ++ Nat.repr idx

/-- `_add_cell_metadata`: generic cell triples, then for a mapped column
the typed value (omitted when conversion failed) and the
column-specific semantic enrichment.  The coordinate branch passes
`typed_value` to `graph.add` without a `None` check. -/
def addCellMetadata (resUri : String) (g : Graph) (cellU rowU column value : String)
    (m? : Option ColMapping) : Except String Graph :=
  let g := g ++ [(.uri cellU, AnnotationConv.rdfTypeT, .uri (resUri ++ "Cell")),
                 (.uri cellU, .uri (resUri ++ "columnName"), .lit column),
                 (.uri cellU, .uri (resUri ++ "rawValue"), .lit value),
                 (.uri rowU, .uri (resUri ++ "hasCell"), .uri cellU)]
  match m? with
  | none => .ok g
  | some m =>
    let typed := convertValueType value m.dataTypeField
    let g := match typed with
      | some t => g ++ [(.uri cellU, .uri (resUri ++ "typedValue"), t)]
      | none => g
    if m.semType = "coordinate" ∧ (column = "X" ∨ column = "LONGITUDE") then
      graphAddOpt g (.uri cellU) (.uri (geoNs ++ "longitude")) typed
    else if m.semType = "coordinate" ∧ (column = "Y" ∨ column = "LATITUDE") then
      graphAddOpt g (.uri cellU) (.uri (geoNs ++ "latitude")) typed
    else if m.semType = "bank_name" then
      .ok (g ++ [(.uri cellU, .uri (foafNs ++ "name"), .lit value)])
    else .ok g

/-- The `csv.DictReader` row dict for one physical row: the headers in
order, each mapped to its positional value (`None` past the row's end,
the reader's `restval`). -/
def rowDictOf (headers : List String) (vals : List String) : List (String × Option String) :=
  headers.enum.map fun ih => (ih.2, vals[ih.1]?)

/-- The loop body of `_add_row_metadata` for one `(column, value)` item:
a column present in `column_uris` always yields a cell — a full cell via
`_add_cell_metadata` when the value is non-empty after trimming,
otherwise an explicit empty cell (type, columnName, rawValue "" and the
hasCell link). -/
def rowCellStep (resUri rowU : String) (idx : Nat) (headers : List String)
    (mappings : List (String × ColMapping)) (g : Graph) (cv : String × Option String) :
    Except String Graph :=
  if cv.1 ∈ headers then
    let cellU := cellUri resUri idx cv.1
    if pyTruthyOptStr cv.2 ∧ pyStrip (cv.2.getD "") ≠ "" then
      addCellMetadata resUri g cellU rowU cv.1 (cv.2.getD "") (lookupMapping mappings cv.1)
    else
      .ok (g ++ [(.uri cellU, AnnotationConv.rdfTypeT, .uri (resUri ++ "Cell")),
                 (.uri cellU, .uri (resUri ++ "columnName"), .lit cv.1),
                 (.uri cellU, .uri (resUri ++ "rawValue"), .lit ""),
                 (.uri rowU, .uri (resUri ++ "hasCell"), .uri cellU)])
  else .ok g

/-- `_add_row_metadata`: row triples, then the cell loop over the row
dict. -/
def addRowMetadata (resUri csvU : String) (g : Graph) (idx : Nat)
    (headers : List String) (vals : List String)
    (mappings : List (String × ColMapping)) : Except String Graph :=
  let rowU := rowUri resUri idx
  let g := g ++ [(.uri rowU, AnnotationConv.rdfTypeT, .uri (resUri ++ "BankRecord")),
                 (.uri rowU, .uri (resUri ++ "rowIndex"), .litInt idx),
                 (.uri csvU, .uri (resUri ++ "hasRow"), .uri rowU)]
  (rowDictOf headers vals).foldlM (rowCellStep resUri rowU idx headers mappings) g

/-- The `(row index, row values)` records processed by
`_process_csv_data` under a row cap: rows are enumerated in file order
and the loop breaks after the cap is reached. -/
def processedRows (rows : List (List String)) (cap : Option Nat) :
    List (Nat × List String) :=
  (capPost cap rows 0).enum

end CoreB

/-! ## Viewer pagination (`core.py` and `core_simple.py`,
`generate_viewer_output`) -/

namespace Viewer

/-- `math.ceil(total_rows / rows_per_page)` on natural numbers. -/
def totalPagesOf (n p : Nat) : Nat := (n + p - 1) / p

/-- One `page_<N>.json` record. -/
structure PageRec (α : Type) where
  page : Nat
  startRow : Nat
  endRow : Nat
  rows : List α
deriving DecidableEq, Repr

/-- The manifest fields relevant to pagination. -/
structure ManifestRec where
  totalRows : Nat
  rowsPerPage : Nat
  totalPages : Nat
deriving DecidableEq, Repr

/-- The returned result fields relevant to pagination. -/
structure ResultRec where
  totalRows : Nat
  totalPages : Nat
deriving DecidableEq, Repr

/-- The paginated pages written by `generate_viewer_output` (identical
arithmetic in `core.py` and `core_simple.py`): page `i` covers
`start_idx = i*p` to `end_idx = min(i*p + p, n)`, with
`end_row = end_idx - 1` and the row slice `rows[start_idx:end_idx]`. -/
def viewerPages (rows : List α) (p : Nat) : List (PageRec α) :=
  (List.range (totalPagesOf rows.length p)).map fun i =>
    { page := i,
      startRow := i * p,
      endRow := min (i * p + p) rows.length - 1,
      rows := (rows.drop (i * p)).take (min (i * p + p) rows.length - i * p) }

/-- `generate_viewer_output` as a pure function: the manifest, the page
files, and the returned result dictionary. -/
def generateViewerOutput (rows : List α) (p : Nat) :
    ManifestRec × List (PageRec α) × ResultRec :=
  ({ totalRows := rows.length, rowsPerPage := p,
     totalPages := totalPagesOf rows.length p },
   viewerPages rows p,
   { totalRows := rows.length, totalPages := totalPagesOf rows.length p })

/-- The index interval `[startRow, endRow]` covered by a page. -/
def pageRange (pg : PageRec α) : List Nat :=
  List.range' pg.startRow (pg.endRow + 1 - pg.startRow)

end Viewer

/-! ## `fdic_omg/core_simple.py` — class `SimpleFDICRDFGenerator` -/

namespace CoreSimple

def fdicNs : String := "http://example.org/fdic/ontology#"
def fdicTableT : RTerm := .uri (fdicNs ++ "Table")
def fdicColumnT : RTerm := .uri (fdicNs ++ "Column")
def fdicRowT : RTerm := .uri (fdicNs ++ "Row")
def fdicCellT : RTerm := .uri (fdicNs ++ "Cell")
def fdicColumnNameT : RTerm := .uri (fdicNs ++ "columnName")
def fdicColumnIndexT : RTerm := .uri (fdicNs ++ "columnIndex")
def fdicRowIndexT : RTerm := .uri (fdicNs ++ "rowIndex")
def fdicHasColumnT : RTerm := .uri (fdicNs ++ "hasColumn")
def fdicHasRowT : RTerm := .uri (fdicNs ++ "hasRow")
def fdicInRowT : RTerm := .uri (fdicNs ++ "inRow")
def fdicInColumnT : RTerm := .uri (fdicNs ++ "inColumn")
def fdicValueT : RTerm := .uri (fdicNs ++ "value")

/-- The blank node allocated for column `i` (`BNode()`; fresh names are
modelled by structured tags). -/
def colBn (i : Nat) : RTerm := .bnode [0, i]

/-- The blank node allocated for row `j`. -/
def rowBn (j : Nat) : RTerm := .bnode [1, j]

/-- The blank node allocated for the cell at row `j`, column `i`. -/
def cellBn (j i : Nat) : RTerm := .bnode [2, j, i]

/-- The triples `_build_table_structure` adds for column `i`. -/
def colTriples (tableU : RTerm) (i : Nat) (h : String) : Graph :=
  [(colBn i, AnnotationConv.rdfTypeT, fdicColumnT),
   (colBn i, fdicColumnNameT, .lit h),
   (colBn i, fdicColumnIndexT, .litInt i),
   (tableU, fdicHasColumnT, colBn i)]

/-- The triples `_build_table_structure` adds for a non-empty cell. -/
def cellTriples (j i : Nat) (v : String) : Graph :=
  [(cellBn j i, AnnotationConv.rdfTypeT, fdicCellT),
   (cellBn j i, fdicValueT, .lit v),
   (cellBn j i, fdicInRowT, rowBn j),
   (cellBn j i, fdicInColumnT, colBn i)]

/-- The triples `_build_table_structure` adds for row `j`: the row
triples, then for each header a cell only when the value is non-empty
after trimming (`if value and value.strip()`). -/
def rowTriples (tableU : RTerm) (headers : List String) (j : Nat)
    (vals : List String) : Graph :=
  [(rowBn j, AnnotationConv.rdfTypeT, fdicRowT),
   (rowBn j, fdicRowIndexT, .litInt j),
   (tableU, fdicHasRowT, rowBn j)]
  ++ (headers.enum.map fun ih =>
      let v := vals[ih.1]?.getD ""
      if v ≠ "" ∧ pyStrip v ≠ "" then cellTriples j ih.1 v else []).flatten

/-- `_build_table_structure` for a CSV given as a header list plus rows
(`csv.DictReader` parsing; with pairwise-distinct headers the dict
lookup `row.get(header, "")` is positional, and a missing key yields a
falsy value just like `""`). -/
def buildTableStructure (tableU : RTerm) (titleStr nowStr : String)
    (headers : List String) (rows : List (List String)) (cap : Option Nat) : Graph :=
  [(tableU, AnnotationConv.rdfTypeT, fdicTableT),
   (tableU, AnnotationConv.dctTitleT, .lit titleStr),
   (tableU, AnnotationConv.dctCreatedT, .litTyped nowStr (AnnotationConv.xsdNs ++ "dateTime"))]
  ++ (headers.enum.map fun ih => colTriples tableU ih.1 ih.2).flatten
  ++ ((capPost cap rows 0).enum.map fun jr => rowTriples tableU headers jr.1 jr.2).flatten

/-- The `(row index, row values)` records processed by
`_build_table_structure` under a row cap. -/
def processedRows (rows : List (List String)) (cap : Option Nat) :
    List (Nat × List String) :=
  (capPost cap rows 0).enum

/-- Integer value of an index literal (`int(...)` on an integer-typed
rdflib literal). -/
def termToNat : RTerm → Nat
  | .litInt n => n.toNat
  | _ => 0

/-- Stable insertion into a list ascending by key. -/
def insertByKey (f : α → Nat) (x : α) : List α → List α
  | [] => [x]
  | y :: ys => if f x < f y then x :: y :: ys else y :: insertByKey f x ys

/-- Model of Python `list.sort(key=...)` (a stable sort; the extraction
sorts by pairwise-distinct indices, for which every correct sort
agrees). -/
def sortByKey (f : α → Nat) : List α → List α
  | [] => []
  | x :: xs => insertByKey f x (sortByKey f xs)

/-- Loop body of the column-collection loop of
`_extract_table_data_from_rdf`: keep a column with a truthy name and a
present index as `(index, name, node)`. -/
def colStep (g : Graph) (acc : List (Nat × String × RTerm)) (col : RTerm) :
    List (Nat × String × RTerm) :=
  match valueOf g col fdicColumnNameT, valueOf g col fdicColumnIndexT with
  | some cn, some ci =>
    if pyTruthy cn then acc ++ [(termToNat ci, pyStr cn, col)] else acc
  | _, _ => acc

/-- Loop body of the per-cell loop of `_extract_table_data_from_rdf`:
place the cell's value at the position of its column in the sorted
column list. -/
def cellStep (g : Graph) (colsSorted : List (Nat × String × RTerm))
    (rv : List String) (cell : RTerm) : List String :=
  match valueOf g cell fdicInColumnT with
  | none => rv
  | some ct =>
    match colsSorted.findIdx? (fun c => c.2.2 = ct) with
    | some i =>
      rv.set i
        (match valueOf g cell fdicValueT with
         | some v => if pyTruthy v then pyStr v else ""
         | none => "")
    | none => rv

/-- Loop body of the row-collection loop of
`_extract_table_data_from_rdf`: rebuild the row's value list from its
cells, starting from all-`""`. -/
def rowStep (g : Graph) (colsSorted : List (Nat × String × RTerm)) (nCols : Nat)
    (acc : List (Nat × List String)) (row : RTerm) : List (Nat × List String) :=
  match valueOf g row fdicRowIndexT with
  | none => acc
  | some ri =>
    acc ++ [(termToNat ri,
      (subjectsOf g fdicInRowT row).foldl (cellStep g colsSorted)
        (List.replicate nCols ""))]

/-- `_extract_table_data_from_rdf`: find the table, collect columns with
truthy names and present indices sorted by index, then rebuild each
row's values from its cells, sorted by row index. -/
def extractTableData (g : Graph) :
    Option (RTerm × String × List String × List (List String)) :=
  match (subjectsOf g AnnotationConv.rdfTypeT fdicTableT).head? with
  | none => none
  | some table =>
    let title :=
      match valueOf g table AnnotationConv.dctTitleT with
      | some t => if pyTruthy t then pyStr t else "FDIC Table"
      | none => "FDIC Table"
    let cols := (objectsOf g table fdicHasColumnT).foldl (colStep g) []
    let colsSorted := sortByKey (fun c => c.1) cols
    let headers := colsSorted.map fun c => c.2.1
    let rows := (objectsOf g table fdicHasRowT).foldl
      (rowStep g colsSorted headers.length) []
    let rowsSorted := sortByKey (fun r => r.1) rows
    some (table, title, headers, rowsSorted.map fun r => r.2)

/-- The canonical reconstruction of a source row over `nCols` columns:
position `i` holds the source value when it is present and non-empty
after trimming, and `""` otherwise (`_build_table_structure` only
materialises such cells, and `_extract_table_data_from_rdf` initialises
every position of a rebuilt row to `""`). -/
def normalizeRow (nCols : Nat) (vals : List String) : List String :=
  (List.range nCols).map fun i =>
    if (vals[i]?.getD "") ≠ "" ∧ pyStrip (vals[i]?.getD "") ≠ "" then vals[i]?.getD "" else ""

end CoreSimple

/-! ## `fdic_omg/csv2rdf.py` — class `CSV2RDF` -/

namespace Csv2Rdf

def ontNs : String := "https://example.org/ontology#"
def dataNs : String := "https://example.org/data/"

def cellUri (tbl : String) (j i : Nat) : String :=
  dataNs ++ "cell/" ++ tbl ++ "/" ++ Nat.repr j ++ "/" ++ Nat.repr i

def columnUri (tbl : String) (i : Nat) : String :=
  dataNs ++ "column/" ++ tbl ++ "/" ++ Nat.repr i

def rowUriD (tbl : String) (j : Nat) : String :=
  dataNs ++ "row/" ++ tbl ++ "/" ++ Nat.repr j

/-- The value term written for a cell: try `int(value)`, then
`float(value)`, else a plain string literal. -/
def cellValueTerm (v : String) : RTerm :=
  match pyIntParse v with
  | some n => .litInt n
  | none =>
    match pyFloatParse v with
    | some q => .litDec q
    | none => .lit v

/-- The triples `process_csv` writes for one non-empty cell (type,
hasRow, hasColumn, hasValue, and the row's hasCell link). -/
def cellTriples (tbl : String) (j i : Nat) (v : String) : Graph :=
  [(.uri (cellUri tbl j i), AnnotationConv.rdfTypeT, .uri (ontNs ++ "Cell")),
   (.uri (cellUri tbl j i), .uri (ontNs ++ "hasRow"), .uri (rowUriD tbl j)),
   (.uri (cellUri tbl j i), .uri (ontNs ++ "hasColumn"), .uri (columnUri tbl i)),
   (.uri (cellUri tbl j i), .uri (ontNs ++ "hasValue"), cellValueTerm v),
   (.uri (rowUriD tbl j), .uri (ontNs ++ "hasCell"), .uri (cellUri tbl j i))]

/-- The triples `process_csv` writes for one row: the row type, then for
each column position a cell only when the value is non-empty after
trimming (`if value and value.strip()`); values are the `DictReader`
row dict in header order (`None` past the row's end). -/
def rowTriples (tbl : String) (j : Nat) (vals : List (Option String)) : Graph :=
  (.uri (rowUriD tbl j), AnnotationConv.rdfTypeT, .uri (ontNs ++ "Row"))
  :: (vals.enum.map fun iv =>
      if pyTruthyOptStr iv.2 ∧ pyStrip (iv.2.getD "") ≠ "" then
        cellTriples tbl j iv.1 (iv.2.getD "")
      else []).flatten

/-- The row/cell triples of `process_csv` under the pre-check row cap. -/
def processRows (tbl : String) (rows : List (List (Option String))) (cap : Option Nat) :
    Graph :=
  ((capPre cap rows 0).enum.map fun jr => rowTriples tbl jr.1 jr.2).flatten

/-- The `(row index, row values)` records processed by `process_csv`
under the pre-check row cap. -/
def processedRows (rows : List (List (Option String))) (cap : Option Nat) :
    List (Nat × List (Option String)) :=
  (capPre cap rows 0).enum

end Csv2Rdf

/-! ## `fdic_omg/job.py` — `process_fdic_omg_job` and `main` -/

namespace JobMod

/-- A value of the worker's parameter bag (JSON-ish). -/
inductive PVal where
  | str (s : String)
  | num (n : Int)
  | dict (entries : List (String × PVal))

/-- `params.get(key)` on a parameter dict. -/
def pget (d : List (String × PVal)) (k : String) : Option PVal :=
  (d.find? fun p => p.1 = k).map fun p => p.2

/-- Rendering of a parameter value into an f-string (`str` passes
through; no settled claim renders a non-string value). -/
def pvalRender : PVal → String
  | .str s => s
  | .num n => toString n
  | .dict _ => ""

/-- A `reports` entry `\x7bkey, title, val: \x7burl\x7d\x7d`. -/
structure Report where
  key : String
  title : String
  url : String
deriving DecidableEq, Repr

/-- The `generator.process_csv` invocation the job makes (recorded for
the claims about the row cap). -/
structure GenCall where
  resultUri : String
  csvFile : String
  maxRows : Option Nat
deriving DecidableEq, Repr

/-- The job result dictionary (plus the recorded generator call). -/
structure JobResult where
  alerts : List String
  reports : List Report
  genCall : Option GenCall
deriving DecidableEq, Repr

/-- The CSV scan of `process_fdic_omg_job`: the first input path ending
in `.csv` case-insensitively. -/
def findCsv (inputs : List String) : Option String :=
  inputs.find? fun f => strEndsWith (asciiLower f) ".csv"

/-- `process_fdic_omg_job`: no CSV → a fixed alert and empty reports;
otherwise run the generator pipeline with a hard `max_rows=100` cap
("Limit for demo") inside a `try` whose `except Exception` converts any
failure into a single alert string.  The fallible generator-and-output
pipeline (CSV parsing, RDF generation, file writes) is abstracted as an
`Except`-valued argument; on success the fixed `reports` list of the
source is returned. -/
def processJob (inputs : List String) (publicUrl dirName : String)
    (pipeline : Except String Unit) : JobResult :=
  match findCsv inputs with
  | none => { alerts := ["No CSV file found in input"], reports := [], genCall := none }
  | some csv =>
    let resultUri := publicUrl ++ "/rdf/results/" ++ dirName ++ "/"
    let call : GenCall := { resultUri := resultUri, csvFile := csv, maxRows := some 100 }
    match pipeline with
    | .error e =>
      { alerts := ["Error processing FDIC CSV: " ++ e], reports := [], genCall := some call }
    | .ok _ =>
      let baseUrl := publicUrl ++ "/tmp/" ++ dirName ++ "/"
      { alerts := [],
        reports :=
          [{ key := "task_directory", title := "Task Directory", url := baseUrl },
           { key := "fdic_omg_report", title := "FDIC OMG Semantic Augmentation Report",
             url := baseUrl ++ "fdic_omg_report.html" },
           { key := "fdic_data_table", title := "Interactive Data Table with RDF Links",
             url := baseUrl ++ "fdic_data_table.html" },
           { key := "fdic_turtle", title := "RDF Turtle Format",
             url := baseUrl ++ "fdic_semantic.ttl" },
           { key := "fdic_jsonld", title := "JSON-LD Format",
             url := baseUrl ++ "fdic_semantic.jsonld" },
           { key := "fdic_mappings", title := "Column Mappings Metadata",
             url := baseUrl ++ "column_mappings.json" }],
        genCall := some call }

/-- The parameter unwrapping of `main`: `params.get('public_url',
'http://localhost')` and `params.get('result_tmp_directory_name',
'unknown')`, read from the top-level params dict. -/
def mainExtract (params : List (String × PVal)) : PVal × PVal :=
  ((pget params "public_url").getD (.str "http://localhost"),
   (pget params "result_tmp_directory_name").getD (.str "unknown"))

/-- `main(input_files, output_path, params)`: unwrap the parameters and
delegate to `process_fdic_omg_job`. -/
def mainJob (inputs : List String) (params : List (String × PVal))
    (pipeline : Except String Unit) : JobResult :=
  processJob inputs (pvalRender (mainExtract params).1)
    (pvalRender (mainExtract params).2) pipeline

end JobMod

/-! ## `serve_viewer.py` — `main` -/

namespace ServeViewer

/-- The file-system facts `main` inspects about the supplied directory. -/
structure FS where
  dirExists : Bool
  isDir : Bool
  hasManifest : Bool
  hasIndex : Bool
deriving DecidableEq, Repr

/-- The observable outcome of `main`'s validation phase: exit with a
status code after printing a message, or proceed to start the server. -/
inductive Outcome where
  | exitWith (code : Nat) (msg : String)
  | serve
deriving DecidableEq, Repr

/-- The required files missing from the directory, in the order the
source checks them (`['manifest.json', 'index.html']`). -/
def missingFiles (fs : FS) : List String :=
  (if fs.hasManifest then [] else ["manifest.json"])
  ++ (if fs.hasIndex then [] else ["index.html"])

/-- The validation phase of `serve_viewer.main`: directory existence,
directory-ness and required files are checked in order, each failure
printing a specific error and exiting with status 1 before any server
is created. -/
def serveMain (d : String) (fs : FS) : Outcome :=
  if ¬ fs.dirExists then
    .exitWith 1 ("Error: Directory '" ++ d ++ "' does not exist")
  else if ¬ fs.isDir then
    .exitWith 1 ("Error: '" ++ d ++ "' is not a directory")
  else if missingFiles fs ≠ [] then
    .exitWith 1 ("Error: Missing required files in viewer directory: "
      ++ String.intercalate ", " (missingFiles fs))
  else .serve

end ServeViewer

/-! ## BOM-tolerant CSV decoding (`encoding='utf-8-sig'` vs
`encoding='utf-8'`)

`core.py` (`_process_csv_data`, `generate_viewer_output`),
`core_simple.py` (`_build_table_structure`) and `job_utils.py` open the
CSV with `encoding='utf-8-sig'`; `csv2rdf.py` (`process_csv`, both
opens) uses plain `encoding='utf-8'`.  File contents are modelled as the
decoded character string, a UTF-8 byte-order mark appearing as a leading
U+FEFF character. -/

namespace BomDecode

/-- The byte-order-mark character (the UTF-8 signature `EF BB BF`). -/
def bomChar : Char := Char.ofNat 0xFEFF

/-- The BOM as a one-character string. -/
def bomStr : String := String.mk [bomChar]

/-- Decoding with `utf-8-sig`: a single leading BOM is dropped. -/
def decodeUtf8Sig (s : String) : String :=
  match s.data with
  | c :: rest => if c = bomChar then String.mk rest else s
  | [] => s

/-- Decoding with plain `utf-8`: the BOM, if present, is kept as a
character of the text. -/
def decodeUtf8Plain (s : String) : String := s

/-- A simple CSV parse (newline-separated records, comma-separated
fields, no quoting — sufficient for the BOM claims): the header list and
the rows. -/
def parseCsv (s : String) : List String × List (List String) :=
  match (strSplitOnChar s '\n').filter (fun l => l ≠ "") with
  | [] => ([], [])
  | h :: rs => (strSplitOnChar h ',', rs.map fun r => strSplitOnChar r ',')

/-- Reading a CSV as the BOM-tolerant variants do. -/
def readCsvSig (contents : String) : List String × List (List String) :=
  parseCsv (decodeUtf8Sig contents)

/-- Reading a CSV as `csv2rdf.py` does. -/
def readCsvPlain (contents : String) : List String × List (List String) :=
  parseCsv (decodeUtf8Plain contents)

end BomDecode

/-! # Theorems

Helper lemmas first, then the claim theorems with their witnesses and
counterexamples. -/

theorem natDigits_small (n : Nat) (h : n < 10) : natDigits n = [Nat.digitChar n] := by
  rw [natDigits]; simp [h]

theorem natDigits_large (n : Nat) (h : ¬ n < 10) :
    natDigits n = natDigits (n / 10) ++ [Nat.digitChar (n % 10)] := by
  rw [natDigits]; simp [h]

theorem toDigitsCore_eq_natDigits :
    ∀ (fuel n : Nat) (ds : List Char), n < fuel →
      Nat.toDigitsCore 10 fuel n ds = natDigits n ++ ds := by
  intro fuel
  induction fuel with
  | zero => intro n ds h; omega
  | succ f ih =>
    intro n ds h
    by_cases hn : n < 10
    · have hdiv : n / 10 = 0 := Nat.div_eq_of_lt hn
      have hmod : n % 10 = n := Nat.mod_eq_of_lt hn
      simp [Nat.toDigitsCore, hdiv, hmod, natDigits_small n hn]
    · have hdiv : ¬ n / 10 = 0 := by
        intro h0
        exact hn ((Nat.div_eq_zero_iff (by omega)).mp h0)
      have hlt : n / 10 < f := by
        have h1 : n / 10 < n := Nat.div_lt_self (by omega) (by omega)
        omega
      simp only [Nat.toDigitsCore, hdiv, if_false]
      rw [ih (n / 10) _ hlt, natDigits_large n hn, List.append_assoc]
      rfl

theorem natDigits_length_pos (n : Nat) : 0 < (natDigits n).length := by
  by_cases h : n < 10
  · rw [natDigits_small n h]; simp
  · rw [natDigits_large n h]; simp

theorem digitChar_inj_lt10 (a b : Nat) (ha : a < 10) (hb : b < 10)
    (h : Nat.digitChar a = Nat.digitChar b) : a = b := by
  have key : ∀ x y : Fin 10, Nat.digitChar x.val = Nat.digitChar y.val → x = y := by decide
  have := key ⟨a, ha⟩ ⟨b, hb⟩ h
  exact congrArg Fin.val this

theorem natDigits_inj : ∀ m n : Nat, natDigits m = natDigits n → m = n := by
  intro m
  induction m using Nat.strong_induction_on with
  | _ m ih =>
    intro n h
    by_cases hm : m < 10 <;> by_cases hn : n < 10
    · rw [natDigits_small m hm, natDigits_small n hn] at h
      rw [List.cons.injEq] at h
      exact digitChar_inj_lt10 m n hm hn h.1
    · rw [natDigits_small m hm, natDigits_large n hn] at h
      have hlen := congrArg List.length h
      rw [List.length_append] at hlen
      simp only [List.length_singleton] at hlen
      have := natDigits_length_pos (n / 10)
      omega
    · rw [natDigits_large m hm, natDigits_small n hn] at h
      have hlen := congrArg List.length h
      rw [List.length_append] at hlen
      simp only [List.length_singleton] at hlen
      have := natDigits_length_pos (m / 10)
      omega
    · rw [natDigits_large m hm, natDigits_large n hn] at h
      have h' := congrArg List.reverse h
      simp only [List.reverse_append, List.reverse_cons, List.reverse_nil,
        List.nil_append, List.singleton_append] at h'
      rw [List.cons.injEq] at h'
      have hd := h'.1
      have ht := h'.2
      have hmod : m % 10 = n % 10 :=
        digitChar_inj_lt10 _ _ (Nat.mod_lt _ (by omega)) (Nat.mod_lt _ (by omega)) hd
      have hdivlt : m / 10 < m := Nat.div_lt_self (by omega) (by omega)
      have hdiv : m / 10 = n / 10 :=
        ih (m / 10) hdivlt (n / 10) (List.reverse_injective ht)
      omega

theorem natRepr_inj : ∀ m n : Nat, Nat.repr m = Nat.repr n → m = n := by
  intro m n h
  have hm : Nat.repr m = (natDigits m).asString := by
    unfold Nat.repr Nat.toDigits
    rw [toDigitsCore_eq_natDigits (m + 1) m [] (by omega)]
    simp
  have hn : Nat.repr n = (natDigits n).asString := by
    unfold Nat.repr Nat.toDigits
    rw [toDigitsCore_eq_natDigits (n + 1) n [] (by omega)]
    simp
  rw [hm, hn] at h
  apply natDigits_inj
  have hmk : String.mk (natDigits m) = String.mk (natDigits n) := by
    simpa [List.asString] using h
  injection hmk

/-- Left cancellation for string concatenation. -/
theorem strAppend_left_cancel {a b c : String} (h : a ++ b = a ++ c) : b = c := by
  have hd : (a ++ b).data = (a ++ c).data := by rw [h]
  rw [String.data_append, String.data_append] at hd
  have h2 := List.append_cancel_left hd
  cases b; cases c; exact congrArg String.mk h2

/-- Right cancellation for string concatenation. -/
theorem strAppend_right_cancel {a b c : String} (h : b ++ a = c ++ a) : b = c := by
  have hd : (b ++ a).data = (c ++ a).data := by rw [h]
  rw [String.data_append, String.data_append] at hd
  have h2 := List.append_cancel_right hd
  cases b; cases c; exact congrArg String.mk h2

/-! ### Pagination lemmas (claim C6) -/

theorem range_bind_pages (n p : Nat) (hp : 0 < p) :
    ∀ t : Nat,
      ((List.range t).map fun i => List.range' (i * p) (min (i * p + p) n - i * p)).flatten
        = List.range (min (t * p) n) := by
  intro t
  induction t with
  | zero => simp
  | succ t ih =>
    rw [List.range_succ, List.map_append, List.flatten_append, ih]
    by_cases h : n ≤ t * p
    · have h1 : min (t * p) n = n := by omega
      have h2 : min (t * p + p) n - t * p = 0 := by omega
      have h3 : min ((t + 1) * p) n = n := by
        have : (t + 1) * p = t * p + p := by ring
        omega
      simp [h1, h2, h3]
    · have h1 : min (t * p) n = t * p := by omega
      have h2 : t * p ≤ min (t * p + p) n := by omega
      have h3 : min ((t + 1) * p) n = min (t * p + p) n := by
        have : (t + 1) * p = t * p + p := by ring
        rw [this]
      rw [h1, h3]
      simp only [List.map_singleton, List.flatten_cons, List.flatten_nil, List.append_nil]
      rw [List.range_eq_range']
      have happ := List.range'_append 0 (t * p) (min (t * p + p) n - t * p) 1
      simp only [Nat.one_mul, Nat.zero_add] at happ
      rw [happ]
      have h4 : min (t * p + p) n - t * p + t * p = min (t * p + p) n := by omega
      rw [h4, List.range_eq_range']

theorem ceil_mul_ge (n p : Nat) (hp : 0 < p) : n ≤ Viewer.totalPagesOf n p * p := by
  unfold Viewer.totalPagesOf
  rcases Nat.eq_zero_or_pos n with h0 | h0
  · simp [h0]
  · have key : (n - 1) / p < (n + p - 1) / p := by
      have he : n + p - 1 = (n - 1) + p := by omega
      rw [he, Nat.add_div_right _ hp]
      omega
    have := (Nat.div_lt_iff_lt_mul hp).mp key
    omega

theorem ceil_min (n p : Nat) (hp : 0 < p) :
    ∀ t, n ≤ t * p → Viewer.totalPagesOf n p ≤ t := by
  intro t ht
  unfold Viewer.totalPagesOf
  have h1 : n + p - 1 < (t + 1) * p := by
    have : (t + 1) * p = t * p + p := by ring
    omega
  have := (Nat.div_lt_iff_lt_mul hp).mpr h1
  omega

/-- C6 (confirmed): for every row list and page size `p > 0`, the pages
generated by `generate_viewer_output` carry ascending page indices
`0, 1, …`, their `(start_row, end_row)` ranges concatenate to exactly the
interval `[0, n-1]` with no gaps or overlaps, and both the manifest's
`total_pages` and the returned result's `total_pages` equal the ceiling
of `n / p` (characterised as the least `t` with `n ≤ t * p`). -/
theorem C6_viewer_pagination_tiles {α : Type} (rows : List α) (p : Nat) (hp : 0 < p) :
    ((Viewer.viewerPages rows p).map Viewer.pageRange).flatten = List.range rows.length
    ∧ (Viewer.viewerPages rows p).map (fun pg => pg.page)
        = List.range (Viewer.totalPagesOf rows.length p)
    ∧ (Viewer.generateViewerOutput rows p).1.totalPages = Viewer.totalPagesOf rows.length p
    ∧ (Viewer.generateViewerOutput rows p).2.2.totalPages = Viewer.totalPagesOf rows.length p
    ∧ rows.length ≤ Viewer.totalPagesOf rows.length p * p
    ∧ (∀ t, rows.length ≤ t * p → Viewer.totalPagesOf rows.length p ≤ t) := by
  refine ⟨?_, ?_, rfl, rfl, ceil_mul_ge rows.length p hp, ceil_min rows.length p hp⟩
  · unfold Viewer.viewerPages Viewer.pageRange
    rw [List.map_map]
    have hmain := range_bind_pages rows.length p hp (Viewer.totalPagesOf rows.length p)
    have hcover : min (Viewer.totalPagesOf rows.length p * p) rows.length = rows.length := by
      have := ceil_mul_ge rows.length p hp
      omega
    rw [hcover] at hmain
    rw [← hmain]
    congr 1
    apply List.map_congr_left
    intro i hi
    rw [List.mem_range] at hi
    have hip : i * p < rows.length := by
      by_contra hnot
      push_neg at hnot
      have := ceil_min rows.length p hp i (by omega)
      omega
    show List.range' (i * p) (min (i * p + p) rows.length - 1 + 1 - i * p)
      = List.range' (i * p) (min (i * p + p) rows.length - i * p)
    congr 1
    omega
  · simp [Viewer.viewerPages, List.map_map, Function.comp_def]

/-- Witness for C6 at the spec's concrete example `n = 3`, `p = 2`
(two pages: rows 0–1 and row 2). -/
theorem C6_viewer_pagination_tiles_witness :
    0 < 2
    ∧ (((Viewer.viewerPages ["r0", "r1", "r2"] 2).map Viewer.pageRange).flatten = List.range 3
      ∧ (Viewer.viewerPages ["r0", "r1", "r2"] 2).map (fun pg => pg.page)
          = List.range (Viewer.totalPagesOf 3 2)
      ∧ (Viewer.generateViewerOutput ["r0", "r1", "r2"] 2).1.totalPages
          = Viewer.totalPagesOf 3 2
      ∧ (Viewer.generateViewerOutput ["r0", "r1", "r2"] 2).2.2.totalPages
          = Viewer.totalPagesOf 3 2
      ∧ 3 ≤ Viewer.totalPagesOf 3 2 * 2
      ∧ (∀ t, 3 ≤ t * 2 → Viewer.totalPagesOf 3 2 ≤ t)) :=
  ⟨by decide, C6_viewer_pagination_tiles ["r0", "r1", "r2"] 2 (by decide)⟩

/-! ### Row-cap lemmas (claim C5) -/

theorem capPost_take {α : Type} (k : Nat) (l : List α) :
    ∀ c, c < k → capPost (some k) l c = l.take (k - c) := by
  induction l with
  | nil => intro c _; simp [capPost]
  | cons r rs ih =>
    intro c hc
    rw [capPost]
    by_cases hhit : c + 1 ≥ k
    · have htrue : capPostHit (some k) (c + 1) = true := by
        simp only [capPostHit, decide_eq_true_eq]
        omega
      have hk1 : k - c = 1 := by omega
      simp [htrue, hk1]
    · have hfalse : capPostHit (some k) (c + 1) = false := by
        simp only [capPostHit, decide_eq_false_iff_not]
        omega
      have hlt : c + 1 < k := by omega
      have hk2 : k - c = (k - (c + 1)) + 1 := by omega
      simp only [hfalse, Bool.false_eq_true, if_false]
      rw [ih (c + 1) hlt, hk2]
      simp [List.take_succ_cons]

theorem capPost_none {α : Type} (l : List α) : ∀ c, capPost none l c = l := by
  induction l with
  | nil => intro c; simp [capPost]
  | cons r rs ih => intro c; rw [capPost]; simp [capPostHit, ih]

theorem capPost_zero {α : Type} (l : List α) : ∀ c, capPost (some 0) l c = l := by
  induction l with
  | nil => intro c; simp [capPost]
  | cons r rs ih => intro c; rw [capPost]; simp [capPostHit, ih]

theorem capPre_take {α : Type} (k : Nat) (hk : 1 ≤ k) (l : List α) :
    ∀ i, capPre (some k) l i = l.take (k - i) := by
  induction l with
  | nil => intro i; simp [capPre]
  | cons r rs ih =>
    intro i
    rw [capPre]
    by_cases hhit : i ≥ k
    · have htrue : capPreHit (some k) i = true := by
        simp only [capPreHit, decide_eq_true_eq]
        omega
      have hz : k - i = 0 := by omega
      simp [htrue, hz]
    · have hfalse : capPreHit (some k) i = false := by
        simp only [capPreHit, decide_eq_false_iff_not]
        omega
      have hk2 : k - i = (k - (i + 1)) + 1 := by omega
      simp only [hfalse, Bool.false_eq_true, if_false]
      rw [ih (i + 1), hk2]
      simp [List.take_succ_cons]

theorem capPre_none {α : Type} (l : List α) : ∀ i, capPre none l i = l := by
  induction l with
  | nil => intro i; simp [capPre]
  | cons r rs ih => intro i; rw [capPre]; simp [capPreHit, ih]

theorem enumFrom_take {α : Type} (l : List α) :
    ∀ (n k : Nat), (l.take k).enumFrom n = (l.enumFrom n).take k := by
  induction l with
  | nil => intro n k; simp
  | cons r rs ih =>
    intro n k
    cases k with
    | zero => simp
    | succ k => simp [List.take_succ_cons, List.enumFrom_cons, ih]

theorem enum_take {α : Type} (l : List α) (k : Nat) :
    (l.take k).enum = l.enum.take k := enumFrom_take l 0 k

/-- C5 (corrected; the original claim fails at a cap of `k = 0`, which
Python truthiness treats as "no cap"): for every row cap `k` with
`1 ≤ k ≤ total_rows`, each generator variant (`core.py`,
`core_simple.py`, `csv2rdf.py`) processes exactly the first `k` rows —
the processed `(index, row)` records under the cap are precisely the
first `k` records of the uncapped run, there are exactly `k` of them,
and their indices are `0 … k-1`. -/
theorem C5_row_cap_take (rows : List (List String))
    (rowsD : List (List (Option String))) (k : Nat)
    (hk : 1 ≤ k) (hB : k ≤ rows.length) (hD : k ≤ rowsD.length) :
    CoreB.processedRows rows (some k) = (CoreB.processedRows rows none).take k
    ∧ (CoreB.processedRows rows (some k)).length = k
    ∧ (CoreB.processedRows rows (some k)).map (fun r => r.1) = List.range k
    ∧ CoreSimple.processedRows rows (some k) = (CoreSimple.processedRows rows none).take k
    ∧ (CoreSimple.processedRows rows (some k)).length = k
    ∧ Csv2Rdf.processedRows rowsD (some k) = (Csv2Rdf.processedRows rowsD none).take k
    ∧ (Csv2Rdf.processedRows rowsD (some k)).length = k
    ∧ (Csv2Rdf.processedRows rowsD (some k)).map (fun r => r.1) = List.range k := by
  have hcapB : capPost (some k) rows 0 = rows.take k := by
    have := capPost_take k rows 0 (by omega)
    simpa using this
  have hcapD : capPre (some k) rowsD 0 = rowsD.take k := by
    have := capPre_take k hk rowsD 0
    simpa using this
  have hlenB : (rows.take k).length = k := by
    rw [List.length_take]; omega
  have hlenD : (rowsD.take k).length = k := by
    rw [List.length_take]; omega
  have hfstB : ((rows.take k).enum).map (fun r => r.1) = List.range k := by
    rw [List.enum_map_fst, hlenB]
  have hfstD : ((rowsD.take k).enum).map (fun r => r.1) = List.range k := by
    rw [List.enum_map_fst, hlenD]
  refine ⟨?_, ?_, ?_, ?_, ?_, ?_, ?_, ?_⟩
  · unfold CoreB.processedRows
    rw [hcapB, capPost_none, enum_take]
  · unfold CoreB.processedRows
    rw [hcapB, List.enum_length, hlenB]
  · unfold CoreB.processedRows
    rw [hcapB]; exact hfstB
  · unfold CoreSimple.processedRows
    rw [hcapB, capPost_none, enum_take]
  · unfold CoreSimple.processedRows
    rw [hcapB, List.enum_length, hlenB]
  · unfold Csv2Rdf.processedRows
    rw [hcapD, capPre_none, enum_take]
  · unfold Csv2Rdf.processedRows
    rw [hcapD, List.enum_length, hlenD]
  · unfold Csv2Rdf.processedRows
    rw [hcapD]; exact hfstD

/-- Witness for C5: a two-row CSV capped at `k = 1`. -/
theorem C5_row_cap_take_witness :
    (1 ≤ 1 ∧ 1 ≤ 2)
    ∧ (CoreB.processedRows [["a"], ["b"]] (some 1)
        = (CoreB.processedRows [["a"], ["b"]] none).take 1
      ∧ (CoreB.processedRows [["a"], ["b"]] (some 1)).length = 1) := by
  have h := C5_row_cap_take [["a"], ["b"]] [[some "a"], [some "b"]] 1
    (by decide) (by decide) (by decide)
  exact ⟨⟨by decide, by decide⟩, h.1, h.2.1⟩

/-- Counterexample to C5 as stated: with one data row and cap `k = 0`
(`k ≤ total_rows`), `core.py` processes one row, not zero — `if
max_rows and …` treats a cap of `0` as no cap (the same holds for
`core_simple.py` and `csv2rdf.py`). -/
theorem C5_cap_zero_counterexample :
    CoreB.processedRows [["x"]] (some 0) = [(0, ["x"])]
    ∧ Csv2Rdf.processedRows [[some "x"]] (some 0) = [(0, [some "x"])]
    ∧ (CoreB.processedRows [["x"]] (some 0)).length ≠ 0 := by
  refine ⟨rfl, rfl, by decide⟩

/-! ### Claim C9 — static viewer server validation -/

/-- C9 (confirmed): `serve_viewer.main` starts serving iff the supplied
directory exists, is a directory, and contains both `manifest.json` and
`index.html`; every failing validation prints an error and exits with
status 1 before any server is created, and in the missing-files case the
message names exactly the missing files. -/
theorem C9_serve_viewer_validation (d : String) (fs : ServeViewer.FS) :
    (ServeViewer.serveMain d fs = ServeViewer.Outcome.serve
      ↔ (fs.dirExists ∧ fs.isDir ∧ fs.hasManifest ∧ fs.hasIndex))
    ∧ (¬ (fs.dirExists ∧ fs.isDir ∧ fs.hasManifest ∧ fs.hasIndex) →
        ∃ msg, ServeViewer.serveMain d fs = .exitWith 1 msg)
    ∧ (fs.dirExists → fs.isDir → ¬ (fs.hasManifest ∧ fs.hasIndex) →
        ServeViewer.serveMain d fs
          = .exitWith 1 ("Error: Missing required files in viewer directory: "
              ++ String.intercalate ", " (ServeViewer.missingFiles fs))) := by
  obtain ⟨e, i, m, x⟩ := fs
  cases e <;> cases i <;> cases m <;> cases x <;>
    simp [ServeViewer.serveMain, ServeViewer.missingFiles]

/-- Witness for C9: a directory missing `index.html` is rejected with
status 1 naming the missing file, and a complete directory serves. -/
theorem C9_serve_viewer_validation_witness :
    (ServeViewer.serveMain "out"
        { dirExists := true, isDir := true, hasManifest := true, hasIndex := false }
      = .exitWith 1 "Error: Missing required files in viewer directory: index.html")
    ∧ (ServeViewer.serveMain "out"
        { dirExists := true, isDir := true, hasManifest := true, hasIndex := true }
      = ServeViewer.Outcome.serve) := by
  constructor
  · have h := (C9_serve_viewer_validation "out"
      { dirExists := true, isDir := true, hasManifest := true, hasIndex := false }).2.2
      (by decide) (by decide) (by decide)
    simpa [ServeViewer.missingFiles] using h
  · exact (C9_serve_viewer_validation "out"
      { dirExists := true, isDir := true, hasManifest := true, hasIndex := true }).1.mpr
      (by decide)

/-! ### Claim C3 — job adapter error containment -/

/-- C3 (confirmed): `process_fdic_omg_job` is total (it returns a result
dictionary with `alerts` and `reports` for every input list and every
outcome of the fallible generator pipeline — the embedding of `try:/
except Exception:` converts every pipeline failure into an alert):
with no `.csv` entry it returns exactly
`alerts = ["No CSV file found in input"]` and empty reports; a pipeline
failure yields the single `"Error processing FDIC CSV: …"` alert with
empty reports; and the alerts are empty exactly when a CSV was found and
the pipeline succeeded. -/
theorem C3_job_alerts_reports (inputs : List String) (pu dn : String)
    (pl : Except String Unit) :
    (JobMod.findCsv inputs = none →
      JobMod.processJob inputs pu dn pl
        = { alerts := ["No CSV file found in input"], reports := [], genCall := none })
    ∧ (∀ e, pl = .error e → JobMod.findCsv inputs ≠ none →
        (JobMod.processJob inputs pu dn pl).alerts = ["Error processing FDIC CSV: " ++ e]
        ∧ (JobMod.processJob inputs pu dn pl).reports = [])
    ∧ ((JobMod.processJob inputs pu dn pl).alerts = []
        ↔ (JobMod.findCsv inputs ≠ none ∧ pl = .ok ())) := by
  unfold JobMod.processJob
  cases hf : JobMod.findCsv inputs <;> cases pl <;> simp [hf]

/-- Witness for C3: the empty input list yields the fixed no-CSV alert,
and a failing pipeline on a CSV input yields the converted error
alert. -/
theorem C3_job_alerts_reports_witness :
    (JobMod.processJob [] "http://h" "dir" (.ok ())
      = { alerts := ["No CSV file found in input"], reports := [], genCall := none })
    ∧ (JobMod.processJob ["notes.txt", "Banks.CSV"] "http://h" "dir"
        (.error "parse failure")).alerts = ["Error processing FDIC CSV: parse failure"] := by
  constructor
  · exact (C3_job_alerts_reports [] "http://h" "dir" (.ok ())).1 rfl
  · exact ((C3_job_alerts_reports ["notes.txt", "Banks.CSV"] "http://h" "dir"
      (.error "parse failure")).2.1 "parse failure" rfl (by decide)).1

/-! ### Claim C8 — job entry point parameter handling -/

/-- Counterexample to C8 as stated: with the worker's nested parameter
bag `params["msg"]["params"]` carrying `public_url` and `max_rows`,
`main` in the src revision of `job.py` ignores the nested values (it
reads only top-level keys, so both defaults apply), and
`process_fdic_omg_job` always calls the generator with a hard
`max_rows=100` cap rather than honouring the caller's value or
processing all rows. -/
theorem C8_nested_params_counterexample :
    JobMod.mainExtract
        [("msg", JobMod.PVal.dict
          [("params", JobMod.PVal.dict
            [("public_url", JobMod.PVal.str "http://robust.example"),
             ("max_rows", JobMod.PVal.num 5)])])]
      = (JobMod.PVal.str "http://localhost", JobMod.PVal.str "unknown")
    ∧ (JobMod.processJob ["bank.csv"] "http://localhost" "unknown" (.ok ())).genCall
      = some { resultUri := "http://localhost/rdf/results/unknown/",
               csvFile := "bank.csv", maxRows := some 100 } :=
  ⟨rfl, rfl⟩

/-- C8 (corrected): `main` extracts `public_url` (default
`http://localhost`) and `result_tmp_directory_name` (default `unknown`)
from the top-level `params` mapping only — a `msg` entry (and hence any
nested `params["msg"]["params"]` bag) is ignored, `max_rows` and
`annotation_file` are not extracted at all, and `process_fdic_omg_job`
always invokes the generator with a fixed `max_rows=100` cap. -/
theorem C8_param_extraction_top_level (params : List (String × JobMod.PVal))
    (v : JobMod.PVal) (inputs : List String) (f : String) :
    (JobMod.pget params "public_url" = none →
      (JobMod.mainExtract params).1 = .str "http://localhost")
    ∧ (JobMod.pget params "result_tmp_directory_name" = none →
      (JobMod.mainExtract params).2 = .str "unknown")
    ∧ JobMod.mainExtract (("msg", v) :: params) = JobMod.mainExtract params
    ∧ (∀ pu dn pl, JobMod.findCsv inputs = some f →
        (JobMod.processJob inputs pu dn pl).genCall
          = some { resultUri := pu ++ "/rdf/results/" ++ dn ++ "/",
                   csvFile := f, maxRows := some 100 }) := by
  refine ⟨?_, ?_, ?_, ?_⟩
  · intro h
    unfold JobMod.mainExtract
    rw [h]
    rfl
  · intro h
    unfold JobMod.mainExtract
    rw [h]
    rfl
  · unfold JobMod.mainExtract JobMod.pget
    simp [List.find?]
  · intro pu dn pl hf
    unfold JobMod.processJob
    rw [hf]
    cases pl <;> rfl

/-- Witness for C8's amended statement: an empty top-level params bag
takes both defaults, a `msg` entry changes nothing, and a found CSV is
processed with the fixed 100-row cap. -/
theorem C8_param_extraction_top_level_witness :
    ((JobMod.mainExtract []).1 = .str "http://localhost")
    ∧ ((JobMod.mainExtract []).2 = .str "unknown")
    ∧ JobMod.mainExtract [("msg", JobMod.PVal.str "ignored")] = JobMod.mainExtract []
    ∧ (JobMod.processJob ["bank.csv"] "http://h" "t1" (.ok ())).genCall
      = some { resultUri := "http://h/rdf/results/t1/",
               csvFile := "bank.csv", maxRows := some 100 } := by
  have h := C8_param_extraction_top_level [] (JobMod.PVal.str "ignored") ["bank.csv"] "bank.csv"
  exact ⟨h.1 rfl, h.2.1 rfl, h.2.2.1, h.2.2.2 "http://h" "t1" (.ok ()) rfl⟩

/-! ### Claim C7 — BOM-tolerant CSV decoding -/

/-- Counterexample to C7 as stated: `csv2rdf.py` opens the CSV with
plain `encoding='utf-8'`, so on the spec's concrete BOM-prefixed content
the first header name keeps the BOM character, unlike the `utf-8-sig`
variants. -/
theorem C7_csv2rdf_bom_counterexample :
    (BomDecode.readCsvPlain
        (BomDecode.bomStr ++ "Name,Value\nTest1,100\nTest2,200\n")).1
      = [BomDecode.bomStr ++ "Name", "Value"]
    ∧ (BomDecode.readCsvSig
        (BomDecode.bomStr ++ "Name,Value\nTest1,100\nTest2,200\n")).1
      = ["Name", "Value"]
    ∧ BomDecode.bomStr ++ "Name" ≠ "Name" := by
  refine ⟨by decide, by decide, by decide⟩

/-- C7 (corrected): the `utf-8-sig` readers (`core.py`,
`core_simple.py`, `job_utils.py`) are BOM-tolerant — for any content not
itself starting with a BOM, reading the BOM-prefixed content yields
exactly the same parsed header list and rows as the bare content, with
no BOM in the first header name.  (`csv2rdf.py` is the exception, per
the counterexample.) -/
theorem C7_bom_tolerant_sig_readers (c : String)
    (h : c.data.head? ≠ some BomDecode.bomChar) :
    BomDecode.decodeUtf8Sig (BomDecode.bomStr ++ c) = c
    ∧ BomDecode.readCsvSig (BomDecode.bomStr ++ c) = BomDecode.parseCsv c
    ∧ BomDecode.readCsvSig c = BomDecode.parseCsv c := by
  have hd : (BomDecode.bomStr ++ c).data = BomDecode.bomChar :: c.data := by
    rw [String.data_append]
    rfl
  have h1 : BomDecode.decodeUtf8Sig (BomDecode.bomStr ++ c) = c := by
    unfold BomDecode.decodeUtf8Sig
    rw [hd]
    simp only [if_pos rfl]
    cases c
    rfl
  have h2 : BomDecode.decodeUtf8Sig c = c := by
    unfold BomDecode.decodeUtf8Sig
    cases hc : c.data with
    | nil => rfl
    | cons a rest =>
      have : a ≠ BomDecode.bomChar := by
        intro heq
        exact h (by rw [hc, heq]; rfl)
      simp [this]
  refine ⟨h1, ?_, ?_⟩
  · unfold BomDecode.readCsvSig
    rw [h1]
  · unfold BomDecode.readCsvSig
    rw [h2]

/-- Witness for C7's amended statement at the spec's concrete content. -/
theorem C7_bom_tolerant_sig_readers_witness :
    ("Name,Value\nTest1,100\nTest2,200\n" : String).data.head?
        ≠ some BomDecode.bomChar
    ∧ BomDecode.decodeUtf8Sig (BomDecode.bomStr ++ "Name,Value\nTest1,100\nTest2,200\n")
        = "Name,Value\nTest1,100\nTest2,200\n" := by
  refine ⟨by decide, ?_⟩
  exact (C7_bom_tolerant_sig_readers "Name,Value\nTest1,100\nTest2,200\n" (by decide)).1

/-! ### Claim C2 — type-coercion safety -/

/-- C2 (code_bug): on a value that cannot be parsed as a decimal in a
coordinate-typed `X` column (the mapping `core.py` documents for `X`),
`_convert_value_type` correctly returns no typed value, but
`_add_cell_metadata` then passes that `None` straight to
`graph.add((cell_uri, GEO.longitude, typed_value))`, which rdflib
rejects with an uncaught `AssertionError` — contradicting the documented
"log a warning and keep the raw value" behaviour, which the same
function does implement for the `typedValue` triple and for non-
coordinate columns (third conjunct: the raw value survives a failed
integer parse in a non-coordinate column with no error). -/
theorem C2_coordinate_typed_none_raises :
    CoreB.addCellMetadata "http://r/" [] (CoreB.cellUri "http://r/" 0 "X")
        (CoreB.rowUri "http://r/" 0) "X" "not-a-number"
        (some { semType := "coordinate", dataTypeField := "decimal",
                description := "Longitude coordinate",
                ontologyRef := "http://www.opengis.net/ont/geosparql#" })
      = .error "Object None must be an rdflib term"
    ∧ CoreB.convertValueType "not-a-number" "decimal" = none
    ∧ (∃ g, CoreB.addCellMetadata "http://r/" [] (CoreB.cellUri "http://r/" 0 "CERT")
          (CoreB.rowUri "http://r/" 0) "CERT" "not-a-number"
          (some { semType := "fdic_certificate", dataTypeField := "integer",
                  description := "", ontologyRef := "" })
        = .ok g
      ∧ (RTerm.uri (CoreB.cellUri "http://r/" 0 "CERT"),
         RTerm.uri "http://r/rawValue", RTerm.lit "not-a-number") ∈ g
      ∧ ∀ t ∈ g, t.2.1 ≠ RTerm.uri "http://r/typedValue") := by
  refine ⟨rfl, rfl, _, rfl, by decide, by decide⟩

/-! ### Claim C4 — cell materialization -/

theorem addCellMetadata_none_eq (resUri : String) (g : Graph) (cellU rowU column value : String) :
    CoreB.addCellMetadata resUri g cellU rowU column value none
      = Except.ok (g ++ [(.uri cellU, AnnotationConv.rdfTypeT, .uri (resUri ++ "Cell")),
                         (.uri cellU, .uri (resUri ++ "columnName"), .lit column),
                         (.uri cellU, .uri (resUri ++ "rawValue"), .lit value),
                         (.uri rowU, .uri (resUri ++ "hasCell"), .uri cellU)]) := rfl

theorem rowCellStep_fold_ok (resUri rowU : String) (idx : Nat) (headers : List String) :
    ∀ (cvs : List (String × Option String)) (g : Graph),
      ∃ g2, cvs.foldlM (CoreB.rowCellStep resUri rowU idx headers []) g = Except.ok g2
        ∧ (∀ t, t ∈ g → t ∈ g2)
        ∧ (∀ cv ∈ cvs, cv.1 ∈ headers →
            (RTerm.uri (CoreB.cellUri resUri idx cv.1), AnnotationConv.rdfTypeT,
             RTerm.uri (resUri ++ "Cell")) ∈ g2) := by
  intro cvs
  induction cvs with
  | nil =>
    intro g
    exact ⟨g, rfl, fun t ht => ht, by simp⟩
  | cons cv cvs ih =>
    intro g
    by_cases hmem : cv.1 ∈ headers
    · have hstep : ∃ gb, CoreB.rowCellStep resUri rowU idx headers [] g cv = Except.ok gb
          ∧ (∀ t, t ∈ g → t ∈ gb)
          ∧ (RTerm.uri (CoreB.cellUri resUri idx cv.1), AnnotationConv.rdfTypeT,
             RTerm.uri (resUri ++ "Cell")) ∈ gb := by
        unfold CoreB.rowCellStep
        rw [if_pos hmem]
        by_cases hval : pyTruthyOptStr cv.2 ∧ pyStrip (cv.2.getD "") ≠ ""
        · rw [if_pos hval]
          have hl : CoreB.lookupMapping ([] : List (String × CoreB.ColMapping)) cv.1 = none := rfl
          rw [hl, addCellMetadata_none_eq]
          refine ⟨_, rfl, ?_, ?_⟩
          · intro t ht; simp [ht]
          · simp
        · rw [if_neg hval]
          refine ⟨_, rfl, ?_, ?_⟩
          · intro t ht; simp [ht]
          · simp
      obtain ⟨gb, hgb, hmono, hcell⟩ := hstep
      obtain ⟨g2, hg2, hmono2, hcells2⟩ := ih gb
      refine ⟨g2, ?_, fun t ht => hmono2 t (hmono t ht), ?_⟩
      · rw [List.foldlM_cons, hgb]
        exact hg2
      · intro cv2 hcv2 hmem2
        rcases List.mem_cons.mp hcv2 with rfl | htail
        · exact hmono2 _ hcell
        · exact hcells2 cv2 htail hmem2
    · have hstep : CoreB.rowCellStep resUri rowU idx headers [] g cv = Except.ok g := by
        unfold CoreB.rowCellStep
        simp [hmem]
      obtain ⟨g2, hg2, hmono2, hcells2⟩ := ih g
      refine ⟨g2, ?_, hmono2, ?_⟩
      · rw [List.foldlM_cons, hstep]
        exact hg2
      · intro cv2 hcv2 hmem2
        rcases List.mem_cons.mp hcv2 with rfl | htail
        · exact absurd hmem2 hmem
        · exact hcells2 cv2 htail hmem2

theorem mem_flatten_enum_map {α β : Type} (l : List α) (f : Nat → α → List β) (x : β) :
    (x ∈ (l.enum.map fun p => f p.1 p.2).flatten)
      ↔ ∃ i : Nat, ∃ h : i < l.length, x ∈ f i l[i] := by
  rw [List.mem_flatten]
  constructor
  · rintro ⟨lb, hlb, hx⟩
    rw [List.mem_map] at hlb
    obtain ⟨p, hp, rfl⟩ := hlb
    rw [List.mem_enum_iff_getElem?] at hp
    rw [List.getElem?_eq_some] at hp
    obtain ⟨h, hget⟩ := hp
    exact ⟨p.1, h, by rw [hget]; exact hx⟩
  · rintro ⟨i, h, hx⟩
    refine ⟨f i l[i], List.mem_map.mpr ⟨(i, l[i]), ?_, rfl⟩, hx⟩
    rw [List.mem_enum_iff_getElem?]
    simp [List.getElem?_eq_getElem h]

theorem pyStrip_empty : pyStrip "" = "" := rfl

theorem pyStrip_ne_empty_of {s : String} (h : pyStrip s ≠ "") : s ≠ "" := by
  intro heq
  rw [heq] at h
  exact h pyStrip_empty

/-- Counterexample to C4 as stated: in `core.py`, a row value that is
empty still gets a Cell resource — `_add_row_metadata` materialises an
"empty cell" (typed `Cell`, `rawValue ""`) for every column present in
the row, so a Cell exists for a (row, column) pair whose trimmed source
value is empty. -/
theorem C4_empty_cell_counterexample :
    (∃ g, CoreB.addRowMetadata "http://r/" "http://r/csv" [] 0 ["A"] [""] []
        = Except.ok g
      ∧ (RTerm.uri (CoreB.cellUri "http://r/" 0 "A"), AnnotationConv.rdfTypeT,
         RTerm.uri "http://r/Cell") ∈ g)
    ∧ pyStrip "" = "" := by
  exact ⟨⟨_, rfl, by decide⟩, rfl⟩

/-- C4 (corrected): cell materialization per variant.  In `core.py`
(the graph generator the claim cites) a Cell resource is created for
**every** column present in the row — an empty value yields an explicit
empty cell — so "cell exists iff trimmed value non-empty" fails there;
it does hold for `core_simple.py` and `csv2rdf.py`.  In all variants no
two distinct columns of the same row share a cell identity, and no cell
is created for a column position not present.  (The `core.py` clause
takes the empty mapping table, which is what `_load_column_mappings`
yields in the src snapshot where `column_mappings.ttl` is absent.) -/
theorem C4_cell_materialization (resUri csvU tbl : String) (idx j : Nat)
    (headers : List String) (vals : List String) (valsD : List (Option String))
    (tableU : RTerm) (i : Nat) (hC : i < headers.length) (hD : i < valsD.length) :
    (∃ g, CoreB.addRowMetadata resUri csvU [] idx headers vals [] = Except.ok g
      ∧ ∀ c ∈ headers,
          (RTerm.uri (CoreB.cellUri resUri idx c), AnnotationConv.rdfTypeT,
           RTerm.uri (resUri ++ "Cell")) ∈ g)
    ∧ (∀ c₁ c₂ : String, c₁ ≠ c₂ →
        CoreB.cellUri resUri idx c₁ ≠ CoreB.cellUri resUri idx c₂)
    ∧ ((CoreSimple.cellBn j i, AnnotationConv.rdfTypeT, CoreSimple.fdicCellT)
          ∈ CoreSimple.rowTriples tableU headers j vals
        ↔ pyStrip (vals[i]?.getD "") ≠ "")
    ∧ (∀ i2, headers.length ≤ i2 →
        (CoreSimple.cellBn j i2, AnnotationConv.rdfTypeT, CoreSimple.fdicCellT)
          ∉ CoreSimple.rowTriples tableU headers j vals)
    ∧ (∀ i1 i2 : Nat, i1 ≠ i2 → CoreSimple.cellBn j i1 ≠ CoreSimple.cellBn j i2)
    ∧ ((RTerm.uri (Csv2Rdf.cellUri tbl j i), AnnotationConv.rdfTypeT,
          RTerm.uri (Csv2Rdf.ontNs ++ "Cell")) ∈ Csv2Rdf.rowTriples tbl j valsD
        ↔ pyStrip ((valsD[i]?.getD none).getD "") ≠ "")
    ∧ (∀ i2, valsD.length ≤ i2 →
        (RTerm.uri (Csv2Rdf.cellUri tbl j i2), AnnotationConv.rdfTypeT,
          RTerm.uri (Csv2Rdf.ontNs ++ "Cell")) ∉ Csv2Rdf.rowTriples tbl j valsD)
    ∧ (∀ i1 i2 : Nat, i1 ≠ i2 → Csv2Rdf.cellUri tbl j i1 ≠ Csv2Rdf.cellUri tbl j i2) := by
  have cellUriB_inj : ∀ c₁ c₂ : String, c₁ ≠ c₂ →
      CoreB.cellUri resUri idx c₁ ≠ CoreB.cellUri resUri idx c₂ := by
    intro c₁ c₂ hne heq
    exact hne (strAppend_left_cancel heq)
  have cellBn_inj : ∀ i1 i2 : Nat, i1 ≠ i2 →
      CoreSimple.cellBn j i1 ≠ CoreSimple.cellBn j i2 := by
    intro i1 i2 hne heq
    simp [CoreSimple.cellBn] at heq
    exact hne heq
  have cellUriD_inj : ∀ i1 i2 : Nat, i1 ≠ i2 →
      Csv2Rdf.cellUri tbl j i1 ≠ Csv2Rdf.cellUri tbl j i2 := by
    intro i1 i2 hne heq
    exact hne (natRepr_inj i1 i2 (strAppend_left_cancel heq))
  have memC : ∀ i2 : Nat,
      ((CoreSimple.cellBn j i2, AnnotationConv.rdfTypeT, CoreSimple.fdicCellT)
          ∈ CoreSimple.rowTriples tableU headers j vals)
        ↔ ∃ h2 : i2 < headers.length,
            (vals[i2]?.getD "" ≠ "" ∧ pyStrip (vals[i2]?.getD "") ≠ "") := by
    intro i2
    unfold CoreSimple.rowTriples
    simp only [List.cons_append, List.nil_append, List.mem_cons, List.mem_append]
    constructor
    · rintro (h | h | h | h)
      · rw [Prod.mk.injEq, Prod.mk.injEq] at h
        exact absurd h.2.2 (by decide)
      · rw [Prod.mk.injEq, Prod.mk.injEq] at h
        exact absurd h.2.1 (by decide)
      · rw [Prod.mk.injEq, Prod.mk.injEq] at h
        exact absurd h.2.1 (by decide)
      · rw [mem_flatten_enum_map headers
          (fun i3 _ => let v := vals[i3]?.getD "";
            if v ≠ "" ∧ pyStrip v ≠ "" then CoreSimple.cellTriples j i3 v else [])] at h
        obtain ⟨i3, h3, hmem⟩ := h
        simp only at hmem
        by_cases hcond : vals[i3]?.getD "" ≠ "" ∧ pyStrip (vals[i3]?.getD "") ≠ ""
        · rw [if_pos hcond] at hmem
          unfold CoreSimple.cellTriples at hmem
          simp only [List.mem_cons, List.not_mem_nil, or_false] at hmem
          rcases hmem with h | h | h | h
          · rw [Prod.mk.injEq, Prod.mk.injEq] at h
            have h1 := h.1
            simp only [CoreSimple.cellBn, RTerm.bnode.injEq, List.cons.injEq, and_true,
              true_and] at h1
            obtain rfl : i2 = i3 := h1
            exact ⟨h3, hcond⟩
          · rw [Prod.mk.injEq, Prod.mk.injEq] at h
            exact absurd h.2.1 (by decide)
          · rw [Prod.mk.injEq, Prod.mk.injEq] at h
            exact absurd h.2.1 (by decide)
          · rw [Prod.mk.injEq, Prod.mk.injEq] at h
            exact absurd h.2.1 (by decide)
        · rw [if_neg hcond] at hmem
          exact absurd hmem (List.not_mem_nil _)
    · rintro ⟨h2, hcond⟩
      refine Or.inr (Or.inr (Or.inr ?_))
      rw [mem_flatten_enum_map headers
        (fun i3 _ => let v := vals[i3]?.getD "";
          if v ≠ "" ∧ pyStrip v ≠ "" then CoreSimple.cellTriples j i3 v else [])]
      refine ⟨i2, h2, ?_⟩
      simp only
      rw [if_pos hcond]
      unfold CoreSimple.cellTriples
      simp
  have memD : ∀ i2 : Nat,
      ((RTerm.uri (Csv2Rdf.cellUri tbl j i2), AnnotationConv.rdfTypeT,
          RTerm.uri (Csv2Rdf.ontNs ++ "Cell")) ∈ Csv2Rdf.rowTriples tbl j valsD)
        ↔ ∃ h2 : i2 < valsD.length,
            (pyTruthyOptStr valsD[i2] ∧ pyStrip (valsD[i2].getD "") ≠ "") := by
    intro i2
    unfold Csv2Rdf.rowTriples
    simp only [List.mem_cons]
    constructor
    · rintro (h | h)
      · rw [Prod.mk.injEq, Prod.mk.injEq] at h
        exact absurd h.2.2 (by decide)
      · rw [show (fun iv : Nat × Option String =>
            if pyTruthyOptStr iv.2 ∧ pyStrip (iv.2.getD "") ≠ "" then
              Csv2Rdf.cellTriples tbl j iv.1 (iv.2.getD "")
            else []) = (fun iv : Nat × Option String =>
              (fun a b => if pyTruthyOptStr b ∧ pyStrip (b.getD "") ≠ "" then
                Csv2Rdf.cellTriples tbl j a (b.getD "") else []) iv.1 iv.2) from rfl] at h
        rw [mem_flatten_enum_map valsD
          (fun a b => if pyTruthyOptStr b ∧ pyStrip (b.getD "") ≠ "" then
            Csv2Rdf.cellTriples tbl j a (b.getD "") else [])] at h
        obtain ⟨i3, h3, hmem⟩ := h
        by_cases hcond : pyTruthyOptStr valsD[i3] ∧ pyStrip (valsD[i3].getD "") ≠ ""
        · rw [if_pos hcond] at hmem
          unfold Csv2Rdf.cellTriples at hmem
          simp only [List.mem_cons, List.not_mem_nil, or_false] at hmem
          rcases hmem with h | h | h | h | h
          · rw [Prod.mk.injEq, Prod.mk.injEq] at h
            have h1 := h.1
            rw [RTerm.uri.injEq] at h1
            obtain rfl : i2 = i3 := natRepr_inj i2 i3 (strAppend_left_cancel h1)
            exact ⟨h3, hcond⟩
          · rw [Prod.mk.injEq, Prod.mk.injEq] at h
            exact absurd h.2.1 (by decide)
          · rw [Prod.mk.injEq, Prod.mk.injEq] at h
            exact absurd h.2.1 (by decide)
          · rw [Prod.mk.injEq, Prod.mk.injEq] at h
            exact absurd h.2.1 (by decide)
          · rw [Prod.mk.injEq, Prod.mk.injEq] at h
            exact absurd h.2.1 (by decide)
        · rw [if_neg hcond] at hmem
          exact absurd hmem (List.not_mem_nil _)
    · rintro ⟨h2, hcond⟩
      refine Or.inr ?_
      rw [mem_flatten_enum_map valsD
        (fun a b => if pyTruthyOptStr b ∧ pyStrip (b.getD "") ≠ "" then
          Csv2Rdf.cellTriples tbl j a (b.getD "") else [])]
      refine ⟨i2, h2, ?_⟩
      rw [if_pos hcond]
      unfold Csv2Rdf.cellTriples
      simp
  refine ⟨?_, cellUriB_inj, ?_, ?_, cellBn_inj, ?_, ?_, cellUriD_inj⟩
  · obtain ⟨g2, hfold, _, hcells⟩ :=
      rowCellStep_fold_ok resUri (CoreB.rowUri resUri idx) idx headers
        (CoreB.rowDictOf headers vals) _
    refine ⟨g2, ?_, ?_⟩
    · unfold CoreB.addRowMetadata
      exact hfold
    · intro c hc
      have : (c, vals[(headers.indexOf c)]?) ∈ CoreB.rowDictOf headers vals ∨ True := Or.inr trivial
      obtain ⟨k, hk, hck⟩ := List.mem_iff_getElem.mp hc
      have hmemdict : (c, vals[k]?) ∈ CoreB.rowDictOf headers vals := by
        unfold CoreB.rowDictOf
        refine List.mem_map.mpr ⟨(k, c), ?_, by simp⟩
        rw [List.mem_enum_iff_getElem?]
        simp [List.getElem?_eq_getElem hk, hck]
      exact hcells (c, vals[k]?) hmemdict hc
  · rw [memC i]
    constructor
    · rintro ⟨_, _, hs⟩; exact hs
    · intro hs
      exact ⟨hC, pyStrip_ne_empty_of hs, hs⟩
  · intro i2 h2 hmem
    rw [memC i2] at hmem
    obtain ⟨h3, _⟩ := hmem
    omega
  · rw [memD i]
    constructor
    · rintro ⟨_, _, hs⟩
      rw [List.getElem?_eq_getElem hD]
      exact hs
    · intro hs
      rw [List.getElem?_eq_getElem hD] at hs
      refine ⟨hD, ?_, hs⟩
      cases hv : valsD[i] with
      | none => rw [hv] at hs; exact absurd rfl (pyStrip_ne_empty_of (by simpa using hs))
      | some s =>
        rw [hv] at hs
        simp only [Option.getD_some] at hs
        simp [pyTruthyOptStr, pyStrip_ne_empty_of hs]
  · intro i2 h2 hmem
    rw [memD i2] at hmem
    obtain ⟨h3, _⟩ := hmem
    omega

/-- Witness for C4 at a concrete row: headers `A`, `B`; values `x` and
whitespace.  `core.py` creates cells for both columns; `core_simple.py`
creates a cell only for the non-empty one. -/
theorem C4_cell_materialization_witness :
    (∃ g, CoreB.addRowMetadata "http://r/" "http://r/csv" [] 0 ["A", "B"] ["x", " "] []
        = Except.ok g
      ∧ ∀ c ∈ ["A", "B"],
          (RTerm.uri (CoreB.cellUri "http://r/" 0 c), AnnotationConv.rdfTypeT,
           RTerm.uri "http://r/Cell") ∈ g)
    ∧ ((CoreSimple.cellBn 0 0, AnnotationConv.rdfTypeT, CoreSimple.fdicCellT)
          ∈ CoreSimple.rowTriples (.uri "http://t") ["A", "B"] 0 ["x", " "]
        ↔ pyStrip ((["x", " "] : List String)[0]?.getD "") ≠ "") := by
  have h := C4_cell_materialization "http://r/" "http://r/csv" "tbl" 0 0
    ["A", "B"] ["x", " "] [some "x", some " "] (.uri "http://t") 0
    (by decide) (by decide)
  exact ⟨h.1, h.2.2.1⟩

/-! ### Claim C10 — glue lemmas for computing graph queries over the
`core_simple.py` table structure -/

theorem dedupFAux_eq_self {α : Type} [DecidableEq α] :
    ∀ (l : List α) (seen : List α), l.Nodup → (∀ x ∈ l, x ∉ seen) →
      dedupFAux seen l = l := by
  intro l
  induction l with
  | nil => intro seen _ _; rfl
  | cons a l ih =>
    intro seen hnd hdis
    rw [List.nodup_cons] at hnd
    simp only [dedupFAux]
    rw [if_neg (hdis a (List.mem_cons_self a l))]
    congr 1
    apply ih _ hnd.2
    intro x hx
    rw [List.mem_cons]
    rintro (rfl | hxs)
    · exact hnd.1 hx
    · exact hdis x (List.mem_cons_of_mem a hx) hxs

theorem dedupF_eq_self {α : Type} [DecidableEq α] {l : List α} (h : l.Nodup) :
    dedupF l = l :=
  dedupFAux_eq_self l [] h (by simp)

theorem filter_flatten {β : Type} (p : β → Bool) (L : List (List β)) :
    (L.flatten).filter p = (L.map (List.filter p)).flatten := by
  induction L with
  | nil => rfl
  | cons a L ih => simp [List.filter_append, ih]

theorem flatten_map_singleton {α β : Type} (f : α → β) (l : List α) :
    (l.map (fun x => [f x])).flatten = l.map f := by
  induction l with
  | nil => rfl
  | cons a l ih => simp [ih]

theorem flatten_map_cond_singleton {α β : Type} (f : α → β) (c : α → Bool) (l : List α) :
    (l.map (fun x => if c x then [f x] else [])).flatten = (l.filter c).map f := by
  induction l with
  | nil => rfl
  | cons a l ih =>
    by_cases h : c a <;> simp [h, ih, List.filter_cons]

theorem flatten_enumFrom_all_nil {α β : Type} (f : Nat → α → List β) :
    ∀ (l : List α) (n : Nat), (∀ k a, (f k a) = []) →
      ((l.enumFrom n).map (fun q => f q.1 q.2)).flatten = [] := by
  intro l
  induction l with
  | nil => intro n _; rfl
  | cons a l ih =>
    intro n hall
    simp only [List.enumFrom_cons, List.map_cons, List.flatten_cons, hall n a,
      List.nil_append]
    exact ih (n + 1) hall

theorem flatten_enumFrom_nil_of_lt {α β : Type} (f : Nat → α → List β) (i : Nat)
    (hothers : ∀ k a, k ≠ i → f k a = []) :
    ∀ (l : List α) (n : Nat), i < n →
      ((l.enumFrom n).map (fun q => f q.1 q.2)).flatten = [] := by
  intro l
  induction l with
  | nil => intro n _; rfl
  | cons a l ih =>
    intro n hlt
    simp only [List.enumFrom_cons, List.map_cons, List.flatten_cons,
      hothers n a (by omega), List.nil_append]
    exact ih (n + 1) (by omega)

theorem flatten_enumFrom_single {α β : Type} (f : Nat → α → List β) (i : Nat) :
    ∀ (l : List α) (n : Nat) (x : α), n ≤ i → l[i - n]? = some x →
      (∀ k a, k ≠ i → f k a = []) →
      ((l.enumFrom n).map (fun q => f q.1 q.2)).flatten = f i x := by
  intro l
  induction l with
  | nil =>
    intro n x _ hx _
    simp at hx
  | cons a l ih =>
    intro n x hn hx hothers
    simp only [List.enumFrom_cons, List.map_cons, List.flatten_cons]
    by_cases hne : n = i
    · subst hne
      have h0 : n - n = 0 := by omega
      rw [h0] at hx
      simp only [List.getElem?_cons_zero, Option.some.injEq] at hx
      subst hx
      rw [flatten_enumFrom_nil_of_lt f n hothers l (n + 1) (by omega), List.append_nil]
    · have hgt : n < i := by omega
      have hstep : i - n = (i - (n + 1)) + 1 := by omega
      rw [hstep] at hx
      simp only [List.getElem?_cons_succ] at hx
      rw [hothers n a hne, List.nil_append]
      exact ih (n + 1) x (by omega) hx hothers

theorem insertByKey_lt_head {α : Type} (f : α → Nat) (x : α) (l : List α)
    (h : ∀ y ∈ l, f x < f y) : CoreSimple.insertByKey f x l = x :: l := by
  cases l with
  | nil => rfl
  | cons y ys =>
    unfold CoreSimple.insertByKey
    rw [if_pos (h y (List.mem_cons_self y ys))]

theorem sortByKey_sorted_id {α : Type} (f : α → Nat) :
    ∀ l : List α, l.Pairwise (fun a b => f a < f b) → CoreSimple.sortByKey f l = l := by
  intro l
  induction l with
  | nil => intro _; rfl
  | cons x xs ih =>
    intro hp
    rw [List.pairwise_cons] at hp
    unfold CoreSimple.sortByKey
    rw [ih hp.2]
    exact insertByKey_lt_head f x xs hp.1

theorem foldl_set_getElem {α : Type} :
    ∀ (idxs : List (Nat × α)) (rv : List α) (k : Nat), k < rv.length →
      (List.map Prod.fst idxs).Nodup →
      (idxs.foldl (fun rv p => rv.set p.1 p.2) rv)[k]?
        = match idxs.find? (fun p => p.1 = k) with
          | some p => some p.2
          | none => rv[k]? := by
  intro idxs
  induction idxs with
  | nil => intro rv k hk _; rfl
  | cons p idxs ih =>
    intro rv k hk hnd
    rw [List.map_cons, List.nodup_cons] at hnd
    rw [List.foldl_cons]
    by_cases hpk : p.1 = k
    · have hfind : List.find? (fun q => q.1 = k) (p :: idxs) = some p := by
        rw [List.find?_cons_of_pos]
        simp [hpk]
      rw [hfind]
      have hnone : idxs.find? (fun q => q.1 = k) = none := by
        rw [List.find?_eq_none]
        intro q hq
        simp only [decide_eq_true_eq]
        intro hqk
        apply hnd.1
        rw [hpk, ← hqk]
        exact List.mem_map_of_mem Prod.fst hq
      rw [ih (rv.set p.1 p.2) k (by simpa using hk) hnd.2, hnone]
      subst hpk
      exact List.getElem?_set_eq_of_lt p.2 hk
    · have hfind : List.find? (fun q => q.1 = k) (p :: idxs) =
          List.find? (fun q => q.1 = k) idxs := by
        rw [List.find?_cons_of_neg]
        simp [hpk]
      rw [hfind, ih (rv.set p.1 p.2) k (by simpa using hk) hnd.2]
      rw [List.getElem?_set_ne hpk]

theorem foldl_congr_mem {α β : Type} (f g : β → α → β) :
    ∀ (l : List α) (init : β), (∀ b a, a ∈ l → f b a = g b a) →
      l.foldl f init = l.foldl g init := by
  intro l
  induction l with
  | nil => intro init _; rfl
  | cons a l ih =>
    intro init h
    rw [List.foldl_cons, List.foldl_cons, h init a (List.mem_cons_self a l)]
    exact ih _ fun b x hx => h b x (List.mem_cons_of_mem a hx)

theorem foldl_append_map {α β : Type} (f : α → β) :
    ∀ (l : List α) (init : List β),
      l.foldl (fun acc x => acc ++ [f x]) init = init ++ l.map f := by
  intro l
  induction l with
  | nil => intro init; simp
  | cons a l ih => intro init; simp [ih]

theorem find_fst_of_mem {α : Type} :
    ∀ (l : List (Nat × α)) (k : Nat) (v : α), (l.map Prod.fst).Nodup → (k, v) ∈ l →
      l.find? (fun p => p.1 = k) = some (k, v) := by
  intro l
  induction l with
  | nil => intro k v _ hm; cases hm
  | cons a l ih =>
    intro k v hnd hm
    rw [List.map_cons, List.nodup_cons] at hnd
    by_cases hak : a.1 = k
    · have hav : a = (k, v) := by
        rcases List.mem_cons.mp hm with h | h
        · exact h.symm
        · exact absurd (hak ▸ List.mem_map_of_mem Prod.fst h) hnd.1
      rw [List.find?_cons_of_pos]
      · rw [hav]
      · simp [hak]
    · rw [List.find?_cons_of_neg]
      · refine ih k v hnd.2 ?_
        rcases List.mem_cons.mp hm with h | h
        · exact absurd (congrArg Prod.fst h.symm) hak
        · exact h
      · simp [hak]

theorem findIdx_from_eq {α : Type} (p : α → Bool) (x : α) :
    ∀ (l : List α) (i s : Nat), l[i]? = some x → p x = true →
      (∀ k y, k < i → l[k]? = some y → p y = false) →
      l.findIdx? p s = some (s + i) := by
  intro l
  induction l with
  | nil => intro i s hx _ _; simp at hx
  | cons a l ih =>
    intro i s hx hpx hbefore
    cases i with
    | zero =>
      simp only [List.getElem?_cons_zero, Option.some.injEq] at hx
      subst hx
      rw [List.findIdx?_cons, if_pos hpx, Nat.add_zero]
    | succ i =>
      simp only [List.getElem?_cons_succ] at hx
      have hpa : p a = false := hbefore 0 a (by omega) (by simp)
      rw [List.findIdx?_cons, if_neg (by simp [hpa])]
      have := ih i (s + 1) hx hpx
        (fun k y hk hy => hbefore (k + 1) y (by omega) (by simpa using hy))
      rw [this]
      congr 1
      omega

theorem foldl_set_length {α : Type} :
    ∀ (idxs : List (Nat × α)) (rv : List α),
      (idxs.foldl (fun rv p => rv.set p.1 p.2) rv).length = rv.length := by
  intro idxs
  induction idxs with
  | nil => intro rv; rfl
  | cons p idxs ih => intro rv; rw [List.foldl_cons, ih, List.length_set]

theorem map_range_getD {α β : Type} (f : α → β) (l : List α) (d : α) :
    (List.range l.length).map (fun i => f (l.getD i d)) = l.map f := by
  apply List.ext_getElem
  · simp
  · intro n h1 h2
    simp only [List.getElem_map, List.getElem_range, List.getD_eq_getElem?_getD]
    rw [List.getElem?_eq_getElem (by simpa using h2)]
    rfl

theorem flatten_map_eq_nil {α β : Type} (f : α → List β) :
    ∀ (l : List α), (∀ x ∈ l, f x = []) → (l.map f).flatten = [] := by
  intro l
  induction l with
  | nil => intro _; rfl
  | cons a l ih =>
    intro h
    simp only [List.map_cons, List.flatten_cons, h a (List.mem_cons_self a l),
      List.nil_append]
    exact ih fun x hx => h x (List.mem_cons_of_mem a hx)

theorem filter_sp_cons_of_ne {s p' : RTerm} (s1 p1 o1 : RTerm) (l : List Triple)
    (h : p1 ≠ p') :
    List.filter (fun x => decide (x.1 = s ∧ x.2.1 = p')) ((s1, p1, o1) :: l)
      = List.filter (fun x => decide (x.1 = s ∧ x.2.1 = p')) l := by
  apply List.filter_cons_of_neg
  simp only [decide_eq_true_eq, not_and]
  exact fun _ => h

theorem filter_sp_cons_pos {s p' : RTerm} (s1 p1 o1 : RTerm) (l : List Triple)
    (h1 : s1 = s) (h2 : p1 = p') :
    List.filter (fun x => decide (x.1 = s ∧ x.2.1 = p')) ((s1, p1, o1) :: l)
      = (s1, p1, o1) :: List.filter (fun x => decide (x.1 = s ∧ x.2.1 = p')) l := by
  apply List.filter_cons_of_pos
  simp [h1, h2]

theorem filter_po_cons_of_ne_p {p' o : RTerm} (s1 p1 o1 : RTerm) (l : List Triple)
    (h : p1 ≠ p') :
    List.filter (fun x => decide (x.2.1 = p' ∧ x.2.2 = o)) ((s1, p1, o1) :: l)
      = List.filter (fun x => decide (x.2.1 = p' ∧ x.2.2 = o)) l := by
  apply List.filter_cons_of_neg
  simp only [decide_eq_true_eq, not_and]
  exact fun hp => absurd hp h

theorem filter_po_cons_of_ne_o {p' o : RTerm} (s1 p1 o1 : RTerm) (l : List Triple)
    (h : o1 ≠ o) :
    List.filter (fun x => decide (x.2.1 = p' ∧ x.2.2 = o)) ((s1, p1, o1) :: l)
      = List.filter (fun x => decide (x.2.1 = p' ∧ x.2.2 = o)) l := by
  apply List.filter_cons_of_neg
  simp only [decide_eq_true_eq, not_and]
  exact fun _ => h

theorem filter_po_cons_pos {p' o : RTerm} (s1 p1 o1 : RTerm) (l : List Triple)
    (h1 : p1 = p') (h2 : o1 = o) :
    List.filter (fun x => decide (x.2.1 = p' ∧ x.2.2 = o)) ((s1, p1, o1) :: l)
      = (s1, p1, o1) :: List.filter (fun x => decide (x.2.1 = p' ∧ x.2.2 = o)) l := by
  apply List.filter_cons_of_pos
  simp [h1, h2]

theorem colBn_inj {i k : Nat} : CoreSimple.colBn i = CoreSimple.colBn k ↔ i = k := by
  simp [CoreSimple.colBn]

theorem rowBn_inj {j k : Nat} : CoreSimple.rowBn j = CoreSimple.rowBn k ↔ j = k := by
  simp [CoreSimple.rowBn]

theorem cellBn_inj {j i j' i' : Nat} :
    CoreSimple.cellBn j i = CoreSimple.cellBn j' i' ↔ j = j' ∧ i = i' := by
  simp [CoreSimple.cellBn, and_assoc]

theorem cs_filter (p : Triple → Bool) (ts t nw : String) (hs : List String)
    (rs : List (List String)) :
    (CoreSimple.buildTableStructure (.uri ts) t nw hs rs none).filter p
      = List.filter p
          [(.uri ts, AnnotationConv.rdfTypeT, CoreSimple.fdicTableT),
           (.uri ts, AnnotationConv.dctTitleT, .lit t),
           (.uri ts, AnnotationConv.dctCreatedT,
            .litTyped nw (AnnotationConv.xsdNs ++ "dateTime"))]
        ++ (hs.enum.map fun ih => (CoreSimple.colTriples (.uri ts) ih.1 ih.2).filter p).flatten
        ++ (rs.enum.map fun jr => (CoreSimple.rowTriples (.uri ts) hs jr.1 jr.2).filter p).flatten := by
  rw [CoreSimple.buildTableStructure, capPost_none, List.filter_append, List.filter_append,
    filter_flatten, filter_flatten, List.map_map, List.map_map]
  rfl

theorem rowTriples_filter (p : Triple → Bool) (tU : RTerm) (hs : List String) (j : Nat)
    (r : List String) :
    (CoreSimple.rowTriples tU hs j r).filter p
      = List.filter p
          [(CoreSimple.rowBn j, AnnotationConv.rdfTypeT, CoreSimple.fdicRowT),
           (CoreSimple.rowBn j, CoreSimple.fdicRowIndexT, .litInt j),
           (tU, CoreSimple.fdicHasRowT, CoreSimple.rowBn j)]
        ++ (hs.enum.map fun ih =>
            List.filter p
              (if (r[ih.1]?.getD "") ≠ "" ∧ pyStrip (r[ih.1]?.getD "") ≠ ""
               then CoreSimple.cellTriples j ih.1 (r[ih.1]?.getD "") else [])).flatten := by
  rw [CoreSimple.rowTriples, List.filter_append, filter_flatten, List.map_map]
  rfl

theorem cs_subjects_table (ts t nw : String) (hs : List String) (rs : List (List String)) :
    subjectsOf (CoreSimple.buildTableStructure (.uri ts) t nw hs rs none)
      AnnotationConv.rdfTypeT CoreSimple.fdicTableT = [.uri ts] := by
  rw [subjectsOf, cs_filter, flatten_map_eq_nil, flatten_map_eq_nil]
  · rfl
  · intro jr _
    rw [rowTriples_filter, flatten_map_eq_nil]
    · rfl
    · intro ih _
      rw [apply_ite (List.filter _)]
      exact ite_self []
  · intro x _
    rfl

theorem filter_sp_cons_of_ne_s {s p' : RTerm} (s1 p1 o1 : RTerm) (l : List Triple)
    (h : s1 ≠ s) :
    List.filter (fun x => decide (x.1 = s ∧ x.2.1 = p')) ((s1, p1, o1) :: l)
      = List.filter (fun x => decide (x.1 = s ∧ x.2.1 = p')) l := by
  apply List.filter_cons_of_neg
  simp only [decide_eq_true_eq, not_and]
  exact fun hs => absurd hs h

theorem flatten_enumFrom_nil_of_lt_u {α β : Type} (f : Nat × α → List β) (i : Nat)
    (hothers : ∀ q : Nat × α, q.1 ≠ i → f q = []) :
    ∀ (l : List α) (n : Nat), i < n → ((l.enumFrom n).map f).flatten = [] := by
  intro l
  induction l with
  | nil => intro n _; rfl
  | cons a l ih =>
    intro n hlt
    simp only [List.enumFrom_cons, List.map_cons, List.flatten_cons,
      hothers (n, a) (by simp; omega), List.nil_append]
    exact ih (n + 1) (by omega)

theorem flatten_enumFrom_single_u {α β : Type} (f : Nat × α → List β) (i : Nat) :
    ∀ (l : List α) (n : Nat) (x : α), n ≤ i → l[i - n]? = some x →
      (∀ q : Nat × α, q.1 ≠ i → f q = []) →
      ((l.enumFrom n).map f).flatten = f (i, x) := by
  intro l
  induction l with
  | nil =>
    intro n x _ hx _
    simp at hx
  | cons a l ih =>
    intro n x hn hx hothers
    simp only [List.enumFrom_cons, List.map_cons, List.flatten_cons]
    by_cases hne : n = i
    · subst hne
      have h0 : n - n = 0 := by omega
      rw [h0] at hx
      simp only [List.getElem?_cons_zero, Option.some.injEq] at hx
      subst hx
      rw [flatten_enumFrom_nil_of_lt_u f n hothers l (n + 1) (by omega), List.append_nil]
    · have hstep : i - n = (i - (n + 1)) + 1 := by omega
      rw [hstep] at hx
      simp only [List.getElem?_cons_succ] at hx
      rw [hothers (n, a) (by simp [hne]), List.nil_append]
      exact ih (n + 1) x (by omega) hx hothers

theorem flatten_enum_single_u {α β : Type} (f : Nat × α → List β) (i : Nat)
    (l : List α) (x : α) (hx : l[i]? = some x)
    (hothers : ∀ q : Nat × α, q.1 ≠ i → f q = []) :
    (l.enum.map f).flatten = f (i, x) :=
  flatten_enumFrom_single_u f i l 0 x (by omega) (by simpa using hx) hothers

theorem cs_title_value (ts t nw : String) (hs : List String) (rs : List (List String)) :
    valueOf (CoreSimple.buildTableStructure (.uri ts) t nw hs rs none)
      (.uri ts) AnnotationConv.dctTitleT = some (.lit t) := by
  have hfil : (CoreSimple.buildTableStructure (.uri ts) t nw hs rs none).filter
      (fun x => decide (x.1 = RTerm.uri ts ∧ x.2.1 = AnnotationConv.dctTitleT))
      = [(.uri ts, AnnotationConv.dctTitleT, .lit t)] := by
    rw [cs_filter, flatten_map_eq_nil, flatten_map_eq_nil]
    · rw [filter_sp_cons_of_ne, filter_sp_cons_pos, filter_sp_cons_of_ne]
      all_goals first
        | rfl
        | exact fun h => absurd h (by decide)
    · intro jr _
      rw [rowTriples_filter, flatten_map_eq_nil]
      · rw [filter_sp_cons_of_ne, filter_sp_cons_of_ne, filter_sp_cons_of_ne]
        all_goals first
          | rfl
          | exact fun h => absurd h (by decide)
      · intro ih _
        rw [apply_ite (List.filter _)]
        exact ite_self []
    · intro ih _
      rw [CoreSimple.colTriples, filter_sp_cons_of_ne, filter_sp_cons_of_ne,
        filter_sp_cons_of_ne, filter_sp_cons_of_ne]
      all_goals first
        | rfl
        | exact fun h => absurd h (by decide)
  rw [valueOf, objectsOf, hfil]
  rfl

theorem cs_columns (ts t nw : String) (hs : List String) (rs : List (List String)) :
    objectsOf (CoreSimple.buildTableStructure (.uri ts) t nw hs rs none)
      (.uri ts) CoreSimple.fdicHasColumnT
      = (List.range hs.length).map CoreSimple.colBn := by
  have hcol : ∀ ih ∈ hs.enum,
      List.filter (fun x => decide (x.1 = RTerm.uri ts ∧ x.2.1 = CoreSimple.fdicHasColumnT))
        (CoreSimple.colTriples (RTerm.uri ts) ih.1 ih.2)
      = [((RTerm.uri ts : RTerm), CoreSimple.fdicHasColumnT, CoreSimple.colBn ih.1)] := by
    intro ih _
    rw [CoreSimple.colTriples, filter_sp_cons_of_ne, filter_sp_cons_of_ne,
      filter_sp_cons_of_ne, filter_sp_cons_pos]
    all_goals first | rfl | decide
  have hfil : (CoreSimple.buildTableStructure (.uri ts) t nw hs rs none).filter
      (fun x => decide (x.1 = RTerm.uri ts ∧ x.2.1 = CoreSimple.fdicHasColumnT))
      = hs.enum.map
          (fun ih => ((RTerm.uri ts : RTerm), CoreSimple.fdicHasColumnT, CoreSimple.colBn ih.1)) := by
    rw [cs_filter, List.map_congr_left hcol, flatten_map_singleton, flatten_map_eq_nil]
    · rw [filter_sp_cons_of_ne, filter_sp_cons_of_ne, filter_sp_cons_of_ne]
      · simp
      all_goals decide
    · intro jr _
      rw [rowTriples_filter, flatten_map_eq_nil]
      · rw [filter_sp_cons_of_ne, filter_sp_cons_of_ne, filter_sp_cons_of_ne]
        · rfl
        all_goals decide
      · intro ih _
        rw [apply_ite (List.filter _)]
        exact ite_self []
  rw [objectsOf, hfil, List.map_map]
  show dedupF (List.map (CoreSimple.colBn ∘ Prod.fst) hs.enum)
    = (List.range hs.length).map CoreSimple.colBn
  rw [← List.map_map, List.enum_map_fst]
  exact dedupF_eq_self
    (List.Nodup.map (fun a b h => colBn_inj.mp h) (List.nodup_range _))

theorem cs_col_name (ts t nw : String) (hs : List String) (rs : List (List String))
    (i : Nat) (h : String) (hi : hs[i]? = some h) :
    valueOf (CoreSimple.buildTableStructure (.uri ts) t nw hs rs none)
      (CoreSimple.colBn i) CoreSimple.fdicColumnNameT = some (.lit h) := by
  have hothers : ∀ q : Nat × String, q.1 ≠ i →
      List.filter
        (fun x => decide (x.1 = CoreSimple.colBn i ∧ x.2.1 = CoreSimple.fdicColumnNameT))
        (CoreSimple.colTriples (RTerm.uri ts) q.1 q.2) = [] := by
    intro q hq
    rw [CoreSimple.colTriples, filter_sp_cons_of_ne, filter_sp_cons_of_ne_s,
      filter_sp_cons_of_ne]
    · rfl
    · decide
    · simp only [ne_eq, colBn_inj]; exact hq
    · decide
  have hsingle : (hs.enum.map
      (fun ih => List.filter
        (fun x => decide (x.1 = CoreSimple.colBn i ∧ x.2.1 = CoreSimple.fdicColumnNameT))
        (CoreSimple.colTriples (RTerm.uri ts) ih.1 ih.2))).flatten
      = [(CoreSimple.colBn i, CoreSimple.fdicColumnNameT, RTerm.lit h)] := by
    rw [flatten_enum_single_u _ i hs h hi hothers]
    rw [CoreSimple.colTriples, filter_sp_cons_of_ne, filter_sp_cons_pos,
      filter_sp_cons_of_ne]
    · rfl
    · decide
    · rfl
    · rfl
    · decide
  have hfil : (CoreSimple.buildTableStructure (.uri ts) t nw hs rs none).filter
      (fun x => decide (x.1 = CoreSimple.colBn i ∧ x.2.1 = CoreSimple.fdicColumnNameT))
      = [(CoreSimple.colBn i, CoreSimple.fdicColumnNameT, RTerm.lit h)] := by
    rw [cs_filter, hsingle, flatten_map_eq_nil]
    · rfl
    · intro jr _
      rw [rowTriples_filter, flatten_map_eq_nil]
      · rfl
      · intro ih _
        rw [apply_ite (List.filter _)]
        exact ite_self []
  rw [valueOf, objectsOf, hfil]
  rfl

theorem cs_col_index (ts t nw : String) (hs : List String) (rs : List (List String))
    (i : Nat) (h : String) (hi : hs[i]? = some h) :
    valueOf (CoreSimple.buildTableStructure (.uri ts) t nw hs rs none)
      (CoreSimple.colBn i) CoreSimple.fdicColumnIndexT = some (.litInt i) := by
  have hothers : ∀ q : Nat × String, q.1 ≠ i →
      List.filter
        (fun x => decide (x.1 = CoreSimple.colBn i ∧ x.2.1 = CoreSimple.fdicColumnIndexT))
        (CoreSimple.colTriples (RTerm.uri ts) q.1 q.2) = [] := by
    intro q hq
    rw [CoreSimple.colTriples, filter_sp_cons_of_ne, filter_sp_cons_of_ne,
      filter_sp_cons_of_ne_s]
    · rfl
    · simp only [ne_eq, colBn_inj]; exact hq
    · decide
    · decide
  have hsingle : (hs.enum.map
      (fun ih => List.filter
        (fun x => decide (x.1 = CoreSimple.colBn i ∧ x.2.1 = CoreSimple.fdicColumnIndexT))
        (CoreSimple.colTriples (RTerm.uri ts) ih.1 ih.2))).flatten
      = [(CoreSimple.colBn i, CoreSimple.fdicColumnIndexT, RTerm.litInt i)] := by
    rw [flatten_enum_single_u _ i hs h hi hothers]
    rw [CoreSimple.colTriples, filter_sp_cons_of_ne, filter_sp_cons_of_ne,
      filter_sp_cons_pos]
    · rfl
    · rfl
    · rfl
    · decide
    · decide
  have hfil : (CoreSimple.buildTableStructure (.uri ts) t nw hs rs none).filter
      (fun x => decide (x.1 = CoreSimple.colBn i ∧ x.2.1 = CoreSimple.fdicColumnIndexT))
      = [(CoreSimple.colBn i, CoreSimple.fdicColumnIndexT, RTerm.litInt i)] := by
    rw [cs_filter, hsingle, flatten_map_eq_nil]
    · rfl
    · intro jr _
      rw [rowTriples_filter, flatten_map_eq_nil]
      · rfl
      · intro ih _
        rw [apply_ite (List.filter _)]
        exact ite_self []
  rw [valueOf, objectsOf, hfil]
  rfl

theorem cs_rows (ts t nw : String) (hs : List String) (rs : List (List String)) :
    objectsOf (CoreSimple.buildTableStructure (.uri ts) t nw hs rs none)
      (.uri ts) CoreSimple.fdicHasRowT
      = (List.range rs.length).map CoreSimple.rowBn := by
  have hrow : ∀ jr ∈ rs.enum,
      List.filter (fun x => decide (x.1 = RTerm.uri ts ∧ x.2.1 = CoreSimple.fdicHasRowT))
        (CoreSimple.rowTriples (RTerm.uri ts) hs jr.1 jr.2)
      = [((RTerm.uri ts : RTerm), CoreSimple.fdicHasRowT, CoreSimple.rowBn jr.1)] := by
    intro jr _
    rw [rowTriples_filter, flatten_map_eq_nil]
    · rw [filter_sp_cons_of_ne, filter_sp_cons_of_ne, filter_sp_cons_pos]
      · rfl
      · rfl
      · rfl
      · decide
      · decide
    · intro ih _
      rw [apply_ite (List.filter _)]
      exact ite_self []
  have hfil : (CoreSimple.buildTableStructure (.uri ts) t nw hs rs none).filter
      (fun x => decide (x.1 = RTerm.uri ts ∧ x.2.1 = CoreSimple.fdicHasRowT))
      = rs.enum.map
          (fun jr => ((RTerm.uri ts : RTerm), CoreSimple.fdicHasRowT, CoreSimple.rowBn jr.1)) := by
    rw [cs_filter, List.map_congr_left hrow, flatten_map_singleton, flatten_map_eq_nil]
    · rw [filter_sp_cons_of_ne, filter_sp_cons_of_ne, filter_sp_cons_of_ne]
      · simp
      all_goals decide
    · intro ih _
      rw [CoreSimple.colTriples, filter_sp_cons_of_ne, filter_sp_cons_of_ne,
        filter_sp_cons_of_ne, filter_sp_cons_of_ne]
      · rfl
      all_goals decide
  rw [objectsOf, hfil, List.map_map]
  show dedupF (List.map (CoreSimple.rowBn ∘ Prod.fst) rs.enum)
    = (List.range rs.length).map CoreSimple.rowBn
  rw [← List.map_map, List.enum_map_fst]
  exact dedupF_eq_self
    (List.Nodup.map (fun a b h => rowBn_inj.mp h) (List.nodup_range _))

theorem cs_row_index (ts t nw : String) (hs : List String) (rs : List (List String))
    (j : Nat) (r : List String) (hj : rs[j]? = some r) :
    valueOf (CoreSimple.buildTableStructure (.uri ts) t nw hs rs none)
      (CoreSimple.rowBn j) CoreSimple.fdicRowIndexT = some (.litInt j) := by
  have hothers : ∀ q : Nat × List String, q.1 ≠ j →
      List.filter
        (fun x => decide (x.1 = CoreSimple.rowBn j ∧ x.2.1 = CoreSimple.fdicRowIndexT))
        (CoreSimple.rowTriples (RTerm.uri ts) hs q.1 q.2) = [] := by
    intro q hq
    rw [rowTriples_filter, flatten_map_eq_nil]
    · rw [filter_sp_cons_of_ne, filter_sp_cons_of_ne_s]
      · rfl
      · simp only [ne_eq, rowBn_inj]; exact hq
      · decide
    · intro ih _
      rw [apply_ite (List.filter _)]
      exact ite_self []
  have hsingle : (rs.enum.map
      (fun jr => List.filter
        (fun x => decide (x.1 = CoreSimple.rowBn j ∧ x.2.1 = CoreSimple.fdicRowIndexT))
        (CoreSimple.rowTriples (RTerm.uri ts) hs jr.1 jr.2))).flatten
      = [(CoreSimple.rowBn j, CoreSimple.fdicRowIndexT, RTerm.litInt j)] := by
    rw [flatten_enum_single_u _ j rs r hj hothers]
    rw [rowTriples_filter, flatten_map_eq_nil]
    · rw [filter_sp_cons_of_ne, filter_sp_cons_pos]
      · rfl
      · rfl
      · rfl
      · decide
    · intro ih _
      rw [apply_ite (List.filter _)]
      exact ite_self []
  have hfil : (CoreSimple.buildTableStructure (.uri ts) t nw hs rs none).filter
      (fun x => decide (x.1 = CoreSimple.rowBn j ∧ x.2.1 = CoreSimple.fdicRowIndexT))
      = [(CoreSimple.rowBn j, CoreSimple.fdicRowIndexT, RTerm.litInt j)] := by
    rw [cs_filter, flatten_map_eq_nil, hsingle]
    · rfl
    · intro ih _
      rfl
  rw [valueOf, objectsOf, hfil]
  rfl

theorem flatten_map_cond_singleton_p {α β : Type} (f : α → β) (c : α → Prop)
    [DecidablePred c] (l : List α) :
    (l.map (fun x => if c x then [f x] else [])).flatten
      = (l.filter (fun x => decide (c x))).map f := by
  induction l with
  | nil => rfl
  | cons a l ih =>
    by_cases h : c a <;> simp [h, ih, List.filter_cons]

theorem cs_row_cells (ts t nw : String) (hs : List String) (rs : List (List String))
    (j : Nat) (r : List String) (hj : rs[j]? = some r) :
    subjectsOf (CoreSimple.buildTableStructure (.uri ts) t nw hs rs none)
      CoreSimple.fdicInRowT (CoreSimple.rowBn j)
      = (hs.enum.filter (fun ih =>
            decide ((r[ih.1]?.getD "") ≠ "" ∧ pyStrip (r[ih.1]?.getD "") ≠ ""))).map
          (fun ih => CoreSimple.cellBn j ih.1) := by
  have hothers : ∀ q : Nat × List String, q.1 ≠ j →
      List.filter
        (fun x => decide (x.2.1 = CoreSimple.fdicInRowT ∧ x.2.2 = CoreSimple.rowBn j))
        (CoreSimple.rowTriples (RTerm.uri ts) hs q.1 q.2) = [] := by
    intro q hq
    rw [rowTriples_filter, flatten_map_eq_nil]
    · rfl
    · intro ih _
      rw [apply_ite (List.filter _), CoreSimple.cellTriples, filter_po_cons_of_ne_p,
        filter_po_cons_of_ne_p, filter_po_cons_of_ne_o, filter_po_cons_of_ne_p]
      · exact ite_self []
      · decide
      · simp only [ne_eq, rowBn_inj]; exact hq
      · decide
      · decide
  have hcells : ∀ ih ∈ hs.enum,
      List.filter
        (fun x => decide (x.2.1 = CoreSimple.fdicInRowT ∧ x.2.2 = CoreSimple.rowBn j))
        (if (r[ih.1]?.getD "") ≠ "" ∧ pyStrip (r[ih.1]?.getD "") ≠ ""
         then CoreSimple.cellTriples j ih.1 (r[ih.1]?.getD "") else [])
      = (if (r[ih.1]?.getD "") ≠ "" ∧ pyStrip (r[ih.1]?.getD "") ≠ ""
         then [(CoreSimple.cellBn j ih.1, CoreSimple.fdicInRowT, CoreSimple.rowBn j)] else []) := by
    intro ih _
    rw [apply_ite (List.filter _), CoreSimple.cellTriples, filter_po_cons_of_ne_p,
      filter_po_cons_of_ne_p, filter_po_cons_pos]
    · rfl
    · rfl
    · rfl
    · decide
    · decide
  have hsingle : (rs.enum.map
      (fun jr => List.filter
        (fun x => decide (x.2.1 = CoreSimple.fdicInRowT ∧ x.2.2 = CoreSimple.rowBn j))
        (CoreSimple.rowTriples (RTerm.uri ts) hs jr.1 jr.2))).flatten
      = (hs.enum.filter (fun ih =>
            decide ((r[ih.1]?.getD "") ≠ "" ∧ pyStrip (r[ih.1]?.getD "") ≠ ""))).map
          (fun ih => (CoreSimple.cellBn j ih.1, CoreSimple.fdicInRowT, CoreSimple.rowBn j)) := by
    rw [flatten_enum_single_u _ j rs r hj hothers]
    rw [rowTriples_filter, List.map_congr_left hcells, flatten_map_cond_singleton_p]
    rfl
  have hfil : (CoreSimple.buildTableStructure (.uri ts) t nw hs rs none).filter
      (fun x => decide (x.2.1 = CoreSimple.fdicInRowT ∧ x.2.2 = CoreSimple.rowBn j))
      = (hs.enum.filter (fun ih =>
            decide ((r[ih.1]?.getD "") ≠ "" ∧ pyStrip (r[ih.1]?.getD "") ≠ ""))).map
          (fun ih => (CoreSimple.cellBn j ih.1, CoreSimple.fdicInRowT, CoreSimple.rowBn j)) := by
    rw [cs_filter, flatten_map_eq_nil, hsingle]
    · rfl
    · intro ih _
      rfl
  rw [subjectsOf, hfil, List.map_map]
  show dedupF ((hs.enum.filter _).map ((fun ih => CoreSimple.cellBn j ih.1))) = _
  rw [show ((fun ih : Nat × String => CoreSimple.cellBn j ih.1))
      = (CoreSimple.cellBn j ∘ Prod.fst) from rfl]
  rw [← List.map_map]
  refine dedupF_eq_self (List.Nodup.map (fun a b h => (cellBn_inj.mp h).2) ?_)
  have hsub : ((hs.enum.filter (fun ih =>
      decide ((r[ih.1]?.getD "") ≠ "" ∧ pyStrip (r[ih.1]?.getD "") ≠ ""))).map Prod.fst).Sublist
      (hs.enum.map Prod.fst) :=
    List.Sublist.map Prod.fst (List.filter_sublist hs.enum)
  rw [List.enum_map_fst] at hsub
  exact hsub.nodup (List.nodup_range _)

theorem flatten_enum_single_u2 {α β : Type} (f : Nat × α → List β) (i : Nat)
    (l : List α) (x : α) (res : List β) (hx : l[i]? = some x)
    (hothers : ∀ q : Nat × α, q.1 ≠ i → f q = []) (hfx : f (i, x) = res) :
    (l.enum.map f).flatten = res :=
  (flatten_enum_single_u f i l x hx hothers).trans hfx

theorem cs_cell_col (ts t nw : String) (hs : List String) (rs : List (List String))
    (j : Nat) (r : List String) (i : Nat) (h : String)
    (hj : rs[j]? = some r) (hi : hs[i]? = some h)
    (hcond : (r[i]?.getD "") ≠ "" ∧ pyStrip (r[i]?.getD "") ≠ "") :
    valueOf (CoreSimple.buildTableStructure (.uri ts) t nw hs rs none)
      (CoreSimple.cellBn j i) CoreSimple.fdicInColumnT = some (CoreSimple.colBn i) := by
  have hcell_others : ∀ q : Nat × String, q.1 ≠ i →
      List.filter
        (fun x => decide (x.1 = CoreSimple.cellBn j i ∧ x.2.1 = CoreSimple.fdicInColumnT))
        (if (r[q.1]?.getD "") ≠ "" ∧ pyStrip (r[q.1]?.getD "") ≠ ""
         then CoreSimple.cellTriples j q.1 (r[q.1]?.getD "") else []) = [] := by
    intro q hq
    rw [apply_ite (List.filter _), CoreSimple.cellTriples, filter_sp_cons_of_ne_s,
      filter_sp_cons_of_ne_s, filter_sp_cons_of_ne_s, filter_sp_cons_of_ne_s]
    · exact ite_self []
    · simp only [ne_eq, cellBn_inj, not_and]; exact fun _ => hq
    · simp only [ne_eq, cellBn_inj, not_and]; exact fun _ => hq
    · simp only [ne_eq, cellBn_inj, not_and]; exact fun _ => hq
    · simp only [ne_eq, cellBn_inj, not_and]; exact fun _ => hq
  have hfx : List.filter
      (fun x => decide (x.1 = CoreSimple.cellBn j i ∧ x.2.1 = CoreSimple.fdicInColumnT))
      (if (r[i]?.getD "") ≠ "" ∧ pyStrip (r[i]?.getD "") ≠ ""
       then CoreSimple.cellTriples j i (r[i]?.getD "") else [])
      = [(CoreSimple.cellBn j i, CoreSimple.fdicInColumnT, CoreSimple.colBn i)] := by
    rw [if_pos hcond, CoreSimple.cellTriples, filter_sp_cons_of_ne, filter_sp_cons_of_ne,
      filter_sp_cons_of_ne, filter_sp_cons_pos]
    · rfl
    · rfl
    · rfl
    · decide
    · decide
    · decide
  have hrow_j : List.filter
      (fun x => decide (x.1 = CoreSimple.cellBn j i ∧ x.2.1 = CoreSimple.fdicInColumnT))
      (CoreSimple.rowTriples (RTerm.uri ts) hs j r)
      = [(CoreSimple.cellBn j i, CoreSimple.fdicInColumnT, CoreSimple.colBn i)] := by
    rw [rowTriples_filter, flatten_enum_single_u2 _ i hs h _ hi hcell_others hfx]
    rfl
  have houter : ∀ q : Nat × List String, q.1 ≠ j →
      List.filter
        (fun x => decide (x.1 = CoreSimple.cellBn j i ∧ x.2.1 = CoreSimple.fdicInColumnT))
        (CoreSimple.rowTriples (RTerm.uri ts) hs q.1 q.2) = [] := by
    intro q hq
    rw [rowTriples_filter, flatten_map_eq_nil]
    · rfl
    · intro ih _
      rw [apply_ite (List.filter _), CoreSimple.cellTriples, filter_sp_cons_of_ne_s,
        filter_sp_cons_of_ne_s, filter_sp_cons_of_ne_s, filter_sp_cons_of_ne_s]
      · exact ite_self []
      · simp only [ne_eq, cellBn_inj, not_and]; exact fun hjj _ => absurd hjj hq
      · simp only [ne_eq, cellBn_inj, not_and]; exact fun hjj _ => absurd hjj hq
      · simp only [ne_eq, cellBn_inj, not_and]; exact fun hjj _ => absurd hjj hq
      · simp only [ne_eq, cellBn_inj, not_and]; exact fun hjj _ => absurd hjj hq
  have hfil : (CoreSimple.buildTableStructure (.uri ts) t nw hs rs none).filter
      (fun x => decide (x.1 = CoreSimple.cellBn j i ∧ x.2.1 = CoreSimple.fdicInColumnT))
      = [(CoreSimple.cellBn j i, CoreSimple.fdicInColumnT, CoreSimple.colBn i)] := by
    rw [cs_filter, flatten_map_eq_nil, flatten_enum_single_u2 _ j rs r _ hj houter hrow_j]
    · rfl
    · intro ih _
      rfl
  rw [valueOf, objectsOf, hfil]
  rfl

theorem cs_cell_value (ts t nw : String) (hs : List String) (rs : List (List String))
    (j : Nat) (r : List String) (i : Nat) (h : String)
    (hj : rs[j]? = some r) (hi : hs[i]? = some h)
    (hcond : (r[i]?.getD "") ≠ "" ∧ pyStrip (r[i]?.getD "") ≠ "") :
    valueOf (CoreSimple.buildTableStructure (.uri ts) t nw hs rs none)
      (CoreSimple.cellBn j i) CoreSimple.fdicValueT = some (.lit (r[i]?.getD "")) := by
  have hcell_others : ∀ q : Nat × String, q.1 ≠ i →
      List.filter
        (fun x => decide (x.1 = CoreSimple.cellBn j i ∧ x.2.1 = CoreSimple.fdicValueT))
        (if (r[q.1]?.getD "") ≠ "" ∧ pyStrip (r[q.1]?.getD "") ≠ ""
         then CoreSimple.cellTriples j q.1 (r[q.1]?.getD "") else []) = [] := by
    intro q hq
    rw [apply_ite (List.filter _), CoreSimple.cellTriples, filter_sp_cons_of_ne_s,
      filter_sp_cons_of_ne_s, filter_sp_cons_of_ne_s, filter_sp_cons_of_ne_s]
    · exact ite_self []
    · simp only [ne_eq, cellBn_inj, not_and]; exact fun _ => hq
    · simp only [ne_eq, cellBn_inj, not_and]; exact fun _ => hq
    · simp only [ne_eq, cellBn_inj, not_and]; exact fun _ => hq
    · simp only [ne_eq, cellBn_inj, not_and]; exact fun _ => hq
  have hfx : List.filter
      (fun x => decide (x.1 = CoreSimple.cellBn j i ∧ x.2.1 = CoreSimple.fdicValueT))
      (if (r[i]?.getD "") ≠ "" ∧ pyStrip (r[i]?.getD "") ≠ ""
       then CoreSimple.cellTriples j i (r[i]?.getD "") else [])
      = [(CoreSimple.cellBn j i, CoreSimple.fdicValueT, RTerm.lit (r[i]?.getD ""))] := by
    rw [if_pos hcond, CoreSimple.cellTriples, filter_sp_cons_of_ne, filter_sp_cons_pos,
      filter_sp_cons_of_ne, filter_sp_cons_of_ne]
    · rfl
    · decide
    · decide
    · rfl
    · rfl
    · decide
  have hrow_j : List.filter
      (fun x => decide (x.1 = CoreSimple.cellBn j i ∧ x.2.1 = CoreSimple.fdicValueT))
      (CoreSimple.rowTriples (RTerm.uri ts) hs j r)
      = [(CoreSimple.cellBn j i, CoreSimple.fdicValueT, RTerm.lit (r[i]?.getD ""))] := by
    rw [rowTriples_filter, flatten_enum_single_u2 _ i hs h _ hi hcell_others hfx]
    rfl
  have houter : ∀ q : Nat × List String, q.1 ≠ j →
      List.filter
        (fun x => decide (x.1 = CoreSimple.cellBn j i ∧ x.2.1 = CoreSimple.fdicValueT))
        (CoreSimple.rowTriples (RTerm.uri ts) hs q.1 q.2) = [] := by
    intro q hq
    rw [rowTriples_filter, flatten_map_eq_nil]
    · rfl
    · intro ih _
      rw [apply_ite (List.filter _), CoreSimple.cellTriples, filter_sp_cons_of_ne_s,
        filter_sp_cons_of_ne_s, filter_sp_cons_of_ne_s, filter_sp_cons_of_ne_s]
      · exact ite_self []
      · simp only [ne_eq, cellBn_inj, not_and]; exact fun hjj _ => absurd hjj hq
      · simp only [ne_eq, cellBn_inj, not_and]; exact fun hjj _ => absurd hjj hq
      · simp only [ne_eq, cellBn_inj, not_and]; exact fun hjj _ => absurd hjj hq
      · simp only [ne_eq, cellBn_inj, not_and]; exact fun hjj _ => absurd hjj hq
  have hfil : (CoreSimple.buildTableStructure (.uri ts) t nw hs rs none).filter
      (fun x => decide (x.1 = CoreSimple.cellBn j i ∧ x.2.1 = CoreSimple.fdicValueT))
      = [(CoreSimple.cellBn j i, CoreSimple.fdicValueT, RTerm.lit (r[i]?.getD ""))] := by
    rw [cs_filter, flatten_map_eq_nil, flatten_enum_single_u2 _ j rs r _ hj houter hrow_j]
    · rfl
    · intro ih _
      rfl
  rw [valueOf, objectsOf, hfil]
  rfl

theorem cs_findIdx_col (hs : List String) (i : Nat) (hi : i < hs.length) :
    (((List.range hs.length).map
        fun k => ((k : Nat), hs.getD k "", CoreSimple.colBn k)).findIdx?
      (fun c => c.2.2 = CoreSimple.colBn i)) = some i := by
  have := findIdx_from_eq (fun c : Nat × String × RTerm => decide (c.2.2 = CoreSimple.colBn i))
    (i, hs.getD i "", CoreSimple.colBn i)
    ((List.range hs.length).map fun k => ((k : Nat), hs.getD k "", CoreSimple.colBn k))
    i 0 ?hx ?hp ?hb
  · rw [Nat.zero_add] at this
    exact this
  case hx =>
    rw [List.getElem?_map, List.getElem?_range hi]
    rfl
  case hp => simp
  case hb =>
    intro k y hk hy
    rw [List.getElem?_map, List.getElem?_range (by omega)] at hy
    simp only [Option.map_some', Option.some.injEq] at hy
    subst hy
    simp only [decide_eq_false_iff_not, colBn_inj]
    omega


theorem fold_set_normalize (hs : List String) (r : List String) :
    (((hs.enum.filter (fun ih =>
          decide ((r[ih.1]?.getD "") ≠ "" ∧ pyStrip (r[ih.1]?.getD "") ≠ ""))).map
        (fun ih => (ih.1, r[ih.1]?.getD ""))).foldl (fun rv p => rv.set p.1 p.2)
      (List.replicate hs.length ""))
    = CoreSimple.normalizeRow hs.length r := by
  have hnd : ((((hs.enum.filter (fun ih =>
      decide ((r[ih.1]?.getD "") ≠ "" ∧ pyStrip (r[ih.1]?.getD "") ≠ ""))).map
        (fun ih => (ih.1, r[ih.1]?.getD ""))).map Prod.fst)).Nodup := by
    rw [List.map_map]
    have hsub : ((hs.enum.filter (fun ih =>
        decide ((r[ih.1]?.getD "") ≠ "" ∧ pyStrip (r[ih.1]?.getD "") ≠ ""))).map
          Prod.fst).Sublist (hs.enum.map Prod.fst) :=
      List.Sublist.map Prod.fst (List.filter_sublist hs.enum)
    rw [List.enum_map_fst] at hsub
    exact hsub.nodup (List.nodup_range _)
  apply List.ext_getElem?
  intro k
  by_cases hk : k < hs.length
  · rw [foldl_set_getElem _ _ k (by simpa using hk) hnd]
    by_cases hck : (r[k]?.getD "") ≠ "" ∧ pyStrip (r[k]?.getD "") ≠ ""
    · have hmem : ((k : Nat), r[k]?.getD "") ∈
          ((hs.enum.filter (fun ih =>
            decide ((r[ih.1]?.getD "") ≠ "" ∧ pyStrip (r[ih.1]?.getD "") ≠ ""))).map
              (fun ih => (ih.1, r[ih.1]?.getD ""))) := by
        refine List.mem_map.mpr ⟨(k, hs.getD k ""), ?_, rfl⟩
        refine List.mem_filter.mpr ⟨?_, by simpa using hck⟩
        rw [List.mem_enum_iff_getElem?]
        show hs[k]? = some (hs.getD k "")
        rw [List.getD_eq_getElem?_getD, List.getElem?_eq_getElem hk]
        rfl
      rw [find_fst_of_mem _ k _ hnd hmem]
      rw [CoreSimple.normalizeRow, List.getElem?_map, List.getElem?_range hk]
      simp only [Option.map_some']
      rw [if_pos hck]
    · have hnone : (((hs.enum.filter (fun ih =>
          decide ((r[ih.1]?.getD "") ≠ "" ∧ pyStrip (r[ih.1]?.getD "") ≠ ""))).map
            (fun ih => (ih.1, r[ih.1]?.getD ""))).find? (fun p => p.1 = k)) = none := by
        rw [List.find?_eq_none]
        intro p hp
        simp only [decide_eq_true_eq]
        intro hpk
        obtain ⟨ih, hihf, hihp⟩ := List.mem_map.mp hp
        obtain ⟨_, hfc⟩ := List.mem_filter.mp hihf
        have hih1 : ih.1 = k := by rw [← hpk, ← hihp]
        rw [hih1] at hfc
        exact hck (of_decide_eq_true hfc)
      rw [hnone]
      rw [CoreSimple.normalizeRow, List.getElem?_map, List.getElem?_range hk]
      simp only [Option.map_some']
      rw [if_neg hck, List.getElem?_replicate, if_pos hk]
  · rw [List.getElem?_eq_none, List.getElem?_eq_none]
    · rw [CoreSimple.normalizeRow, List.length_map, List.length_range]
      omega
    · rw [foldl_set_length, List.length_replicate]
      omega

theorem fold_set_normalize_f (hs : List String) (r : List String) :
    ((hs.enum.filter (fun ih =>
        decide ((r[ih.1]?.getD "") ≠ "" ∧ pyStrip (r[ih.1]?.getD "") ≠ ""))).foldl
      (fun rv ih => rv.set ih.1 (r[ih.1]?.getD "")) (List.replicate hs.length ""))
    = CoreSimple.normalizeRow hs.length r := by
  have h := List.foldl_map (fun ih : Nat × String => (ih.1, r[ih.1]?.getD ""))
    (fun (rv : List String) (p : Nat × String) => rv.set p.1 p.2)
    (hs.enum.filter (fun ih =>
      decide ((r[ih.1]?.getD "") ≠ "" ∧ pyStrip (r[ih.1]?.getD "") ≠ "")))
    (List.replicate hs.length "")
  exact h.symm.trans (fold_set_normalize hs r)

/-- **C10** (amended): for a CSV whose header names are pairwise distinct
and non-empty and whose title is non-empty, the table data that
`_extract_table_data_from_rdf` rebuilds purely from the graph built by
`_build_table_structure` equals the source table: the same table node and
title, the headers in column-index order, the rows in row-index order,
and each cell holding the source value where its trimmed value is
non-empty and `""` otherwise. -/
theorem C10_simple_extract_round_trip (ts titleStr nowStr : String)
    (headers : List String) (rows : List (List String))
    (hnd : headers.Nodup) (hne : ∀ h ∈ headers, h ≠ "") (htitle : titleStr ≠ "") :
    CoreSimple.extractTableData
        (CoreSimple.buildTableStructure (.uri ts) titleStr nowStr headers rows none)
      = some (.uri ts, titleStr, headers,
              rows.map (CoreSimple.normalizeRow headers.length)) := by
  have hget : ∀ k, k < headers.length → headers[k]? = some (headers.getD k "") := by
    intro k hk
    rw [List.getD_eq_getElem?_getD, List.getElem?_eq_getElem hk]
    rfl
  have hcong : ∀ (b : List (Nat × String × RTerm)) (k : Nat), k ∈ List.range headers.length →
      CoreSimple.colStep
          (CoreSimple.buildTableStructure (RTerm.uri ts) titleStr nowStr headers rows none)
          b (CoreSimple.colBn k)
        = b ++ [((k : Nat), headers.getD k "", CoreSimple.colBn k)] := by
    intro b k hk
    have hklt : k < headers.length := List.mem_range.mp hk
    unfold CoreSimple.colStep
    rw [cs_col_name ts titleStr nowStr headers rows k _ (hget k hklt),
        cs_col_index ts titleStr nowStr headers rows k _ (hget k hklt)]
    simp only []
    have hT : pyTruthy (RTerm.lit (headers.getD k "")) = true := by
      simp only [pyTruthy, pyStr, ne_eq, decide_eq_true_eq]
      have hmem : headers.getD k "" ∈ headers := by
        rw [List.getD_eq_getElem?_getD, List.getElem?_eq_getElem hklt]
        exact List.getElem_mem hklt
      exact hne _ hmem
    rw [if_pos hT]
    rfl
  have hcols : List.foldl (fun (b : List (Nat × String × RTerm)) (k : Nat) =>
        CoreSimple.colStep
          (CoreSimple.buildTableStructure (RTerm.uri ts) titleStr nowStr headers rows none)
          b (CoreSimple.colBn k)) [] (List.range headers.length)
      = (List.range headers.length).map
          (fun k => ((k : Nat), headers.getD k "", CoreSimple.colBn k)) := by
    rw [foldl_congr_mem _
        (fun b (k : Nat) => b ++ [((k : Nat), headers.getD k "", CoreSimple.colBn k)])
        (List.range headers.length) [] hcong, foldl_append_map, List.nil_append]
  have hsorted : CoreSimple.sortByKey (fun c => c.1)
      ((List.range headers.length).map
        (fun k => ((k : Nat), headers.getD k "", CoreSimple.colBn k)))
      = (List.range headers.length).map
          (fun k => ((k : Nat), headers.getD k "", CoreSimple.colBn k)) :=
    sortByKey_sorted_id _ _ (List.pairwise_map.mpr (List.pairwise_lt_range _))
  have hheaders : ((List.range headers.length).map
        (fun k => ((k : Nat), headers.getD k "", CoreSimple.colBn k))).map (fun c => c.2.1)
      = headers := by
    rw [List.map_map]
    exact (map_range_getD (fun s => s) headers "").trans (List.map_id headers)
  simp only [CoreSimple.extractTableData, cs_subjects_table, List.head?_cons]
  rw [cs_title_value ts titleStr nowStr headers rows]
  simp only []
  have hTt : pyTruthy (RTerm.lit titleStr) = true := by
    simp only [pyTruthy, pyStr, ne_eq, decide_eq_true_eq]
    exact htitle
  rw [if_pos hTt]
  rw [cs_columns ts titleStr nowStr headers rows, List.foldl_map, hcols, hsorted, hheaders]
  rw [cs_rows ts titleStr nowStr headers rows, List.foldl_map]
  have hrget : ∀ j, j < rows.length → rows[j]? = some (rows.getD j []) := by
    intro j hj
    rw [List.getD_eq_getElem?_getD, List.getElem?_eq_getElem hj]
    rfl
  have hrowcong : ∀ (b : List (Nat × List String)) (j : Nat), j ∈ List.range rows.length →
      CoreSimple.rowStep
          (CoreSimple.buildTableStructure (RTerm.uri ts) titleStr nowStr headers rows none)
          ((List.range headers.length).map
            (fun k => ((k : Nat), headers.getD k "", CoreSimple.colBn k)))
          headers.length b (CoreSimple.rowBn j)
        = b ++ [((j : Nat), CoreSimple.normalizeRow headers.length (rows.getD j []))] := by
    intro b j hjmem
    have hjlt : j < rows.length := List.mem_range.mp hjmem
    unfold CoreSimple.rowStep
    rw [cs_row_index ts titleStr nowStr headers rows j _ (hrget j hjlt)]
    simp only []
    rw [cs_row_cells ts titleStr nowStr headers rows j _ (hrget j hjlt)]
    rw [List.foldl_map]
    have hcc : ∀ (rv : List String) (ih : Nat × String), ih ∈ headers.enum.filter
        (fun ih => decide (((rows.getD j [])[ih.1]?.getD "") ≠ ""
          ∧ pyStrip ((rows.getD j [])[ih.1]?.getD "") ≠ "")) →
        CoreSimple.cellStep
            (CoreSimple.buildTableStructure (RTerm.uri ts) titleStr nowStr headers rows none)
            ((List.range headers.length).map
              (fun k => ((k : Nat), headers.getD k "", CoreSimple.colBn k)))
            rv (CoreSimple.cellBn j ih.1)
          = rv.set ih.1 ((rows.getD j [])[ih.1]?.getD "") := by
      intro rv ih hih
      obtain ⟨hmem, hc⟩ := List.mem_filter.mp hih
      have hih2 : headers[ih.1]? = some ih.2 := List.mem_enum_iff_getElem?.mp hmem
      have hihlt : ih.1 < headers.length := by
        obtain ⟨hlt, _⟩ := List.getElem?_eq_some_iff.mp hih2
        exact hlt
      have hcond : ((rows.getD j [])[ih.1]?.getD "") ≠ ""
          ∧ pyStrip ((rows.getD j [])[ih.1]?.getD "") ≠ "" := of_decide_eq_true hc
      unfold CoreSimple.cellStep
      rw [cs_cell_col ts titleStr nowStr headers rows j _ ih.1 ih.2 (hrget j hjlt) hih2 hcond]
      simp only []
      rw [cs_findIdx_col headers ih.1 hihlt]
      simp only []
      rw [cs_cell_value ts titleStr nowStr headers rows j _ ih.1 ih.2 (hrget j hjlt) hih2 hcond]
      simp only []
      rw [if_pos (show pyTruthy (RTerm.lit ((rows.getD j [])[ih.1]?.getD "")) = true by
        simp only [pyTruthy, pyStr, ne_eq, decide_eq_true_eq]
        exact hcond.1)]
      rfl
    rw [foldl_congr_mem _ (fun (rv : List String) (ih : Nat × String) =>
        rv.set ih.1 ((rows.getD j [])[ih.1]?.getD "")) _ _ hcc]
    rw [fold_set_normalize_f headers (rows.getD j [])]
    rfl
  rw [foldl_congr_mem _ (fun (b : List (Nat × List String)) (j : Nat) =>
      b ++ [((j : Nat), CoreSimple.normalizeRow headers.length (rows.getD j []))])
      (List.range rows.length) [] hrowcong, foldl_append_map, List.nil_append]
  rw [sortByKey_sorted_id (fun r => r.1)
      ((List.range rows.length).map
        (fun j => ((j : Nat), CoreSimple.normalizeRow headers.length (rows.getD j []))))
      (List.pairwise_map.mpr (List.pairwise_lt_range _))]
  rw [List.map_map]
  show some (RTerm.uri ts, titleStr, headers,
      (List.range rows.length).map
        (fun j => CoreSimple.normalizeRow headers.length (rows.getD j []))) = _
  rw [map_range_getD (CoreSimple.normalizeRow headers.length) rows []]

/-- Witness for C10: a concrete two-column CSV; the whitespace-only cell
comes back as `""`, everything else round-trips. -/
theorem C10_simple_extract_round_trip_witness :
    CoreSimple.extractTableData
        (CoreSimple.buildTableStructure (.uri "http://t") "Banks" "2024"
          ["A", "B"] [["1", ""], [" ", "x"]] none)
      = some (.uri "http://t", "Banks", ["A", "B"], [["1", ""], ["", "x"]]) := by
  have h := C10_simple_extract_round_trip "http://t" "Banks" "2024"
    ["A", "B"] [["1", ""], [" ", "x"]] (by decide) (by decide) (by decide)
  rw [h]
  rfl

/-- Counterexample to C10 as stated: the headers `["A", ""]` are pairwise
distinct, yet the empty-named column is dropped by the extraction's
`if col_name` truthiness test, so the rebuilt headers are `["A"]`, not
the original header list. -/
theorem C10_empty_header_counterexample :
    CoreSimple.extractTableData
        (CoreSimple.buildTableStructure (.uri "http://t") "Banks" "2024"
          ["A", ""] [["x", "y"]] none)
      = some (.uri "http://t", "Banks", ["A"], [["x"]])
    ∧ ["A"] ≠ ["A", ""] :=
  ⟨rfl, by decide⟩

/-! ### Claim C1 — glue lemmas for the annotation round trip -/

theorem colPrefix_ne_classN (x : String) : "column_" ++ x ≠ "ColumnAnnotation" := by
  intro h
  have hd := congrArg String.data h
  rw [String.data_append] at hd
  simp at hd

theorem colPrefix_ne_colName (x : String) : "column_" ++ x ≠ "columnName" := by
  intro h
  have hd := congrArg String.data h
  rw [String.data_append] at hd
  simp at hd

theorem colPrefix_ne_dataType (x : String) : "column_" ++ x ≠ "dataType" := by
  intro h
  have hd := congrArg String.data h
  rw [String.data_append] at hd
  simp at hd

theorem colPrefix_ne_dataset (x : String) : "column_" ++ x ≠ "Dataset" := by
  intro h
  have hd := congrArg String.data h
  rw [String.data_append] at hd
  simp at hd

theorem basePlus_ne_empty (x : String) :
    AnnotationConv.defaultBase ++ x ≠ "" := by
  intro h
  have hd := congrArg String.data h
  rw [String.data_append] at hd
  simp [AnnotationConv.defaultBase] at hd

theorem pickFresh_not_used (bn : String) (used : List String) (h : bn ∉ used) :
    AnnotationConv.pickFresh bn used = bn := by
  rw [AnnotationConv.pickFresh, List.find?_cons_of_pos]
  · rfl
  · simpa using h

theorem assignUris_fresh :
    ∀ (cols : List (String × AnnotationConv.YColumn)) (used : List String),
      (cols.map fun c => AnnotationConv.safeId c.1).Nodup →
      (∀ u ∈ used, ∀ c ∈ cols, u ≠ "column_" ++ AnnotationConv.safeId c.1) →
      AnnotationConv.assignUris cols used
        = cols.map fun c => ("column_" ++ AnnotationConv.safeId c.1, c.1, c.2) := by
  intro cols
  induction cols with
  | nil => intro used _ _; rfl
  | cons c cols ih =>
    intro used hnd hused
    rw [List.map_cons, List.nodup_cons] at hnd
    simp only [AnnotationConv.assignUris]
    rw [pickFresh_not_used _ _ ?hnotin]
    case hnotin =>
      intro hin
      exact hused _ hin c (List.mem_cons_self c cols) rfl
    rw [List.map_cons]
    congr 1
    apply ih
    · exact hnd.2
    · intro u hu c' hc'
      rcases List.mem_cons.mp hu with rfl | hu'
      · intro he
        exact hnd.1 (by rw [strAppend_left_cancel he]; exact List.mem_map_of_mem _ hc')
      · exact hused u hu' c' (List.mem_cons_of_mem c hc')

theorem relLookup_mem (rel rp : String)
    (h : AnnotationConv.lookupStr AnnotationConv.relationTable rel = some rp) :
    rp = AnnotationConv.owlNs ++ "equivalentProperty"
    ∨ rp = AnnotationConv.rdfsNs ++ "seeAlso"
    ∨ rp = AnnotationConv.rdfNs ++ "type"
    ∨ rp = AnnotationConv.rdfsNs ++ "subClassOf"
    ∨ rp = AnnotationConv.skosNs ++ "broader"
    ∨ rp = AnnotationConv.skosNs ++ "narrower" := by
  rw [AnnotationConv.lookupStr, Option.map_eq_some'] at h
  obtain ⟨a, hfind, hsnd⟩ := h
  have hmem := List.mem_of_find?_eq_some hfind
  subst hsnd
  simp only [AnnotationConv.relationTable, List.mem_cons, List.not_mem_nil, or_false] at hmem
  rcases hmem with rfl|rfl|rfl|rfl|rfl|rfl|rfl|rfl <;> simp

theorem revLookup_of_lookup (dt u : String)
    (h : AnnotationConv.lookupStr AnnotationConv.datatypeTable dt = some u) :
    AnnotationConv.revLookupDatatype u = some dt := by
  rw [AnnotationConv.lookupStr, Option.map_eq_some'] at h
  obtain ⟨a, hfind, hsnd⟩ := h
  have hmem := List.mem_of_find?_eq_some hfind
  have hp := List.find?_some hfind
  simp only [decide_eq_true_eq] at hp
  subst hsnd
  subst hp
  simp only [AnnotationConv.datatypeTable, List.mem_cons, List.not_mem_nil, or_false] at hmem
  rcases hmem with rfl|rfl|rfl|rfl|rfl|rfl|rfl|rfl|rfl|rfl <;> rfl

theorem mem_toList_map {α β : Type} (o : Option α) (f : α → β) (x : β)
    (h : x ∈ (o.map f).toList) : ∃ v, o = some v ∧ x = f v := by
  cases o with
  | none => simp at h
  | some v =>
    simp only [Option.map_some', Option.toList_some, List.mem_singleton] at h
    exact ⟨v, rfl, h⟩

theorem mem_mapTriples (pfx : List (String × String)) (colU : RTerm)
    (m : AnnotationConv.YMapping) (t : Triple)
    (h : t ∈ AnnotationConv.mapTriples pfx colU m) :
    ∃ rp, AnnotationConv.lookupStr AnnotationConv.relationTable m.relation = some rp
      ∧ t = (colU, .uri rp, .uri (AnnotationConv.expandUri pfx m.property)) := by
  rw [AnnotationConv.mapTriples] at h
  obtain ⟨v, hv, rfl⟩ := mem_toList_map _ _ _ h
  exact ⟨v, hv, rfl⟩

theorem mem_commentTriples (colU : RTerm) (c : AnnotationConv.YComments) (t : Triple)
    (h : t ∈ AnnotationConv.commentTriples colU c) :
    t.1 = colU ∧ t.2.1 = AnnotationConv.rdfsCommentT := by
  cases c with
  | nothing => simp [AnnotationConv.commentTriples] at h
  | one s =>
    simp only [AnnotationConv.commentTriples, List.mem_singleton] at h
    subst h
    exact ⟨rfl, rfl⟩
  | many ss =>
    rw [AnnotationConv.commentTriples] at h
    obtain ⟨s, _, rfl⟩ := List.mem_map.mp h
    exact ⟨rfl, rfl⟩

theorem refTriple_shape (colU : RTerm) (r : AnnotationConv.YRef) :
    (AnnotationConv.refTriple colU r).1 = colU
    ∧ ((AnnotationConv.refTriple colU r).2.1 = AnnotationConv.rdfsSeeAlsoT
       ∨ (AnnotationConv.refTriple colU r).2.1 = AnnotationConv.owlSameAsT) := by
  cases r <;> simp [AnnotationConv.refTriple]

theorem mem_colTriples_subj (base : String) (pfx : List (String × String)) (ln n : String)
    (cd : AnnotationConv.YColumn) (t : Triple)
    (h : t ∈ AnnotationConv.colTriples base pfx ln n cd) :
    t.1 = .uri (base ++ ln) := by
  simp only [AnnotationConv.colTriples, List.mem_append] at h
  rcases h with (((((h | h) | h) | h) | h) | h) | h
  · simp only [List.mem_cons, List.not_mem_nil, or_false] at h
    rcases h with rfl | rfl <;> rfl
  · obtain ⟨v, _, rfl⟩ := mem_toList_map _ _ _ h
    rfl
  · obtain ⟨v, _, rfl⟩ := mem_toList_map _ _ _ h
    rfl
  · obtain ⟨v, _, rfl⟩ := mem_toList_map _ _ _ h
    rfl
  · obtain ⟨l, hl, ht⟩ := List.mem_flatten.mp h
    obtain ⟨m, _, rfl⟩ := List.mem_map.mp hl
    obtain ⟨rp, _, rfl⟩ := mem_mapTriples _ _ _ _ ht
    rfl
  · obtain ⟨r, _, rfl⟩ := List.mem_map.mp h
    exact (refTriple_shape _ r).1
  · exact (mem_commentTriples _ _ _ h).1

theorem mem_preludeTriples_subj (base : String) (t : Triple)
    (h : t ∈ AnnotationConv.preludeTriples base) :
    t.1 = .uri (base ++ "ColumnAnnotation") ∨ t.1 = .uri (base ++ "columnName")
    ∨ t.1 = .uri (base ++ "dataType") := by
  simp only [AnnotationConv.preludeTriples, List.mem_cons, List.not_mem_nil, or_false] at h
  rcases h with rfl|rfl|rfl|rfl|rfl|rfl|rfl|rfl|rfl <;> simp

theorem mem_datasetTriples_subj (base : String) (m : Option AnnotationConv.YDatasetMeta)
    (t : Triple) (h : t ∈ AnnotationConv.datasetTriples base m) :
    t.1 = .uri (base ++ "Dataset") := by
  cases m with
  | none => simp [AnnotationConv.datasetTriples] at h
  | some m =>
    simp only [AnnotationConv.datasetTriples, List.mem_cons, List.mem_append] at h
    rcases h with rfl | ((((h | h) | h) | h) | h) <;>
      first
        | rfl
        | (obtain ⟨v, _, rfl⟩ := mem_toList_map _ _ _ h; rfl)

theorem mem_fileTriples_subj (base : String) (fm : Option AnnotationConv.YFileMeta)
    (t : Triple) (h : t ∈ AnnotationConv.fileTriples base fm) :
    t.1 = .uri "" := by
  cases fm with
  | none => simp [AnnotationConv.fileTriples] at h
  | some fm =>
    simp only [AnnotationConv.fileTriples, List.mem_append] at h
    rcases h with (h | h) | h <;>
      (obtain ⟨v, _, rfl⟩ := mem_toList_map _ _ _ h; rfl)

theorem le_fst_of_mem_enumFrom {α : Type} :
    ∀ (l : List α) (n : Nat) (q : Nat × α), q ∈ l.enumFrom n → n ≤ q.1 := by
  intro l
  induction l with
  | nil => intro n q h; simp at h
  | cons a l ih =>
    intro n q h
    rw [List.enumFrom_cons] at h
    rcases List.mem_cons.mp h with rfl | h
    · exact Nat.le_refl n
    · exact Nat.le_trans (Nat.le_succ n) (ih (n + 1) q h)

theorem flatten_enumFrom_single_mem {α β : Type} (f : Nat × α → List β) (i : Nat) :
    ∀ (l : List α) (n : Nat) (x : α), n ≤ i → l[i - n]? = some x →
      (∀ q ∈ l.enumFrom n, q.1 ≠ i → f q = []) →
      ((l.enumFrom n).map f).flatten = f (i, x) := by
  intro l
  induction l with
  | nil => intro n x _ hx _; simp at hx
  | cons a l ih =>
    intro n x hn hx hothers
    simp only [List.enumFrom_cons, List.map_cons, List.flatten_cons]
    by_cases hne : n = i
    · subst hne
      have h0 : n - n = 0 := by omega
      rw [h0] at hx
      simp only [List.getElem?_cons_zero, Option.some.injEq] at hx
      subst hx
      rw [flatten_map_eq_nil f (l.enumFrom (n + 1)) ?htail, List.append_nil]
      case htail =>
        intro q hq
        apply hothers q (List.mem_cons_of_mem _ hq)
        have := le_fst_of_mem_enumFrom l (n + 1) q hq
        omega
    · have hstep : i - n = (i - (n + 1)) + 1 := by omega
      rw [hstep] at hx
      simp only [List.getElem?_cons_succ] at hx
      rw [hothers (n, a) (List.mem_cons_self _ _) hne, List.nil_append]
      exact ih (n + 1) x (by omega) hx (fun q hq => hothers q (List.mem_cons_of_mem _ hq))

theorem flatten_enum_single_mem {α β : Type} (f : Nat × α → List β) (i : Nat)
    (l : List α) (x : α) (res : List β) (hx : l[i]? = some x)
    (hothers : ∀ q ∈ l.enum, q.1 ≠ i → f q = []) (hfx : f (i, x) = res) :
    (l.enum.map f).flatten = res :=
  (flatten_enumFrom_single_mem f i l 0 x (by omega) (by simpa using hx) hothers).trans hfx

theorem map_eq_enum_map {α β : Type} (f : α → β) (l : List α) :
    l.map f = l.enum.map (fun q => f q.2) := by
  conv_lhs => rw [← List.enum_map_snd l]
  rw [List.map_map]
  rfl

theorem nodup_subset_length {α : Type} [DecidableEq α] (l l2 : List α)
    (h : l.Nodup) (hs : l ⊆ l2) : l.length ≤ l2.length := by
  have h1 : l.toFinset.card = l.length := List.toFinset_card_of_nodup h
  have h2 : l.toFinset ⊆ l2.toFinset := by
    intro x hx
    rw [List.mem_toFinset] at hx ⊢
    exact hs hx
  have h3 := Finset.card_le_card h2
  have h4 := List.toFinset_card_le l2
  omega

theorem strAppend_eq_self {a b : String} (h : a ++ b = a) : b = "" := by
  have h2 : a ++ b = a ++ "" := by rw [String.append_empty]; exact h
  have hd := congrArg String.data h2
  rw [String.data_append, String.data_append] at hd
  have h3 := List.append_cancel_left hd
  cases b with
  | mk l =>
    cases l with
    | nil => rfl
    | cons c cs => simp at h3

theorem pickFresh_candidates_nodup (bn : String) (m : Nat) :
    (bn :: (List.range m).map fun k => bn ++ "_" ++ Nat.repr (k + 1)).Nodup := by
  rw [List.nodup_cons]
  constructor
  · intro hmem
    obtain ⟨k, _, he⟩ := List.mem_map.mp hmem
    rw [String.append_assoc] at he
    have := strAppend_eq_self he
    have hd := congrArg String.data this
    rw [String.data_append] at hd
    simp at hd
  · apply List.Nodup.map ?inj (List.nodup_range m)
    case inj =>
      intro a b hab
      have := natRepr_inj _ _ (strAppend_left_cancel hab)
      omega

theorem pickFresh_not_mem (bn : String) (used : List String) :
    AnnotationConv.pickFresh bn used ∉ used := by
  rw [AnnotationConv.pickFresh]
  cases hf : (bn :: (List.range (used.length + 1)).map fun k =>
      bn ++ "_" ++ Nat.repr (k + 1)).find? (fun c => c ∉ used) with
  | some c =>
    have hp := List.find?_some hf
    simp only [decide_not, Bool.not_eq_eq_eq_not, Bool.not_true, decide_eq_false_iff_not] at hp
    simpa using hp
  | none =>
    exfalso
    rw [List.find?_eq_none] at hf
    have hsub : (bn :: (List.range (used.length + 1)).map fun k =>
        bn ++ "_" ++ Nat.repr (k + 1)) ⊆ used := by
      intro x hx
      have := hf x hx
      simpa using this
    have hle := nodup_subset_length _ _ (pickFresh_candidates_nodup bn _) hsub
    simp at hle
    omega
  
theorem pickFresh_shape (x : String) (used : List String) :
    ∃ t, AnnotationConv.pickFresh ("column_" ++ x) used = "column_" ++ t := by
  rw [AnnotationConv.pickFresh]
  cases hf : (("column_" ++ x) :: (List.range (used.length + 1)).map fun k =>
      ("column_" ++ x) ++ "_" ++ Nat.repr (k + 1)).find? (fun c => c ∉ used) with
  | none => exact ⟨x, by simp⟩
  | some c =>
    have hc := List.mem_of_find?_eq_some hf
    rcases List.mem_cons.mp hc with rfl | hc2
    · exact ⟨x, by simp⟩
    · obtain ⟨k, _, rfl⟩ := List.mem_map.mp hc2
      exact ⟨x ++ "_" ++ Nat.repr (k + 1), by simp [String.append_assoc]⟩

theorem assignUris_props :
    ∀ (cols : List (String × AnnotationConv.YColumn)) (used : List String),
      ((AnnotationConv.assignUris cols used).map (fun a => (a.2.1, a.2.2)) = cols)
      ∧ (((AnnotationConv.assignUris cols used).map (fun a => a.1)).Nodup)
      ∧ (∀ a ∈ AnnotationConv.assignUris cols used, a.1 ∉ used)
      ∧ (∀ a ∈ AnnotationConv.assignUris cols used, ∃ t, a.1 = "column_" ++ t) := by
  intro cols
  induction cols with
  | nil =>
    intro used
    exact ⟨rfl, List.nodup_nil, by simp [AnnotationConv.assignUris],
      by simp [AnnotationConv.assignUris]⟩
  | cons c cols ih =>
    intro used
    obtain ⟨ih1, ih2, ih3, ih4⟩ :=
      ih (AnnotationConv.pickFresh ("column_" ++ AnnotationConv.safeId c.1) used :: used)
    simp only [AnnotationConv.assignUris]
    refine ⟨?_, ?_, ?_, ?_⟩
    · rw [List.map_cons, ih1]
    · rw [List.map_cons, List.nodup_cons]
      refine ⟨?_, ih2⟩
      intro hmem
      obtain ⟨a, ha, he⟩ := List.mem_map.mp hmem
      exact ih3 a ha (he ▸ List.mem_cons_self _ _)
    · intro a ha
      rcases List.mem_cons.mp ha with rfl | ha2
      · exact pickFresh_not_mem _ _
      · intro hin
        exact ih3 a ha2 (List.mem_cons_of_mem _ hin)
    · intro a ha
      rcases List.mem_cons.mp ha with rfl | ha2
      · exact pickFresh_shape _ _
      · exact ih4 a ha2

theorem c1_sp_filter (doc : AnnotationConv.YDoc) (P : RTerm) (i : Nat)
    (a : String × String × AnnotationConv.YColumn)
    (hx : (AnnotationConv.assignUris doc.columns [])[i]? = some a) :
    (AnnotationConv.yamlToTtlGraph AnnotationConv.defaultBase doc).filter
      (fun x => decide (x.1 = RTerm.uri (AnnotationConv.defaultBase ++ a.1) ∧ x.2.1 = P))
      = (AnnotationConv.colTriples AnnotationConv.defaultBase doc.prefixes
          a.1 a.2.1 a.2.2).filter
          (fun x => decide (x.1 = RTerm.uri (AnnotationConv.defaultBase ++ a.1)
            ∧ x.2.1 = P)) := by
  obtain ⟨-, hB, -, hD⟩ := assignUris_props doc.columns []
  have hilt : i < (AnnotationConv.assignUris doc.columns []).length := by
    obtain ⟨hlt, -⟩ := List.getElem?_eq_some_iff.mp hx
    exact hlt
  have hamem : a ∈ AnnotationConv.assignUris doc.columns [] := by
    obtain ⟨hlt, he⟩ := List.getElem?_eq_some_iff.mp hx
    exact he ▸ List.getElem_mem hlt
  obtain ⟨sfx, hshape⟩ := hD a hamem
  rw [AnnotationConv.yamlToTtlGraph,
    List.filter_append, List.filter_append, List.filter_append]
  have hpre : (AnnotationConv.preludeTriples AnnotationConv.defaultBase).filter
      (fun x => decide (x.1 = RTerm.uri (AnnotationConv.defaultBase ++ a.1)
          ∧ x.2.1 = P)) = [] := by
    rw [List.filter_eq_nil_iff]
    intro t ht
    simp only [decide_eq_true_eq, not_and]
    intro h1
    exfalso
    rcases mem_preludeTriples_subj _ t ht with h | h | h <;>
      (rw [h] at h1
       have h2 := strAppend_left_cancel (RTerm.uri.inj h1)
       rw [hshape] at h2)
    · exact colPrefix_ne_classN _ h2.symm
    · exact colPrefix_ne_colName _ h2.symm
    · exact colPrefix_ne_dataType _ h2.symm
  have hds : (AnnotationConv.datasetTriples AnnotationConv.defaultBase doc.datasetMeta).filter
      (fun x => decide (x.1 = RTerm.uri (AnnotationConv.defaultBase ++ a.1)
          ∧ x.2.1 = P)) = [] := by
    rw [List.filter_eq_nil_iff]
    intro t ht
    simp only [decide_eq_true_eq, not_and]
    intro h1
    exfalso
    rw [mem_datasetTriples_subj _ _ t ht] at h1
    have h2 := strAppend_left_cancel (RTerm.uri.inj h1)
    rw [hshape] at h2
    exact colPrefix_ne_dataset _ h2.symm
  have hfm : (AnnotationConv.fileTriples AnnotationConv.defaultBase doc.fileMeta).filter
      (fun x => decide (x.1 = RTerm.uri (AnnotationConv.defaultBase ++ a.1)
          ∧ x.2.1 = P)) = [] := by
    rw [List.filter_eq_nil_iff]
    intro t ht
    simp only [decide_eq_true_eq, not_and]
    intro h1
    exact absurd (RTerm.uri.inj (mem_fileTriples_subj _ _ t ht ▸ h1)).symm
      (basePlus_ne_empty _)
  rw [hpre, hds, hfm, filter_flatten, List.map_map, map_eq_enum_map]
  rw [flatten_enum_single_mem _ i (AnnotationConv.assignUris doc.columns []) a
      ((AnnotationConv.colTriples AnnotationConv.defaultBase doc.prefixes
          a.1 a.2.1 a.2.2).filter
        (fun x => decide (x.1 = RTerm.uri (AnnotationConv.defaultBase ++ a.1)
          ∧ x.2.1 = P)))
      hx ?hoth rfl]
  · simp
  case hoth =>
    intro q hq hqi
    have hq2 : (AnnotationConv.assignUris doc.columns [])[q.1]? = some q.2 :=
      List.mem_enum_iff_getElem?.mp hq
    have hqlt : q.1 < (AnnotationConv.assignUris doc.columns []).length := by
      obtain ⟨hlt, -⟩ := List.getElem?_eq_some_iff.mp hq2
      exact hlt
    simp only [Function.comp]
    rw [List.filter_eq_nil_iff]
    intro t ht
    simp only [decide_eq_true_eq, not_and]
    intro h1
    exfalso
    rw [mem_colTriples_subj _ _ _ _ _ t ht] at h1
    have h2 := strAppend_left_cancel (RTerm.uri.inj h1)
    have hqlt2 : q.1 < ((AnnotationConv.assignUris doc.columns []).map
        (fun b => b.1)).length := by
      simpa using hqlt
    have hilt2 : i < ((AnnotationConv.assignUris doc.columns []).map
        (fun b => b.1)).length := by
      simpa using hilt
    have hmapel : ((AnnotationConv.assignUris doc.columns []).map (fun b => b.1))[q.1]
        = ((AnnotationConv.assignUris doc.columns []).map (fun b => b.1))[i] := by
      simp only [List.getElem_map]
      rw [show (AnnotationConv.assignUris doc.columns [])[q.1] = q.2 from by
          rw [← Option.some.injEq]
          rw [← List.getElem?_eq_getElem hqlt]
          exact hq2,
        show (AnnotationConv.assignUris doc.columns [])[i] = a from by
          rw [← Option.some.injEq]
          rw [← List.getElem?_eq_getElem hilt]
          exact hx]
      exact h2
    exact hqi (List.Nodup.getElem_inj_iff hB |>.mp hmapel)

theorem filter_sp_nil_of_pred {s P : RTerm} (l : List Triple)
    (h : ∀ t ∈ l, t.2.1 ≠ P) :
    l.filter (fun x => decide (x.1 = s ∧ x.2.1 = P)) = [] := by
  rw [List.filter_eq_nil_iff]
  intro t ht
  simp only [decide_eq_true_eq, not_and]
  exact fun _ => h t ht

theorem optBlock_filter_nil {α : Type} (s P : RTerm) (f : α → Triple) (o : Option α)
    (h : ∀ v, (f v).2.1 ≠ P) :
    ((o.map f).toList).filter (fun x => decide (x.1 = s ∧ x.2.1 = P)) = [] := by
  apply filter_sp_nil_of_pred
  intro t ht
  obtain ⟨v, _, rfl⟩ := mem_toList_map _ _ _ ht
  exact h v

theorem optBlock_filter_keep {α : Type} (s P : RTerm) (f : α → Triple) (o : Option α)
    (h : ∀ v, (f v).1 = s ∧ (f v).2.1 = P) :
    ((o.map f).toList).filter (fun x => decide (x.1 = s ∧ x.2.1 = P))
      = (o.map f).toList := by
  apply List.filter_eq_self.mpr
  intro t ht
  obtain ⟨v, _, rfl⟩ := mem_toList_map _ _ _ ht
  simp [(h v).1, (h v).2]

theorem mapsBlock_filter_nil (s P : RTerm) (pfx : List (String × String)) (colU : RTerm)
    (ms : List AnnotationConv.YMapping)
    (h : ∀ rel rp, AnnotationConv.lookupStr AnnotationConv.relationTable rel = some rp →
      RTerm.uri rp ≠ P) :
    ((ms.map (AnnotationConv.mapTriples pfx colU)).flatten).filter
      (fun x => decide (x.1 = s ∧ x.2.1 = P)) = [] := by
  apply filter_sp_nil_of_pred
  intro t ht
  obtain ⟨l, hl, htl⟩ := List.mem_flatten.mp ht
  obtain ⟨m, _, rfl⟩ := List.mem_map.mp hl
  obtain ⟨rp, hrp, rfl⟩ := mem_mapTriples _ _ _ _ htl
  exact h m.relation rp hrp

theorem refsBlock_filter_nil (s P : RTerm) (colU : RTerm) (rs : List AnnotationConv.YRef)
    (h1 : AnnotationConv.rdfsSeeAlsoT ≠ P) (h2 : AnnotationConv.owlSameAsT ≠ P) :
    (rs.map (AnnotationConv.refTriple colU)).filter
      (fun x => decide (x.1 = s ∧ x.2.1 = P)) = [] := by
  apply filter_sp_nil_of_pred
  intro t ht
  obtain ⟨r, _, rfl⟩ := List.mem_map.mp ht
  rcases (refTriple_shape colU r).2 with h | h <;> rw [h]
  · exact h1
  · exact h2

theorem commentsBlock_filter_nil (s P : RTerm) (colU : RTerm) (c : AnnotationConv.YComments)
    (h : AnnotationConv.rdfsCommentT ≠ P) :
    (AnnotationConv.commentTriples colU c).filter
      (fun x => decide (x.1 = s ∧ x.2.1 = P)) = [] := by
  apply filter_sp_nil_of_pred
  intro t ht
  rw [(mem_commentTriples _ _ _ ht).2]
  exact h

theorem c1_value_name (doc : AnnotationConv.YDoc) (i : Nat)
    (a : String × String × AnnotationConv.YColumn)
    (hx : (AnnotationConv.assignUris doc.columns [])[i]? = some a) :
    valueOf (AnnotationConv.yamlToTtlGraph AnnotationConv.defaultBase doc)
      (.uri (AnnotationConv.defaultBase ++ a.1))
      (.uri (AnnotationConv.defaultBase ++ "columnName"))
      = some (.lit a.2.1) := by
  rw [valueOf, objectsOf, c1_sp_filter doc _ i a hx]
  simp only [AnnotationConv.colTriples, List.filter_append]
  rw [filter_sp_cons_of_ne, filter_sp_cons_pos, optBlock_filter_nil, optBlock_filter_nil,
    optBlock_filter_nil, mapsBlock_filter_nil, refsBlock_filter_nil, commentsBlock_filter_nil]
  · rfl
  all_goals first
    | rfl
    | decide
    | (intro rel rp hrp
       rcases relLookup_mem _ _ hrp with rfl|rfl|rfl|rfl|rfl|rfl <;> decide)
    | (intro v
       simp [AnnotationConv.rdfsLabelT, AnnotationConv.dctDescriptionT,
         AnnotationConv.rdfsNs, AnnotationConv.dctermsNs, AnnotationConv.defaultBase])

theorem c1_objects_label (doc : AnnotationConv.YDoc) (i : Nat)
    (a : String × String × AnnotationConv.YColumn)
    (hx : (AnnotationConv.assignUris doc.columns [])[i]? = some a) :
    objectsOf (AnnotationConv.yamlToTtlGraph AnnotationConv.defaultBase doc)
      (.uri (AnnotationConv.defaultBase ++ a.1))
      AnnotationConv.rdfsLabelT
      = (a.2.2.label.map RTerm.lit).toList := by
  rw [objectsOf, c1_sp_filter doc _ i a hx]
  simp only [AnnotationConv.colTriples, List.filter_append]
  rw [filter_sp_cons_of_ne, filter_sp_cons_of_ne, optBlock_filter_keep, optBlock_filter_nil,
    optBlock_filter_nil, mapsBlock_filter_nil, refsBlock_filter_nil, commentsBlock_filter_nil]
  · cases h : a.2.2.label <;> rfl
  all_goals first
    | decide
    | (intro rel rp hrp
       rcases relLookup_mem _ _ hrp with rfl|rfl|rfl|rfl|rfl|rfl <;> decide)
    | (intro v; exact ⟨rfl, rfl⟩)
    | (intro v
       simp [AnnotationConv.dctDescriptionT, AnnotationConv.dctermsNs,
         AnnotationConv.rdfsLabelT, AnnotationConv.rdfsNs, AnnotationConv.defaultBase])

theorem c1_objects_desc (doc : AnnotationConv.YDoc) (i : Nat)
    (a : String × String × AnnotationConv.YColumn)
    (hx : (AnnotationConv.assignUris doc.columns [])[i]? = some a) :
    objectsOf (AnnotationConv.yamlToTtlGraph AnnotationConv.defaultBase doc)
      (.uri (AnnotationConv.defaultBase ++ a.1))
      AnnotationConv.dctDescriptionT
      = (a.2.2.description.map RTerm.lit).toList := by
  rw [objectsOf, c1_sp_filter doc _ i a hx]
  simp only [AnnotationConv.colTriples, List.filter_append]
  rw [filter_sp_cons_of_ne, filter_sp_cons_of_ne, optBlock_filter_nil, optBlock_filter_keep,
    optBlock_filter_nil, mapsBlock_filter_nil, refsBlock_filter_nil, commentsBlock_filter_nil]
  · cases h : a.2.2.description <;> rfl
  all_goals first
    | decide
    | (intro rel rp hrp
       rcases relLookup_mem _ _ hrp with rfl|rfl|rfl|rfl|rfl|rfl <;> decide)
    | (intro v; exact ⟨rfl, rfl⟩)
    | (intro v
       simp [AnnotationConv.dctDescriptionT, AnnotationConv.dctermsNs,
         AnnotationConv.rdfsLabelT, AnnotationConv.rdfsNs, AnnotationConv.defaultBase])

theorem c1_objects_dt (doc : AnnotationConv.YDoc) (i : Nat)
    (a : String × String × AnnotationConv.YColumn)
    (hx : (AnnotationConv.assignUris doc.columns [])[i]? = some a) :
    objectsOf (AnnotationConv.yamlToTtlGraph AnnotationConv.defaultBase doc)
      (.uri (AnnotationConv.defaultBase ++ a.1))
      (.uri (AnnotationConv.defaultBase ++ "dataType"))
      = (a.2.2.dataTypeField.map (fun dt =>
          RTerm.uri ((AnnotationConv.lookupStr AnnotationConv.datatypeTable dt).getD
            (AnnotationConv.xsdNs ++ "string")))).toList := by
  rw [objectsOf, c1_sp_filter doc _ i a hx]
  simp only [AnnotationConv.colTriples, List.filter_append]
  rw [filter_sp_cons_of_ne, filter_sp_cons_of_ne, optBlock_filter_nil, optBlock_filter_nil,
    optBlock_filter_keep, mapsBlock_filter_nil, refsBlock_filter_nil, commentsBlock_filter_nil]
  · cases h : a.2.2.dataTypeField <;> rfl
  all_goals first
    | decide
    | (intro rel rp hrp
       rcases relLookup_mem _ _ hrp with rfl|rfl|rfl|rfl|rfl|rfl <;> decide)
    | (intro v; exact ⟨rfl, rfl⟩)
    | (intro v
       simp [AnnotationConv.dctDescriptionT, AnnotationConv.dctermsNs,
         AnnotationConv.rdfsLabelT, AnnotationConv.rdfsNs, AnnotationConv.defaultBase])

theorem fold_last_toList (o : Option String) :
    ((o.map RTerm.lit).toList).foldl (fun _ ob => some (pyStr ob)) none = o := by
  cases o <;> rfl

theorem fold_dt_toList (o : Option String)
    (h : ∀ dt, o = some dt →
      (AnnotationConv.lookupStr AnnotationConv.datatypeTable dt).isSome) :
    ((o.map (fun dt =>
        RTerm.uri ((AnnotationConv.lookupStr AnnotationConv.datatypeTable dt).getD
          (AnnotationConv.xsdNs ++ "string")))).toList).foldl
      (fun acc ob => (AnnotationConv.revLookupDatatype (pyStr ob)).elim acc some) none
      = o := by
  cases o with
  | none => rfl
  | some dt =>
    obtain ⟨u, hu⟩ := Option.isSome_iff_exists.mp (h dt rfl)
    simp only [Option.map_some', Option.toList_some, List.foldl_cons, List.foldl_nil]
    rw [hu]
    simp only [Option.getD_some]
    rw [show pyStr (RTerm.uri u) = u from rfl, revLookup_of_lookup dt u hu]
    rfl

theorem c1_revColumnOf (doc : AnnotationConv.YDoc) (pfx2 : List (String × String)) (i : Nat)
    (a : String × String × AnnotationConv.YColumn)
    (hx : (AnnotationConv.assignUris doc.columns [])[i]? = some a) (hname : a.2.1 ≠ "")
    (hdt : ∀ dt, a.2.2.dataTypeField = some dt →
      (AnnotationConv.lookupStr AnnotationConv.datatypeTable dt).isSome) :
    AnnotationConv.revColumnOf (AnnotationConv.yamlToTtlGraph AnnotationConv.defaultBase doc)
      AnnotationConv.defaultBase pfx2
      (.uri (AnnotationConv.defaultBase ++ a.1))
    = some (a.2.1,
        AnnotationConv.revRestFields
          (AnnotationConv.yamlToTtlGraph AnnotationConv.defaultBase doc)
          AnnotationConv.defaultBase pfx2
          (.uri (AnnotationConv.defaultBase ++ a.1))
          a.2.2.label a.2.2.description a.2.2.dataTypeField) := by
  have hv := c1_value_name doc i a hx
  rw [valueOf] at hv
  unfold AnnotationConv.revColumnOf
  rw [hv]
  simp only []
  rw [if_neg (show ¬(pyStr (RTerm.lit a.2.1) = "") from hname)]
  rw [c1_objects_label doc i a hx, c1_objects_desc doc i a hx,
    c1_objects_dt doc i a hx]
  rw [fold_last_toList, fold_last_toList, fold_dt_toList _ hdt]
  rfl

theorem filter_po_nil_of {P O : RTerm} (l : List Triple)
    (h : ∀ t ∈ l, ¬(t.2.1 = P ∧ t.2.2 = O)) :
    l.filter (fun x => decide (x.2.1 = P ∧ x.2.2 = O)) = [] := by
  rw [List.filter_eq_nil_iff]
  intro t ht
  simp only [decide_eq_true_eq]
  exact h t ht

theorem c1_colfilter_type_ne (pfx : List (String × String)) (ln n : String)
    (cd : AnnotationConv.YColumn) :
    (AnnotationConv.colTriples AnnotationConv.defaultBase pfx ln n cd).filter
      (fun x => decide (x.2.1 = AnnotationConv.rdfTypeT
        ∧ x.2.2 = RTerm.uri (AnnotationConv.defaultBase ++ "ColumnAnnotation"))) ≠ [] := by
  simp only [AnnotationConv.colTriples, List.filter_append]
  rw [filter_po_cons_pos]
  · simp
  · rfl
  · rfl

theorem c1_colfilter_type_subj (pfx : List (String × String)) (ln n : String)
    (cd : AnnotationConv.YColumn) (t : Triple)
    (ht : t ∈ (AnnotationConv.colTriples AnnotationConv.defaultBase pfx ln n cd).filter
      (fun x => decide (x.2.1 = AnnotationConv.rdfTypeT
        ∧ x.2.2 = RTerm.uri (AnnotationConv.defaultBase ++ "ColumnAnnotation")))) :
    t.1 = RTerm.uri (AnnotationConv.defaultBase ++ ln) :=
  mem_colTriples_subj _ _ _ _ _ _ (List.mem_filter.mp ht).1

theorem dedupFAux_skip {α : Type} [DecidableEq α] (seen : List α) :
    ∀ (l rest : List α), (∀ x ∈ l, x ∈ seen) →
      dedupFAux seen (l ++ rest) = dedupFAux seen rest := by
  intro l
  induction l with
  | nil => intro rest _; rfl
  | cons x l ih =>
    intro rest h
    rw [List.cons_append]
    simp only [dedupFAux]
    rw [if_pos (h x (List.mem_cons_self x l))]
    exact ih rest (fun y hy => h y (List.mem_cons_of_mem x hy))

theorem dedupFAux_const_blocks {α : Type} [DecidableEq α] :
    ∀ (bs : List (List α × α)) (seen : List α),
      (∀ p ∈ bs, p.1 ≠ [] ∧ ∀ x ∈ p.1, x = p.2) →
      (bs.map Prod.snd).Nodup →
      (∀ p ∈ bs, p.2 ∉ seen) →
      dedupFAux seen (bs.map Prod.fst).flatten = bs.map Prod.snd := by
  intro bs
  induction bs with
  | nil => intro seen _ _ _; rfl
  | cons p bs ih =>
    intro seen hconst hnd hseen
    rw [List.map_cons, List.nodup_cons] at hnd
    rw [List.map_cons, List.flatten_cons]
    obtain ⟨hne, hall⟩ := hconst p (List.mem_cons_self p bs)
    cases hp1 : p.1 with
    | nil => exact absurd hp1 hne
    | cons y ys =>
      have hy : y = p.2 := hall y (hp1 ▸ List.mem_cons_self y ys)
      subst hy
      rw [List.cons_append]
      simp only [dedupFAux]
      rw [if_neg (hseen p (List.mem_cons_self p bs))]
      rw [dedupFAux_skip _ ys _ ?hys]
      case hys =>
        intro x hx
        rw [hall x (hp1 ▸ List.mem_cons_of_mem _ hx)]
        exact List.mem_cons_self _ _
      rw [List.map_cons]
      refine congrArg (List.cons p.2) (ih (p.2 :: seen) ?h1 hnd.2 ?h2)
      case h1 => exact fun q hq => hconst q (List.mem_cons_of_mem p hq)
      case h2 =>
        intro q hq
        rw [List.mem_cons, not_or]
        exact ⟨fun he => hnd.1 (he ▸ List.mem_map_of_mem Prod.snd hq),
          hseen q (List.mem_cons_of_mem p hq)⟩

theorem c1_dataset_type_nil (m : Option AnnotationConv.YDatasetMeta) :
    (AnnotationConv.datasetTriples AnnotationConv.defaultBase m).filter
      (fun x => decide (x.2.1 = AnnotationConv.rdfTypeT
        ∧ x.2.2 = RTerm.uri (AnnotationConv.defaultBase ++ "ColumnAnnotation"))) = [] := by
  apply filter_po_nil_of
  intro t ht
  cases m with
  | none => simp [AnnotationConv.datasetTriples] at ht
  | some m =>
    simp only [AnnotationConv.datasetTriples, List.mem_cons, List.mem_append] at ht
    rcases ht with rfl | ((((h | h) | h) | h) | h)
    · rintro ⟨-, ho⟩
      exact absurd ho (show ¬(AnnotationConv.dcatDatasetT
        = RTerm.uri (AnnotationConv.defaultBase ++ "ColumnAnnotation")) by decide)
    all_goals
      obtain ⟨v, _, rfl⟩ := mem_toList_map _ _ _ h
    all_goals
      rintro ⟨hp, -⟩
    · exact absurd hp (show ¬(AnnotationConv.dctTitleT = AnnotationConv.rdfTypeT) by decide)
    · exact absurd hp
        (show ¬(AnnotationConv.dctDescriptionT = AnnotationConv.rdfTypeT) by decide)
    · exact absurd hp (show ¬(AnnotationConv.dctPublisherT = AnnotationConv.rdfTypeT) by decide)
    · exact absurd hp (show ¬(AnnotationConv.dctSourceT = AnnotationConv.rdfTypeT) by decide)
    · exact absurd hp (show ¬(AnnotationConv.dctLicenseT = AnnotationConv.rdfTypeT) by decide)

theorem c1_file_type_nil (fm : Option AnnotationConv.YFileMeta) :
    (AnnotationConv.fileTriples AnnotationConv.defaultBase fm).filter
      (fun x => decide (x.2.1 = AnnotationConv.rdfTypeT
        ∧ x.2.2 = RTerm.uri (AnnotationConv.defaultBase ++ "ColumnAnnotation"))) = [] := by
  apply filter_po_nil_of
  intro t ht
  cases fm with
  | none => simp [AnnotationConv.fileTriples] at ht
  | some fm =>
    simp only [AnnotationConv.fileTriples, List.mem_append] at ht
    rcases ht with (h | h) | h
    all_goals
      obtain ⟨v, _, rfl⟩ := mem_toList_map _ _ _ h
    all_goals
      rintro ⟨hp, -⟩
    · exact absurd hp (show ¬(AnnotationConv.dctCreatedT = AnnotationConv.rdfTypeT) by decide)
    · exact absurd hp (show ¬(AnnotationConv.dctModifiedT = AnnotationConv.rdfTypeT) by decide)
    · exact absurd hp (show ¬(RTerm.uri (AnnotationConv.defaultBase ++ "version")
        = AnnotationConv.rdfTypeT) by decide)

theorem c1_subjects_cols (doc : AnnotationConv.YDoc) :
    subjectsOf (AnnotationConv.yamlToTtlGraph AnnotationConv.defaultBase doc)
      AnnotationConv.rdfTypeT (.uri (AnnotationConv.defaultBase ++ "ColumnAnnotation"))
      = (AnnotationConv.assignUris doc.columns []).map (fun b =>
          RTerm.uri (AnnotationConv.defaultBase ++ b.1)) := by
  obtain ⟨-, hB, -, -⟩ := assignUris_props doc.columns []
  have hpre : (AnnotationConv.preludeTriples AnnotationConv.defaultBase).filter
      (fun x => decide (x.2.1 = AnnotationConv.rdfTypeT
        ∧ x.2.2 = RTerm.uri (AnnotationConv.defaultBase ++ "ColumnAnnotation"))) = [] := rfl
  rw [subjectsOf, AnnotationConv.yamlToTtlGraph,
    List.filter_append, List.filter_append, List.filter_append,
    hpre, c1_dataset_type_nil, c1_file_type_nil, filter_flatten, List.map_map]
  simp only [List.nil_append, List.append_nil]
  rw [List.map_flatten, List.map_map, dedupF]
  have hmain := dedupFAux_const_blocks
    ((AnnotationConv.assignUris doc.columns []).map (fun b =>
      (((AnnotationConv.colTriples AnnotationConv.defaultBase doc.prefixes
            b.1 b.2.1 b.2.2).filter
          (fun x => decide (x.2.1 = AnnotationConv.rdfTypeT
            ∧ x.2.2 = RTerm.uri (AnnotationConv.defaultBase ++ "ColumnAnnotation")))).map
          (fun t => t.1),
       RTerm.uri (AnnotationConv.defaultBase ++ b.1))))
    [] ?hconst ?hnd ?hseen
  case hconst =>
    intro p hp
    obtain ⟨b, hb, rfl⟩ := List.mem_map.mp hp
    refine ⟨?_, ?_⟩
    · intro h
      exact c1_colfilter_type_ne doc.prefixes b.1 b.2.1 b.2.2 (List.map_eq_nil_iff.mp h)
    · intro x hx
      obtain ⟨t, ht, rfl⟩ := List.mem_map.mp hx
      exact c1_colfilter_type_subj doc.prefixes b.1 b.2.1 b.2.2 t ht
  case hnd =>
    rw [List.map_map]
    have h1 : ((AnnotationConv.assignUris doc.columns []).map (Prod.snd ∘ (fun b =>
        (((AnnotationConv.colTriples AnnotationConv.defaultBase doc.prefixes
              b.1 b.2.1 b.2.2).filter
            (fun x => decide (x.2.1 = AnnotationConv.rdfTypeT
              ∧ x.2.2 = RTerm.uri (AnnotationConv.defaultBase ++ "ColumnAnnotation")))).map
            (fun t => t.1),
         RTerm.uri (AnnotationConv.defaultBase ++ b.1)))))
        = ((AnnotationConv.assignUris doc.columns []).map (fun b => b.1)).map
          (fun s => RTerm.uri (AnnotationConv.defaultBase ++ s)) := by
      rw [List.map_map]
      rfl
    rw [h1]
    exact List.Nodup.map
      (fun a b h => strAppend_left_cancel (RTerm.uri.inj h)) hB
  case hseen =>
    intro p hp
    simp
  rw [List.map_map, List.map_map] at hmain
  exact hmain

theorem foldl_dictUpsert_keyed {α β : Type} (key : β → String) (val : β → α) :
    ∀ (l : List β) (acc : List (String × α)),
      (∀ p ∈ l, ∀ q ∈ acc, q.1 ≠ key p) → (l.map key).Nodup →
      l.foldl (fun acc p => AnnotationConv.dictUpsert acc (key p) (val p)) acc
        = acc ++ l.map (fun p => (key p, val p)) := by
  intro l
  induction l with
  | nil => intro acc _ _; simp
  | cons p l ih =>
    intro acc hdisj hnd
    rw [List.map_cons, List.nodup_cons] at hnd
    rw [List.foldl_cons]
    have hup : AnnotationConv.dictUpsert acc (key p) (val p) = acc ++ [(key p, val p)] := by
      rw [AnnotationConv.dictUpsert, if_neg]
      intro hany
      rw [List.any_eq_true] at hany
      obtain ⟨q, hq, hqk⟩ := hany
      simp only [decide_eq_true_eq] at hqk
      exact hdisj p (List.mem_cons_self p l) q hq hqk
    rw [hup, ih (acc ++ [(key p, val p)]) ?hdisj2 hnd.2, List.map_cons]
    · rw [List.append_assoc]
      rfl
    case hdisj2 =>
      intro p' hp' q hq
      rcases List.mem_append.mp hq with hq | hq
      · exact hdisj p' (List.mem_cons_of_mem p hp') q hq
      · simp only [List.mem_singleton] at hq
        subst hq
        intro he
        have he2 : key p = key p' := he
        exact hnd.1 (he2 ▸ List.mem_map_of_mem key hp')

/-- **C1** (amended, positive part): for every schema document whose
column names are pairwise distinct (as the keys of a YAML mapping are)
and non-empty and whose `data_type` values come from the documented
`DATATYPE_MAPPING` enum, the `yaml_to_ttl`/`ttl_to_yaml` round trip
under the converter's default base URI preserves, per column and in
order, the column name, `label`, `description` and `data_type` exactly.
(The `mappings`/`references` sets are *not* preserved; see the
counterexample.) -/
theorem C1_round_trip_fields (doc : AnnotationConv.YDoc)
    (hnames : (doc.columns.map Prod.fst).Nodup)
    (hname : ∀ c ∈ doc.columns, c.1 ≠ "")
    (hdt : ∀ c ∈ doc.columns, ∀ dt, c.2.dataTypeField = some dt →
      (AnnotationConv.lookupStr AnnotationConv.datatypeTable dt).isSome) :
    (AnnotationConv.roundTrip AnnotationConv.defaultBase doc).columns.map
        (fun c => (c.1, c.2.label, c.2.description, c.2.dataTypeField))
      = doc.columns.map (fun c => (c.1, c.2.label, c.2.description, c.2.dataTypeField)) := by
  obtain ⟨hA, -, -, -⟩ := assignUris_props doc.columns []
  simp only [AnnotationConv.roundTrip, AnnotationConv.ttlToYaml, AnnotationConv.yamlToTtl]
  rw [c1_subjects_cols doc]
  rw [map_eq_enum_map (fun b => RTerm.uri (AnnotationConv.defaultBase ++ b.1))
    (AnnotationConv.assignUris doc.columns []), List.foldl_map]
  rw [foldl_congr_mem _
      (fun (acc : List (String × AnnotationConv.RevColumn))
           (q : Nat × (String × String × AnnotationConv.YColumn)) =>
        AnnotationConv.dictUpsert acc q.2.2.1
          (AnnotationConv.revRestFields
            (AnnotationConv.yamlToTtlGraph AnnotationConv.defaultBase doc)
            AnnotationConv.defaultBase
            (List.filter (fun p => decide (p.1 ≠ "" ∧ p.2 ≠ AnnotationConv.defaultBase))
              (AnnotationConv.forwardBindings AnnotationConv.defaultBase doc.prefixes))
            (RTerm.uri (AnnotationConv.defaultBase ++ q.2.1))
            q.2.2.2.label q.2.2.2.description q.2.2.2.dataTypeField))
      (AnnotationConv.assignUris doc.columns []).enum [] ?hcong]
  case hcong =>
    intro acc q hq
    have hx : (AnnotationConv.assignUris doc.columns [])[q.1]? = some q.2 :=
      List.mem_enum_iff_getElem?.mp hq
    have hamem : q.2 ∈ AnnotationConv.assignUris doc.columns [] := by
      obtain ⟨hlt, he⟩ := List.getElem?_eq_some_iff.mp hx
      exact he ▸ List.getElem_mem hlt
    have hcmem : (q.2.2.1, q.2.2.2) ∈ doc.columns := by
      rw [← hA]
      exact List.mem_map_of_mem _ hamem
    rw [c1_revColumnOf doc _ q.1 q.2 hx (hname _ hcmem)
      (fun dt hd => hdt _ hcmem dt hd)]
    rfl
  rw [foldl_dictUpsert_keyed _ _ (AnnotationConv.assignUris doc.columns []).enum []
      (by intro p hp q hq; simp at hq) ?hkeys, List.nil_append]
  case hkeys =>
    have h2 : (AnnotationConv.assignUris doc.columns []).enum.map (fun q => q.2.2.1)
        = (AnnotationConv.assignUris doc.columns []).map (fun b => b.2.1) :=
      (map_eq_enum_map (fun b => b.2.1) (AnnotationConv.assignUris doc.columns [])).symm
    rw [h2]
    have h3 : (AnnotationConv.assignUris doc.columns []).map (fun b => b.2.1)
        = ((AnnotationConv.assignUris doc.columns []).map
            (fun b => (b.2.1, b.2.2))).map Prod.fst := by
      rw [List.map_map]
      rfl
    rw [h3, hA]
    exact hnames
  rw [List.map_map]
  refine Eq.trans (map_eq_enum_map
      (fun b : String × String × AnnotationConv.YColumn =>
        (b.2.1, b.2.2.label, b.2.2.description, b.2.2.dataTypeField))
      (AnnotationConv.assignUris doc.columns [])).symm ?_
  have h5 : (AnnotationConv.assignUris doc.columns []).map
      (fun b => (b.2.1, b.2.2.label, b.2.2.description, b.2.2.dataTypeField))
      = ((AnnotationConv.assignUris doc.columns []).map (fun b => (b.2.1, b.2.2))).map
          (fun c => (c.1, c.2.label, c.2.description, c.2.dataTypeField)) := by
    rw [List.map_map]
    rfl
  rw [h5, hA]

/-- Witness for C1 at the spec's `CERT` example document. -/
theorem C1_round_trip_fields_witness :
    (AnnotationConv.roundTrip AnnotationConv.defaultBase AnnotationConv.certDoc).columns.map
        (fun c => (c.1, c.2.label, c.2.description, c.2.dataTypeField))
      = [("CERT", some "FDIC Certificate Number",
          some "Unique identifier assigned by FDIC", some "integer")] := by
  have h := C1_round_trip_fields AnnotationConv.certDoc (by decide) (by decide)
    (by intro c hc dt hdtq
        simp only [AnnotationConv.certDoc, List.mem_singleton] at hc
        subst hc
        simp only [Option.some.injEq] at hdtq
        subst hdtq
        decide)
  rw [h]
  rfl

/-- Counterexample to C1 as stated: the round trip of the spec's `CERT`
document loses the Wikidata reference (its `owl:sameAs` triple is never
read back) and invents an `instance_of` mapping from the column's
`rdf:type` triple, so neither the references set nor the mappings set is
preserved. -/
theorem C1_wikidata_reference_counterexample :
    (AnnotationConv.certDoc.columns.map fun c => (c.1, c.2.references, c.2.mappings))
      = [("CERT", [AnnotationConv.YRef.wikidataDict "Q116907062"], [])]
    ∧ ((AnnotationConv.roundTrip AnnotationConv.defaultBase AnnotationConv.certDoc).columns.map
        fun c => (c.1, c.2.references, c.2.mappings))
      = [("CERT", [],
          [{ property := "http://example.org/csv2rdf/ColumnAnnotation",
             relation := "instance_of" }])] :=
  ⟨rfl, rfl⟩

